import Mathlib

/-!
# Verification of the record layout engine (RecordLayoutBuilder.cpp, CXType.cpp)

This file gives a shallow embedding, in Lean 4, of the parts of the record
layout engine relevant to the claims under scrutiny:

* the empty-subobject map and the Itanium base-placement loop;
* primary-base determination for the Itanium builder;
* the Itanium bitfield and wide-bitfield layout and `FinishLayout`;
* external-layout offset reconciliation;
* the Microsoft record layout pipeline (`cxxLayout`, vbptr injection,
  virtual base layout, `finalizeLayout`);
* the key-function resolver;
* `clang_Type_getOffsetOf` and its validation walk.

All offsets and sizes are modelled as natural numbers (`CharUnits` counts,
or bit counts where the source works in bits); `-1` sentinel values are
modelled with `Int` or `Option`.  Declaration identity (pointer equality of
`CXXRecordDecl`s in the source) is modelled by a numeric `name` carried on
every record node: two tree nodes with the same name stand for the same
declaration.  Facts provided by external collaborators of the engine
(the declaration graph, target parameters, cached layouts of other records)
enter as explicit data.
-/

/-! ## CharUnits / bit arithmetic helpers

`llvm::RoundUpToAlignment(Value, Align)` and
`CharUnits::RoundUpToAlignment(Align)` both compute
`(Value + Align - 1) / Align * Align`.  Alignment arguments are always
positive in the source; we guard the zero case to stay total. -/

def roundUp (value align : Nat) : Nat :=
  if align = 0 then value else (value + align - 1) / align * align

theorem roundUp_zero_align (v : Nat) : roundUp v 0 = v := by simp [roundUp]

theorem le_roundUp (v a : Nat) : v ≤ roundUp v a := by
  unfold roundUp
  by_cases h : a = 0
  · simp [h]
  · simp only [h, if_false]
    have h1 : 0 < a := Nat.pos_of_ne_zero h
    have hdm : a * ((v + a - 1) / a) + (v + a - 1) % a = v + a - 1 :=
      Nat.div_add_mod _ _
    have hm : (v + a - 1) % a < a := Nat.mod_lt _ h1
    rw [Nat.mul_comm]
    omega

theorem dvd_roundUp (v a : Nat) (h : a ≠ 0) : a ∣ roundUp v a := by
  unfold roundUp
  simp only [h, if_false]
  exact Dvd.intro_left _ rfl

theorem roundUp_eq_self_of_dvd {v a : Nat} (ha : a ≠ 0) (h : a ∣ v) :
    roundUp v a = v := by
  unfold roundUp
  simp only [ha, if_false]
  obtain ⟨k, rfl⟩ := h
  have h1 : 0 < a := Nat.pos_of_ne_zero ha
  have h2 : a * k + a - 1 = (a - 1) + a * k := by omega
  rw [h2, Nat.add_mul_div_left _ _ h1, Nat.div_eq_of_lt (by omega), Nat.zero_add,
      Nat.mul_comm]

theorem roundUp_lt_add {v a : Nat} (h : a ≠ 0) : roundUp v a < v + a := by
  unfold roundUp
  simp only [h, if_false]
  have h2 : (v + a - 1) / a * a ≤ v + a - 1 := Nat.div_mul_le_self _ _
  have h1 : 0 < a := Nat.pos_of_ne_zero h
  omega

/-- A power of two, the shape of every alignment value handled by the engine. -/
def isPow2 (n : Nat) : Prop := ∃ k : Nat, n = 2 ^ k

theorem isPow2_pos {n : Nat} (h : isPow2 n) : 0 < n := by
  obtain ⟨k, rfl⟩ := h; exact Nat.pos_pow_of_pos _ (by norm_num)

theorem isPow2_max {a b : Nat} (ha : isPow2 a) (hb : isPow2 b) :
    isPow2 (max a b) := by
  rcases Nat.le_total a b with h | h
  · rwa [Nat.max_eq_right h]
  · rwa [Nat.max_eq_left h]

theorem isPow2_min {a b : Nat} (ha : isPow2 a) (hb : isPow2 b) :
    isPow2 (min a b) := by
  rcases Nat.le_total a b with h | h
  · rwa [Nat.min_eq_left h]
  · rwa [Nat.min_eq_right h]

theorem isPow2_dvd_of_le {a b : Nat} (ha : isPow2 a) (hb : isPow2 b)
    (h : a ≤ b) : a ∣ b := by
  obtain ⟨i, rfl⟩ := ha
  obtain ⟨j, rfl⟩ := hb
  have hij : i ≤ j := by
    by_contra hij
    push_neg at hij
    exact absurd (Nat.pow_lt_pow_right (by norm_num) hij) (not_lt.mpr h)
  exact pow_dvd_pow 2 hij

/-- Rounding up to a power-of-two alignment preserves divisibility by any
power of two that already divides the value being rounded. -/
theorem dvd_roundUp_of_dvd {d v a : Nat} (hd : isPow2 d) (ha : isPow2 a)
    (hv : d ∣ v) : d ∣ roundUp v a := by
  rcases Nat.le_total d a with h | h
  · exact (isPow2_dvd_of_le hd ha h).trans (dvd_roundUp v a (isPow2_pos ha).ne')
  · have hane : a ≠ 0 := (isPow2_pos ha).ne'
    rw [roundUp_eq_self_of_dvd hane ((isPow2_dvd_of_le ha hd h).trans hv)]
    exact hv

/-! ## Key-function resolver (`computeKeyFunction`, RecordLayoutBuilder.cpp:1867)

The resolver inspects only per-method flags and class-level properties, all
provided by the declaration graph; they enter the model as data. -/

/-- `clang::TemplateSpecializationKind`. -/
inductive TemplateSpecializationKind where
  | undeclared
  | implicitInstantiation
  | explicitSpecialization
  | explicitInstantiationDeclaration
  | explicitInstantiationDefinition
deriving DecidableEq, Repr

/-- The flags of a `CXXMethodDecl` read by `computeKeyFunction`.
`body = some b` models `MD->hasBody(Def)` returning true with
`Def->isInlineSpecified() = b`; `body = none` models having no body. -/
structure CXXMethod where
  isVirtual : Bool
  isPure : Bool
  isImplicit : Bool
  isInlineSpecified : Bool
  hasInlineBody : Bool
  isUserProvided : Bool
  body : Option Bool
deriving DecidableEq, Repr

/-- The properties of a `CXXRecordDecl` read by `computeKeyFunction`. -/
structure KFClass where
  isPolymorphic : Bool
  isExternallyVisible : Bool
  tsk : TemplateSpecializationKind
  methods : List CXXMethod
deriving DecidableEq, Repr

/-- The method loop of `computeKeyFunction` (RecordLayoutBuilder.cpp:1889),
with each `continue` translated to a recursive call. -/
def keyFunctionLoop (allowInlineFunctions : Bool) : List CXXMethod → Option CXXMethod
  | [] => none
  | md :: rest =>
    if !md.isVirtual then keyFunctionLoop allowInlineFunctions rest
    else if md.isPure then keyFunctionLoop allowInlineFunctions rest
    else if md.isImplicit then keyFunctionLoop allowInlineFunctions rest
    else if md.isInlineSpecified then keyFunctionLoop allowInlineFunctions rest
    else if md.hasInlineBody then keyFunctionLoop allowInlineFunctions rest
    else if !md.isUserProvided then keyFunctionLoop allowInlineFunctions rest
    else if !allowInlineFunctions &&
            (match md.body with
             | some defIsInlineSpecified => defIsInlineSpecified
             | none => false) then keyFunctionLoop allowInlineFunctions rest
    else some md

/-- `computeKeyFunction` (RecordLayoutBuilder.cpp:1867).
`allowInlineFunctions` is `Context.getTargetInfo().getCXXABI().canKeyFunctionBeInline()`. -/
def computeKeyFunction (allowInlineFunctions : Bool) (rd : KFClass) :
    Option CXXMethod :=
  if !rd.isPolymorphic then none
  else if !rd.isExternallyVisible then none
  else if rd.tsk = .implicitInstantiation ∨
          rd.tsk = .explicitInstantiationDefinition then none
  else keyFunctionLoop allowInlineFunctions rd.methods

/-- The qualification predicate as the specification words it: virtual,
non-pure, non-implicit, not inline-specified, no inline body, user-provided,
and (when the ABI forbids inline key functions) no definition marked inline. -/
def keyFunctionQualifies (allowInlineFunctions : Bool) (md : CXXMethod) : Bool :=
  md.isVirtual && !md.isPure && !md.isImplicit && !md.isInlineSpecified &&
  !md.hasInlineBody && md.isUserProvided &&
  (allowInlineFunctions || !(md.body.getD false))

theorem keyFunctionLoop_eq_find (allowInlineFunctions : Bool)
    (ms : List CXXMethod) :
    keyFunctionLoop allowInlineFunctions ms =
      ms.find? (keyFunctionQualifies allowInlineFunctions) := by
  induction ms with
  | nil => rfl
  | cons md rest ih =>
    obtain ⟨v, p, i, isl, ib, u, b⟩ := md
    cases v <;> cases p <;> cases i <;> cases isl <;> cases ib <;> cases u <;>
      rcases b with _ | b <;> (try cases b) <;> cases allowInlineFunctions <;>
      simp [keyFunctionLoop, keyFunctionQualifies, ih, List.find?]

/-- C7: the key-function resolver returns null for non-polymorphic,
non-externally-visible, or implicit/explicit-definition-instantiated
classes; otherwise it returns the first method in declaration order
satisfying the qualification predicate, or null if none qualifies. -/
theorem computeKeyFunction_spec (allowInlineFunctions : Bool) (rd : KFClass) :
    computeKeyFunction allowInlineFunctions rd =
      if rd.isPolymorphic = false ∨ rd.isExternallyVisible = false ∨
         rd.tsk = .implicitInstantiation ∨
         rd.tsk = .explicitInstantiationDefinition
      then none
      else rd.methods.find? (keyFunctionQualifies allowInlineFunctions) := by
  unfold computeKeyFunction
  cases hp : rd.isPolymorphic <;> cases he : rd.isExternallyVisible <;>
    by_cases ht : rd.tsk = .implicitInstantiation ∨
        rd.tsk = .explicitInstantiationDefinition <;>
    simp [hp, he, ht, keyFunctionLoop_eq_find]

/-! ## `clang_Type_getOffsetOf` (CXType.cpp:775) and its validation walk

The libclang entry point validates its input before it ever asks the layout
engine for an offset.  The AST facts it branches on enter as data; the
actual record layout enters as an oracle `Nat → Nat` mapping the found
field declaration to `Ctx.getFieldOffset`, so that "the error paths never
consult the layout" is expressible as oracle-independence. -/

def CXTypeLayoutError_Invalid : Int := -1
def CXTypeLayoutError_Incomplete : Int := -2
def CXTypeLayoutError_Dependent : Int := -3
def CXTypeLayoutError_NotConstantSize : Int := -4
def CXTypeLayoutError_InvalidFieldName : Int := -5

/-- A record as seen by `visitRecordForValidation` (CXType.cpp:754): each
field carries whether its type is incomplete, whether it is dependent, and
the nested record declaration when the field's type is a record type. -/
inductive VRec where
  | mk : List (Bool × Bool × Option VRec) → VRec

mutual

/-- `visitRecordForValidation` (CXType.cpp:754). -/
def visitRecordForValidation : VRec → Int
  | .mk fs => visitFieldsForValidation fs

/-- The field loop of `visitRecordForValidation`. -/
def visitFieldsForValidation : List (Bool × Bool × Option VRec) → Int
  | [] => 0
  | (inc, dep, child) :: rest =>
    if inc then CXTypeLayoutError_Incomplete
    else if dep then CXTypeLayoutError_Dependent
    else
      match child with
      | some c =>
        let ret := visitRecordForValidation c
        if ret < 0 then ret else visitFieldsForValidation rest
      | none => visitFieldsForValidation rest

end

mutual

/-- Specification-side predicate: some field type reachable through nested
record fields is incomplete or dependent. -/
def anyBadField : VRec → Bool
  | .mk fs => anyBadFieldList fs

def anyBadFieldList : List (Bool × Bool × Option VRec) → Bool
  | [] => false
  | (inc, dep, child) :: rest =>
    inc || dep ||
    (match child with | some c => anyBadField c | none => false) ||
    anyBadFieldList rest

end

/-- Case lemmas matching the functional induction principle of the
validation walk. -/
theorem visitValidation_case1 : ∀ (fs : List (Bool × Bool × Option VRec)),
    (visitFieldsForValidation fs ≤ 0 ∧
      (visitFieldsForValidation fs < 0 ↔ anyBadFieldList fs = true)) →
    (visitRecordForValidation (VRec.mk fs) ≤ 0 ∧
      (visitRecordForValidation (VRec.mk fs) < 0 ↔
        anyBadField (VRec.mk fs) = true)) := by
  intro fs ih
  rw [visitRecordForValidation.eq_def, anyBadField.eq_def]
  simpa using ih

theorem visitValidation_case2 : visitFieldsForValidation [] ≤ 0 ∧
    (visitFieldsForValidation [] < 0 ↔ anyBadFieldList [] = true) := by
  rw [visitFieldsForValidation.eq_def, anyBadFieldList.eq_def]
  simp

theorem visitValidation_case3 : ∀ (dep : Bool) (child : Option VRec)
    (rest : List (Bool × Bool × Option VRec)),
    visitFieldsForValidation ((true, dep, child) :: rest) ≤ 0 ∧
    (visitFieldsForValidation ((true, dep, child) :: rest) < 0 ↔
      anyBadFieldList ((true, dep, child) :: rest) = true) := by
  intro dep child rest
  rw [visitFieldsForValidation.eq_def, anyBadFieldList.eq_def]
  simp [CXTypeLayoutError_Incomplete]

theorem visitValidation_case4 : ∀ (inc : Bool) (child : Option VRec)
    (rest : List (Bool × Bool × Option VRec)), ¬inc = true →
    visitFieldsForValidation ((inc, true, child) :: rest) ≤ 0 ∧
    (visitFieldsForValidation ((inc, true, child) :: rest) < 0 ↔
      anyBadFieldList ((inc, true, child) :: rest) = true) := by
  intro inc child rest hinc
  simp only [Bool.not_eq_true] at hinc
  rw [visitFieldsForValidation.eq_def, anyBadFieldList.eq_def]
  simp [hinc, CXTypeLayoutError_Dependent]

theorem visitValidation_case5 : ∀ (inc dep : Bool)
    (rest : List (Bool × Bool × Option VRec)),
    ¬inc = true → ¬dep = true → ∀ (c : VRec),
    visitRecordForValidation c < 0 →
    (visitRecordForValidation c ≤ 0 ∧
      (visitRecordForValidation c < 0 ↔ anyBadField c = true)) →
    visitFieldsForValidation ((inc, dep, some c) :: rest) ≤ 0 ∧
    (visitFieldsForValidation ((inc, dep, some c) :: rest) < 0 ↔
      anyBadFieldList ((inc, dep, some c) :: rest) = true) := by
  intro inc dep rest hinc hdep c hlt ihc
  simp only [Bool.not_eq_true] at hinc hdep
  rw [visitFieldsForValidation.eq_def, anyBadFieldList.eq_def]
  simp only [hinc, hdep, Bool.false_eq_true, if_false, hlt, if_true,
    Bool.false_or]
  refine ⟨le_of_lt hlt, ?_⟩
  simp [hlt, ihc.2.mp hlt]

theorem visitValidation_case6 : ∀ (inc dep : Bool)
    (rest : List (Bool × Bool × Option VRec)),
    ¬inc = true → ¬dep = true → ∀ (c : VRec),
    ¬visitRecordForValidation c < 0 →
    (visitRecordForValidation c ≤ 0 ∧
      (visitRecordForValidation c < 0 ↔ anyBadField c = true)) →
    (visitFieldsForValidation rest ≤ 0 ∧
      (visitFieldsForValidation rest < 0 ↔ anyBadFieldList rest = true)) →
    visitFieldsForValidation ((inc, dep, some c) :: rest) ≤ 0 ∧
    (visitFieldsForValidation ((inc, dep, some c) :: rest) < 0 ↔
      anyBadFieldList ((inc, dep, some c) :: rest) = true) := by
  intro inc dep rest hinc hdep c hnlt ihc ihrest
  simp only [Bool.not_eq_true] at hinc hdep
  rw [visitFieldsForValidation.eq_def, anyBadFieldList.eq_def]
  have hbad : anyBadField c = false := by
    rcases hb : anyBadField c with _ | _
    · rfl
    · exact absurd (ihc.2.mpr hb) hnlt
  simp only [hinc, hdep, Bool.false_eq_true, if_false, hnlt, hbad,
    Bool.false_or]
  exact ihrest

theorem visitValidation_case7 : ∀ (inc dep : Bool)
    (rest : List (Bool × Bool × Option VRec)),
    ¬inc = true → ¬dep = true →
    (visitFieldsForValidation rest ≤ 0 ∧
      (visitFieldsForValidation rest < 0 ↔ anyBadFieldList rest = true)) →
    visitFieldsForValidation ((inc, dep, none) :: rest) ≤ 0 ∧
    (visitFieldsForValidation ((inc, dep, none) :: rest) < 0 ↔
      anyBadFieldList ((inc, dep, none) :: rest) = true) := by
  intro inc dep rest hinc hdep ihrest
  simp only [Bool.not_eq_true] at hinc hdep
  rw [visitFieldsForValidation.eq_def, anyBadFieldList.eq_def]
  simpa [hinc, hdep] using ihrest

/-- Joint specification of the validation walk: it never returns a positive
value, and it returns a negative value exactly when some reachable field
type is incomplete or dependent. -/
theorem visitValidation_spec :
    (∀ r : VRec, visitRecordForValidation r ≤ 0 ∧
      (visitRecordForValidation r < 0 ↔ anyBadField r = true)) ∧
    (∀ fs, visitFieldsForValidation fs ≤ 0 ∧
      (visitFieldsForValidation fs < 0 ↔ anyBadFieldList fs = true)) :=
  visitRecordForValidation.mutual_induct _ _ visitValidation_case1
    visitValidation_case2 visitValidation_case3 visitValidation_case4
    visitValidation_case5 visitValidation_case6 visitValidation_case7

/-- The possible results of `RD->lookup(FieldName)` as classified by
`clang_Type_getOffsetOf`: a `FieldDecl`, an `IndirectFieldDecl`, or some
other declaration; field declarations are identified by a numeric id that
the field-offset oracle maps to `Ctx.getFieldOffset`. -/
inductive LookupEntry where
  | fieldResult (declId : Nat)
  | indirectFieldResult (declId : Nat)
  | otherDecl
deriving DecidableEq, Repr

/-- The record definition data read by `clang_Type_getOffsetOf` after
`RD->getDefinition()` succeeds. -/
structure OffsetOfDef where
  isInvalidDecl : Bool
  rtIncomplete : Bool
  rtDependent : Bool
  validationRecord : VRec
  lookupResult : List LookupEntry

/-- The record declaration produced by `clang_getTypeDeclaration` when it is
a `RecordDecl`. -/
structure OffsetOfDecl where
  isInvalidDecl : Bool
  definition : Option OffsetOfDef

/-- The input of `clang_Type_getOffsetOf`: cursor validity, the record
declaration (none when the cursor declaration is not a record), and whether
the field-name argument is a null pointer. -/
structure OffsetOfInput where
  cursorKindInvalid : Bool
  recordDecl : Option OffsetOfDecl
  fieldNameIsNull : Bool

/-- `clang_Type_getOffsetOf` (CXType.cpp:775).  `fieldOffsetOracle` stands
for `Ctx.getFieldOffset`, the only consultation of the record layout. -/
def clang_Type_getOffsetOf (fieldOffsetOracle : Nat → Nat)
    (inp : OffsetOfInput) : Int :=
  if inp.cursorKindInvalid then CXTypeLayoutError_Invalid
  else
    match inp.recordDecl with
    | none => CXTypeLayoutError_Invalid
    | some rd =>
      if rd.isInvalidDecl then CXTypeLayoutError_Invalid
      else
        match rd.definition with
        | none => CXTypeLayoutError_Incomplete
        | some rdDef =>
          if rdDef.isInvalidDecl then CXTypeLayoutError_Invalid
          else if rdDef.rtIncomplete then CXTypeLayoutError_Incomplete
          else if rdDef.rtDependent then CXTypeLayoutError_Dependent
          else
            let err := visitRecordForValidation rdDef.validationRecord
            if err < 0 then err
            else if inp.fieldNameIsNull then CXTypeLayoutError_InvalidFieldName
            else
              match rdDef.lookupResult with
              | [LookupEntry.fieldResult declId] =>
                (fieldOffsetOracle declId : Int)
              | [LookupEntry.indirectFieldResult declId] =>
                (fieldOffsetOracle declId : Int)
              | _ => CXTypeLayoutError_InvalidFieldName

/-- Specification side: the name resolves to exactly one field or indirect
field of the record. -/
def lookupIsSingleField : List LookupEntry → Option Nat
  | [LookupEntry.fieldResult declId] => some declId
  | [LookupEntry.indirectFieldResult declId] => some declId
  | _ => none

/-- Specification side: the disjunction of error conditions named by the
claim. -/
def offsetOfHasError (inp : OffsetOfInput) : Bool :=
  inp.cursorKindInvalid ||
  (match inp.recordDecl with
   | none => true
   | some rd =>
     rd.isInvalidDecl ||
     (match rd.definition with
      | none => true
      | some rdDef =>
        rdDef.isInvalidDecl || rdDef.rtIncomplete || rdDef.rtDependent ||
        anyBadField rdDef.validationRecord || inp.fieldNameIsNull ||
        (lookupIsSingleField rdDef.lookupResult).isNone))

/-- C10: `clang_Type_getOffsetOf` returns a negative error code exactly
under the error conditions enumerated by the claim, the error result never
consults the record layout (it is independent of the field-offset oracle),
and otherwise the result is the nonnegative bit offset of the unique field
or indirect field found by name lookup. -/
theorem clang_Type_getOffsetOf_spec (fieldOffsetOracle : Nat → Nat)
    (inp : OffsetOfInput) :
    (clang_Type_getOffsetOf fieldOffsetOracle inp < 0 ↔
      offsetOfHasError inp = true) ∧
    (offsetOfHasError inp = true →
      ∀ oracle2 : Nat → Nat,
        clang_Type_getOffsetOf oracle2 inp =
          clang_Type_getOffsetOf fieldOffsetOracle inp) ∧
    (offsetOfHasError inp = false →
      ∃ declId, lookupIsSingleField
          ((inp.recordDecl.bind OffsetOfDecl.definition).elim
            [] OffsetOfDef.lookupResult) = some declId ∧
        clang_Type_getOffsetOf fieldOffsetOracle inp =
          (fieldOffsetOracle declId : Int)) := by
  obtain ⟨ck, rdo, fnull⟩ := inp
  cases ck with
  | true => simp [clang_Type_getOffsetOf, offsetOfHasError,
      CXTypeLayoutError_Invalid]
  | false =>
    cases rdo with
    | none => simp [clang_Type_getOffsetOf, offsetOfHasError,
        CXTypeLayoutError_Invalid]
    | some rd =>
      obtain ⟨rdinv, rddef⟩ := rd
      cases rdinv with
      | true => simp [clang_Type_getOffsetOf, offsetOfHasError,
          CXTypeLayoutError_Invalid]
      | false =>
        cases rddef with
        | none => simp [clang_Type_getOffsetOf, offsetOfHasError,
            CXTypeLayoutError_Incomplete]
        | some rdDef =>
          obtain ⟨dinv, rtinc, rtdep, vrec, lres⟩ := rdDef
          cases dinv with
          | true => simp [clang_Type_getOffsetOf, offsetOfHasError,
              CXTypeLayoutError_Invalid]
          | false =>
            cases rtinc with
            | true => simp [clang_Type_getOffsetOf, offsetOfHasError,
                CXTypeLayoutError_Incomplete]
            | false =>
              cases rtdep with
              | true => simp [clang_Type_getOffsetOf, offsetOfHasError,
                  CXTypeLayoutError_Dependent]
              | false =>
                have hv := (visitValidation_spec.1 vrec)
                by_cases hbad : anyBadField vrec = true
                · have hlt : visitRecordForValidation vrec < 0 := hv.2.mpr hbad
                  simp [clang_Type_getOffsetOf, offsetOfHasError, hbad, hlt]
                · simp only [Bool.not_eq_true] at hbad
                  have hnlt : ¬visitRecordForValidation vrec < 0 := by
                    intro h
                    rw [hv.2.mp h] at hbad
                    exact absurd hbad (by simp)
                  cases fnull with
                  | true => simp [clang_Type_getOffsetOf, offsetOfHasError,
                      hbad, hnlt, CXTypeLayoutError_InvalidFieldName]
                  | false =>
                    match hl : lres with
                    | [LookupEntry.fieldResult declId] =>
                      simp [clang_Type_getOffsetOf, offsetOfHasError,
                        hbad, hnlt, lookupIsSingleField]
                    | [LookupEntry.indirectFieldResult declId] =>
                      simp [clang_Type_getOffsetOf, offsetOfHasError,
                        hbad, hnlt, lookupIsSingleField]
                    | [] =>
                      simp [clang_Type_getOffsetOf, offsetOfHasError,
                        hbad, hnlt, lookupIsSingleField,
                        CXTypeLayoutError_InvalidFieldName]
                    | LookupEntry.otherDecl :: rest =>
                      simp [clang_Type_getOffsetOf, offsetOfHasError,
                        hbad, hnlt, lookupIsSingleField,
                        CXTypeLayoutError_InvalidFieldName]
                    | x :: y :: rest =>
                      cases x <;>
                      simp [clang_Type_getOffsetOf, offsetOfHasError,
                        hbad, hnlt, lookupIsSingleField,
                        CXTypeLayoutError_InvalidFieldName]

/-! ## Itanium builder state and bitfield layout
(`RecordLayoutBuilder`, RecordLayoutBuilder.cpp:539)

Sizes are kept in bits as in the source (`Size`, `DataSize` are `uint64_t`
bit counts); `Alignment`, `UnpackedAlignment` and `MaxFieldAlignment` are
`CharUnits`. -/

structure ItaniumState where
  sizeBits : Nat
  dataSizeBits : Nat
  alignment : Nat
  unpackedAlignment : Nat
  unfilledBitsInLastUnit : Nat
  lastBitfieldTypeSize : Nat
  maxFieldAlignment : Nat
  packed : Bool
  isUnion : Bool
  isMac68kAlign : Bool
  isMsStruct : Bool
  externalLayout : Bool
  inferAlignment : Bool
  fieldOffsets : List Nat
deriving Repr, DecidableEq

/-- Target parameters consumed by the Itanium bitfield layout. -/
structure ItaniumTarget where
  charWidth : Nat
  charAlign : Nat
  useBitFieldTypeAlignment : Bool
  useZeroLengthBitfieldAlignment : Bool
  zeroLengthBitfieldBoundary : Nat
  /-- `{UnsignedCharTy, UnsignedShortTy, UnsignedIntTy, UnsignedLongTy,
  UnsignedLongLongTy}` as (size in bits, alignment in CharUnits) pairs. -/
  integralPODTypes : List (Nat × Nat)
deriving Repr, DecidableEq

/-- A 64-bit LP64 Itanium target (charWidth 8; `unsigned long` is 64 bits). -/
def lp64Target : ItaniumTarget :=
  { charWidth := 8, charAlign := 8,
    useBitFieldTypeAlignment := true,
    useZeroLengthBitfieldAlignment := false,
    zeroLengthBitfieldBoundary := 0,
    integralPODTypes := [(8, 1), (16, 2), (32, 4), (64, 8), (64, 8)] }

/-- `RecordLayoutBuilder::UpdateAlignment` (RecordLayoutBuilder.cpp:1766). -/
def updateAlignment (s : ItaniumState) (newAlignment unpackedNewAlignment : Nat) :
    ItaniumState :=
  if s.isMac68kAlign || (s.externalLayout && !s.inferAlignment) then s
  else
    let s := if newAlignment > s.alignment then
      { s with alignment := newAlignment } else s
    if unpackedNewAlignment > s.unpackedAlignment then
      { s with unpackedAlignment := unpackedNewAlignment } else s

/-- `RecordLayoutBuilder::updateExternalFieldOffset`
(RecordLayoutBuilder.cpp:1786): returns the externally-supplied offset, and
infers packing (alignment one char, inference stops) only when inference is
on and the external offset is strictly before the computed one. -/
def updateExternalFieldOffset (s : ItaniumState)
    (externalFieldOffset computedOffset : Nat) : Nat × ItaniumState :=
  if s.inferAlignment ∧ externalFieldOffset < computedOffset then
    (externalFieldOffset, { s with alignment := 1, inferAlignment := false })
  else
    (externalFieldOffset, s)

/-- The type-selection loop of `LayoutWideBitField`
(RecordLayoutBuilder.cpp:1396): scan the integral POD types in order,
remember the last whose size does not exceed the field size, stop at the
first that does. -/
def pickIntegralPOD : List (Nat × Nat) → Nat → Option (Nat × Nat) →
    Option (Nat × Nat)
  | [], _, acc => acc
  | t :: rest, fieldSize, acc =>
    if t.1 > fieldSize then acc
    else pickIntegralPOD rest fieldSize (some t)

/-- `RecordLayoutBuilder::LayoutWideBitField` (RecordLayoutBuilder.cpp:1380).
When no integral POD type fits, the source asserts; we return the state
unchanged in that unreachable case. -/
def layoutWideBitField (t : ItaniumTarget) (fieldSize : Nat)
    (s : ItaniumState) : ItaniumState :=
  match pickIntegralPOD t.integralPODTypes fieldSize none with
  | none => s
  | some (_tsize, typeAlignChar) =>
    let typeAlignBits := typeAlignChar * t.charWidth
    let s := { s with unfilledBitsInLastUnit := 0, lastBitfieldTypeSize := 0 }
    let (fieldOffset, s) :=
      if s.isUnion then
        (0, { s with dataSizeBits := max s.dataSizeBits fieldSize })
      else
        let fo := roundUp s.dataSizeBits typeAlignBits
        let newSizeInBits := fo + fieldSize
        let ds := roundUp newSizeInBits t.charAlign
        (fo, { s with dataSizeBits := ds,
                      unfilledBitsInLastUnit := ds - newSizeInBits })
    let s := { s with fieldOffsets := s.fieldOffsets ++ [fieldOffset] }
    let s := { s with sizeBits := max s.sizeBits s.dataSizeBits }
    updateAlignment s typeAlignChar typeAlignChar

/-- The bitfield declaration data read by `LayoutBitField`. -/
structure BitFieldDecl where
  width : Nat
  typeSizeBits : Nat
  typeAlignBits : Nat
  hasPackedAttr : Bool
  maxAlignmentBits : Nat
  hasIdentifier : Bool
deriving Repr, DecidableEq

/-- `RecordLayoutBuilder::LayoutBitField` (RecordLayoutBuilder.cpp:1446).
`extOfs` supplies the external layout offset for this field when an
external layout is active (the source asserts its presence). -/
def layoutBitField (t : ItaniumTarget) (d : BitFieldDecl) (extOfs : Nat)
    (s : ItaniumState) : ItaniumState :=
  let fieldPacked := s.packed || d.hasPackedAttr
  let fieldSize := d.width
  let typeSize := d.typeSizeBits
  let fieldAlign := d.typeAlignBits
  -- ms_struct: alignment is the type size; zero-length bitfields after
  -- non-bitfields are ignored; a differently-sized predecessor flushes the
  -- bit-packing unit.
  let (fieldAlign, s) :=
    if s.isMsStruct then
      let fa := typeSize
      let fa := if fieldSize = 0 ∧ s.lastBitfieldTypeSize = 0 then 1 else fa
      let s := if s.lastBitfieldTypeSize ≠ typeSize then
        { s with unfilledBitsInLastUnit := 0, lastBitfieldTypeSize := 0 }
        else s
      (fa, s)
    else (fieldAlign, s)
  let unpaddedFieldOffset := s.dataSizeBits - s.unfilledBitsInLastUnit
  let fieldOffset := if s.isUnion then 0 else unpaddedFieldOffset
  let (zeroLengthBitfield, fieldAlign) :=
    if !t.useBitFieldTypeAlignment ∧ t.useZeroLengthBitfieldAlignment ∧
        fieldSize = 0 then
      (true,
       if t.zeroLengthBitfieldBoundary > fieldAlign then
         t.zeroLengthBitfieldBoundary else fieldAlign)
    else (false, fieldAlign)
  if fieldSize > typeSize then
    layoutWideBitField t fieldSize s
  else
    let unpackedFieldAlign :=
      if !t.useBitFieldTypeAlignment ∧ ¬zeroLengthBitfield then 1
      else fieldAlign
    let unpackedFieldOffset := fieldOffset
    let fieldAlign :=
      if fieldPacked ∨ (!t.useBitFieldTypeAlignment ∧ ¬zeroLengthBitfield)
      then 1 else fieldAlign
    let fieldAlign := max fieldAlign d.maxAlignmentBits
    let unpackedFieldAlign := max unpackedFieldAlign d.maxAlignmentBits
    let (fieldAlign, unpackedFieldAlign) :=
      if s.maxFieldAlignment ≠ 0 ∧ fieldSize ≠ 0 then
        let maxFieldAlignmentInBits := s.maxFieldAlignment * t.charWidth
        (min fieldAlign maxFieldAlignmentInBits,
         min unpackedFieldAlign maxFieldAlignmentInBits)
      else (fieldAlign, unpackedFieldAlign)
    let (fieldOffset, unpackedFieldOffset) :=
      if s.isMsStruct ∧ s.lastBitfieldTypeSize = 0 then
        (roundUp fieldOffset fieldAlign,
         roundUp unpackedFieldOffset unpackedFieldAlign)
      else (fieldOffset, unpackedFieldOffset)
    let fieldOffset :=
      if fieldSize = 0 ∨
         (s.maxFieldAlignment = 0 ∧
           (fieldOffset &&& (fieldAlign - 1)) + fieldSize > typeSize) then
        roundUp fieldOffset fieldAlign
      else fieldOffset
    let unpackedFieldOffset :=
      if fieldSize = 0 ∨
         (s.maxFieldAlignment = 0 ∧
           (unpackedFieldOffset &&& (unpackedFieldAlign - 1)) + fieldSize >
             typeSize) then
        roundUp unpackedFieldOffset unpackedFieldAlign
      else unpackedFieldOffset
    let (fieldAlign, unpackedFieldAlign) :=
      if ¬d.hasIdentifier ∧ !t.useZeroLengthBitfieldAlignment ∧
          ¬s.isMsStruct then (1, 1)
      else (fieldAlign, unpackedFieldAlign)
    let (fieldOffset, s) :=
      if s.externalLayout then updateExternalFieldOffset s extOfs fieldOffset
      else (fieldOffset, s)
    let s := { s with fieldOffsets := s.fieldOffsets ++ [fieldOffset] }
    let s :=
      if s.isUnion then
        -- FIXME in the source: "I think FieldSize should be TypeSize here."
        { s with dataSizeBits := max s.dataSizeBits fieldSize }
      else
        if s.isMsStruct ∧ fieldSize ≠ 0 then
          let s :=
            if s.unfilledBitsInLastUnit = 0 then
              { s with dataSizeBits := fieldOffset + typeSize,
                       unfilledBitsInLastUnit := typeSize - fieldSize }
            else if s.unfilledBitsInLastUnit < fieldSize then
              { s with dataSizeBits := s.dataSizeBits + typeSize,
                       unfilledBitsInLastUnit := typeSize - fieldSize }
            else
              { s with unfilledBitsInLastUnit :=
                         s.unfilledBitsInLastUnit - fieldSize }
          { s with lastBitfieldTypeSize := typeSize }
        else
          let newSizeInBits := fieldOffset + fieldSize
          let ds := roundUp newSizeInBits t.charAlign
          { s with dataSizeBits := ds,
                   unfilledBitsInLastUnit := ds - newSizeInBits,
                   lastBitfieldTypeSize := 0 }
    let s := { s with sizeBits := max s.sizeBits s.dataSizeBits }
    updateAlignment s (fieldAlign / t.charWidth) (unpackedFieldAlign / t.charWidth)

/-- The declaration-level facts consumed by `FinishLayout`. -/
structure FinishInput where
  isCPlusPlus : Bool
  isCXXRecord : Bool
  isEmptyRecord : Bool
deriving Repr, DecidableEq

/-- `RecordLayoutBuilder::FinishLayout` (RecordLayoutBuilder.cpp:1702),
without the diagnostics-only tail.  `externalSizeBits` is the
externally-supplied size consulted when an external layout is active. -/
def finishLayout (t : ItaniumTarget) (fi : FinishInput)
    (externalSizeBits : Nat) (s : ItaniumState) : ItaniumState :=
  let s :=
    if fi.isCPlusPlus ∧ s.sizeBits = 0 then
      if fi.isCXXRecord then
        if fi.isEmptyRecord then { s with sizeBits := t.charWidth } else s
      else { s with sizeBits := t.charWidth }
    else s
  let roundedSize := roundUp s.sizeBits (s.alignment * t.charWidth)
  if s.externalLayout then
    let s :=
      if s.inferAlignment ∧ externalSizeBits < roundedSize then
        { s with alignment := 1, inferAlignment := false }
      else s
    { s with sizeBits := externalSizeBits }
  else
    { s with sizeBits := roundedSize }

/-! ## Primary base determination
(`DeterminePrimaryBase` / `SelectPrimaryVBase`, RecordLayoutBuilder.cpp:784)

A class enters as a tree of its direct bases.  `isNearlyEmpty` models
`Context.isNearlyEmpty` and `numVBases` models `RD->getNumVBases()`, both
answered by external collaborators; `ipb` models the
`IndirectPrimaryBases` set filled by `RD->getIndirectPrimaryBases`. -/

inductive PRec where
  | mk (name : Nat) (isDynamicClass : Bool) (isNearlyEmpty : Bool)
       (numVBases : Nat) (bases : List (Bool × PRec))
deriving Repr

def PRec.name : PRec → Nat
  | .mk n _ _ _ _ => n

def PRec.isDynamicClass : PRec → Bool
  | .mk _ d _ _ _ => d

def PRec.isNearlyEmpty : PRec → Bool
  | .mk _ _ ne _ _ => ne

def PRec.numVBases : PRec → Nat
  | .mk _ _ _ nv _ => nv

def PRec.bases : PRec → List (Bool × PRec)
  | .mk _ _ _ _ bs => bs

mutual

/-- `RecordLayoutBuilder::SelectPrimaryVBase` (RecordLayoutBuilder.cpp:784).
The mutable members `PrimaryBase` and `FirstNearlyEmptyVBase` are threaded
explicitly; the result is `(PrimaryBase, FirstNearlyEmptyVBase)` (the found
primary base is always virtual on this path). -/
def selectPrimaryVBase (ipb : List Nat) : PRec → Option Nat →
    Option Nat × Option Nat
  | .mk _ _ _ _ bases, fne => selectPrimaryVBaseList ipb bases fne

def selectPrimaryVBaseList (ipb : List Nat) :
    List (Bool × PRec) → Option Nat → Option Nat × Option Nat
  | [], fne => (none, fne)
  | (isVirtual, base) :: rest, fne =>
    if isVirtual = true ∧ base.isNearlyEmpty = true ∧ ¬base.name ∈ ipb then
      (some base.name, fne)
    else
      let fne' := if isVirtual = true ∧ base.isNearlyEmpty = true ∧ fne = none
        then some base.name else fne
      match selectPrimaryVBase ipb base fne' with
      | (some x, fne'') => (some x, fne'')
      | (none, fne'') => selectPrimaryVBaseList ipb rest fne''

end

/-- The non-virtual dynamic base scan of `DeterminePrimaryBase`
(RecordLayoutBuilder.cpp:828). -/
def firstNonVirtualDynamicBase : List (Bool × PRec) → Option Nat
  | [] => none
  | (isVirtual, base) :: rest =>
    if isVirtual then firstNonVirtualDynamicBase rest
    else if base.isDynamicClass then some base.name
    else firstNonVirtualDynamicBase rest

/-- `RecordLayoutBuilder::DeterminePrimaryBase`
(RecordLayoutBuilder.cpp:816): result is `some (base, isVirtual)` for the
chosen primary base, `none` for none. -/
def determinePrimaryBase (ipb : List Nat) (rd : PRec) : Option (Nat × Bool) :=
  if ¬rd.isDynamicClass then none
  else
    match firstNonVirtualDynamicBase rd.bases with
    | some b => some (b, false)
    | none =>
      let pr := if rd.numVBases ≠ 0 then selectPrimaryVBase ipb rd none
                else (none, none)
      match pr.1 with
      | some b => some (b, true)
      | none =>
        match pr.2 with
        | some b => some (b, true)
        | none => none

mutual

/-- Specification side: the nearly empty virtual bases in recursive
inheritance order (each direct base checked before its own bases are
visited, bases in declaration order). -/
def nearlyEmptyVBases : PRec → List Nat
  | .mk _ _ _ _ bases => nearlyEmptyVBasesList bases

def nearlyEmptyVBasesList : List (Bool × PRec) → List Nat
  | [] => []
  | (isVirtual, base) :: rest =>
    (if isVirtual = true ∧ base.isNearlyEmpty = true then [base.name] else [])
    ++ nearlyEmptyVBases base ++ nearlyEmptyVBasesList rest

end

/-- The property proved about `selectPrimaryVBase`: its first component is
the first nearly empty virtual base, in recursive inheritance order, that
is not an indirect primary base; when none is found, the threaded
`FirstNearlyEmptyVBase` ends as the previously threaded value or else the
first nearly empty virtual base encountered at all. -/
def spvSpecR (ipb : List Nat) (rd : PRec) (fne : Option Nat) : Prop :=
  (selectPrimaryVBase ipb rd fne).1 =
    (nearlyEmptyVBases rd).find? (fun n => !(decide (n ∈ ipb))) ∧
  ((selectPrimaryVBase ipb rd fne).1 = none →
    (selectPrimaryVBase ipb rd fne).2 = fne.or (nearlyEmptyVBases rd).head?)

def spvSpecL (ipb : List Nat) (bases : List (Bool × PRec))
    (fne : Option Nat) : Prop :=
  (selectPrimaryVBaseList ipb bases fne).1 =
    (nearlyEmptyVBasesList bases).find? (fun n => !(decide (n ∈ ipb))) ∧
  ((selectPrimaryVBaseList ipb bases fne).1 = none →
    (selectPrimaryVBaseList ipb bases fne).2 =
      fne.or (nearlyEmptyVBasesList bases).head?)

theorem spv_case1 (ipb : List Nat) : ∀ (name : Nat)
    (isDynamicClass isNearlyEmpty : Bool) (numVBases : Nat)
    (bases : List (Bool × PRec)) (fne : Option Nat),
    spvSpecL ipb bases fne →
    spvSpecR ipb (PRec.mk name isDynamicClass isNearlyEmpty numVBases bases)
      fne := by
  intro name d ne nv bases fne ih
  unfold spvSpecR
  rw [selectPrimaryVBase.eq_def, nearlyEmptyVBases.eq_def]
  exact ih

theorem spv_case2 (ipb : List Nat) : ∀ (fne : Option Nat),
    spvSpecL ipb [] fne := by
  intro fne
  unfold spvSpecL
  rw [selectPrimaryVBaseList.eq_def, nearlyEmptyVBasesList.eq_def]
  simp

theorem spv_case3 (ipb : List Nat) : ∀ (isVirtual : Bool) (base : PRec)
    (rest : List (Bool × PRec)) (fne : Option Nat),
    isVirtual = true ∧ base.isNearlyEmpty = true ∧ base.name ∉ ipb →
    spvSpecL ipb ((isVirtual, base) :: rest) fne := by
  intro isVirtual base rest fne hcond
  unfold spvSpecL
  rw [selectPrimaryVBaseList.eq_def, nearlyEmptyVBasesList.eq_def]
  obtain ⟨hv, hne, hnin⟩ := hcond
  simp [hv, hne, hnin]

theorem spv_case4 (ipb : List Nat) : ∀ (isVirtual : Bool) (base : PRec)
    (rest : List (Bool × PRec)) (fne : Option Nat),
    ¬(isVirtual = true ∧ base.isNearlyEmpty = true ∧ base.name ∉ ipb) →
    ∀ (x : Nat) (fne'' : Option Nat),
    selectPrimaryVBase ipb base
      (if isVirtual = true ∧ base.isNearlyEmpty = true ∧ fne = none
       then some base.name else fne) = (some x, fne'') →
    spvSpecR ipb base
      (if isVirtual = true ∧ base.isNearlyEmpty = true ∧ fne = none
       then some base.name else fne) →
    spvSpecL ipb ((isVirtual, base) :: rest) fne := by
  intro isVirtual base rest fne hcond x fne'' hsel ih
  unfold spvSpecL
  rw [selectPrimaryVBaseList.eq_def, nearlyEmptyVBasesList.eq_def]
  simp only [hcond, if_false, hsel]
  have hfind : (nearlyEmptyVBases base).find? (fun n => !(decide (n ∈ ipb))) =
      some x := by
    have := ih.1
    rw [hsel] at this
    exact this.symm
  constructor
  · by_cases hvn : isVirtual = true ∧ base.isNearlyEmpty = true
    · have hin : base.name ∈ ipb := by
        by_contra hnin
        exact hcond ⟨hvn.1, hvn.2, hnin⟩
      simp [hvn.1, hvn.2, List.find?_append, hfind, hin]
    · have : (if isVirtual = true ∧ base.isNearlyEmpty = true
          then [base.name] else []) = [] := by simp [hvn]
      simp only [this, List.nil_append, List.find?_append, hfind]
      rfl
  · intro hnone
    exact absurd hnone (by simp)

theorem spv_case5 (ipb : List Nat) : ∀ (isVirtual : Bool) (base : PRec)
    (rest : List (Bool × PRec)) (fne : Option Nat),
    ¬(isVirtual = true ∧ base.isNearlyEmpty = true ∧ base.name ∉ ipb) →
    ∀ (fne'' : Option Nat),
    selectPrimaryVBase ipb base
      (if isVirtual = true ∧ base.isNearlyEmpty = true ∧ fne = none
       then some base.name else fne) = (none, fne'') →
    spvSpecR ipb base
      (if isVirtual = true ∧ base.isNearlyEmpty = true ∧ fne = none
       then some base.name else fne) →
    spvSpecL ipb rest fne'' →
    spvSpecL ipb ((isVirtual, base) :: rest) fne := by
  intro isVirtual base rest fne hcond fne'' hsel ihbase ihrest
  unfold spvSpecL
  rw [selectPrimaryVBaseList.eq_def, nearlyEmptyVBasesList.eq_def]
  simp only [hcond, if_false, hsel]
  have hbfind : (nearlyEmptyVBases base).find? (fun n => !(decide (n ∈ ipb))) =
      none := by
    have := ihbase.1
    rw [hsel] at this
    exact this.symm
  have hbsnd : fne'' =
      (if isVirtual = true ∧ base.isNearlyEmpty = true ∧ fne = none
       then some base.name else fne).or (nearlyEmptyVBases base).head? := by
    have := ihbase.2 (by rw [hsel])
    rw [hsel] at this
    exact this
  constructor
  · by_cases hvn : isVirtual = true ∧ base.isNearlyEmpty = true
    · have hin : base.name ∈ ipb := by
        by_contra hnin
        exact hcond ⟨hvn.1, hvn.2, hnin⟩
      simp [hvn.1, hvn.2, List.find?_append, hbfind, hin, ihrest.1]
    · have hnil : (if isVirtual = true ∧ base.isNearlyEmpty = true
          then [base.name] else []) = [] := by simp [hvn]
      simp only [hnil, List.nil_append, List.find?_append, hbfind,
        Option.none_or]
      exact ihrest.1
  · intro hnone
    have hrfind : (nearlyEmptyVBasesList rest).find?
        (fun n => !(decide (n ∈ ipb))) = none := by
      have h1 := ihrest.1
      rw [hnone] at h1
      exact h1.symm
    have hrsnd := ihrest.2 (by rw [ihrest.1, hrfind])
    rw [hrsnd, hbsnd]
    by_cases hvn : isVirtual = true ∧ base.isNearlyEmpty = true
    · have hin : base.name ∈ ipb := by
        by_contra hnin
        exact hcond ⟨hvn.1, hvn.2, hnin⟩
      simp only [hvn.1, hvn.2, and_true, true_and, List.cons_append,
        List.head?_cons]
      cases fne with
      | none => simp [Option.or_assoc]
      | some a => simp
    · have hnil : (if isVirtual = true ∧ base.isNearlyEmpty = true
          then [base.name] else []) = [] := by simp [hvn]
      have hfne : (if isVirtual = true ∧ base.isNearlyEmpty = true ∧
          fne = none then some base.name else fne) = fne := by
        simp only [ite_eq_right_iff]
        intro h
        exact absurd ⟨h.1, h.2.1⟩ hvn
      rw [hfne, hnil, List.nil_append, List.head?_append, Option.or_assoc]

theorem selectPrimaryVBase_spec (ipb : List Nat) :
    ∀ (rd : PRec) (fne : Option Nat), spvSpecR ipb rd fne :=
  (selectPrimaryVBase.mutual_induct ipb
    (fun rd fne => spvSpecR ipb rd fne)
    (fun bases fne => spvSpecL ipb bases fne)
    (spv_case1 ipb) (spv_case2 ipb) (spv_case3 ipb) (spv_case4 ipb)
    (spv_case5 ipb)).1

theorem firstNonVirtualDynamicBase_eq_find (bases : List (Bool × PRec)) :
    firstNonVirtualDynamicBase bases =
      ((bases.find? fun vb => !vb.1 && vb.2.isDynamicClass).map
        fun vb => vb.2.name) := by
  induction bases with
  | nil => rfl
  | cons vb rest ih =>
    obtain ⟨v, b⟩ := vb
    cases v <;> cases hd : b.isDynamicClass <;>
      simp [firstNonVirtualDynamicBase, List.find?, hd, ih]

/-- C2: the chosen primary base of a dynamic class is the first direct
non-virtual dynamic base in declaration order; otherwise the first nearly
empty virtual base in recursive inheritance order that is not an indirect
primary base; otherwise the first nearly empty virtual base encountered at
all; a non-dynamic class has no primary base.  The hypothesis ties
`RD->getNumVBases()` to the declaration graph: a class without virtual
bases has no nearly empty virtual base anywhere in its hierarchy. -/
theorem determinePrimaryBase_matches_spec (ipb : List Nat) (rd : PRec)
    (h : rd.numVBases = 0 → nearlyEmptyVBases rd = []) :
    determinePrimaryBase ipb rd =
      if rd.isDynamicClass = false then none
      else
        match rd.bases.find? (fun vb => !vb.1 && vb.2.isDynamicClass) with
        | some vb => some (vb.2.name, false)
        | none =>
          match (nearlyEmptyVBases rd).find? (fun n => !(decide (n ∈ ipb))) with
          | some b => some (b, true)
          | none =>
            match (nearlyEmptyVBases rd).head? with
            | some b => some (b, true)
            | none => none := by
  unfold determinePrimaryBase
  cases hd : rd.isDynamicClass with
  | false => simp
  | true =>
    simp only [Bool.true_eq_false, Bool.not_eq_true, if_false,
      Bool.false_eq_true]
    rw [firstNonVirtualDynamicBase_eq_find]
    cases hf : rd.bases.find? (fun vb => !vb.1 && vb.2.isDynamicClass) with
    | some vb => simp
    | none =>
      simp only [Option.map_none]
      by_cases hnv : rd.numVBases ≠ 0
      · rw [if_pos hnv]
        have hs := selectPrimaryVBase_spec ipb rd none
        unfold spvSpecR at hs
        cases hp : (selectPrimaryVBase ipb rd none).1 with
        | some b =>
          rw [hp] at hs
          rw [← hs.1]
          simp
        | none =>
          rw [hp] at hs
          rw [← hs.1]
          have h2 := hs.2 rfl
          rw [Option.none_or] at h2
          rw [h2]
          cases (nearlyEmptyVBases rd).head? <;> simp
      · simp only [not_not] at hnv
        have henum := h hnv
        simp [hnv, henum]

/-- Witness for `determinePrimaryBase_matches_spec`: a dynamic class whose
only base is a nearly empty virtual base that is not an indirect primary
base; it is selected as the (virtual) primary base. -/
theorem determinePrimaryBase_matches_spec_witness :
    determinePrimaryBase []
      (PRec.mk 0 true false 1 [(true, PRec.mk 1 false true 0 [])]) =
      some (1, true) := by
  rw [determinePrimaryBase_matches_spec []
    (PRec.mk 0 true false 1 [(true, PRec.mk 1 false true 0 [])])
    (fun hcontra => absurd (by simpa [PRec.numVBases] using hcontra)
      Nat.one_ne_zero)]
  rw [nearlyEmptyVBases.eq_def]
  simp [PRec.bases, PRec.isDynamicClass, PRec.isNearlyEmpty, PRec.name,
    List.find?]

/-! ## The empty-subobject map (`EmptySubobjectMap`, RecordLayoutBuilder.cpp:60)

A class under layout enters as a tree carrying the cached layout data the
map traversals read: `size` (`getSize`), `nvSize`/`nvAlign`
(`getNonVirtualSize`/`getNonVirtualAlignment`), base-class offsets
(`getBaseClassOffset`/`getVBaseClassOffset`) and field offsets in
CharUnits.  A class appearing several times in a hierarchy appears as
several tree nodes with the same `name` (the model of declaration
identity). -/

mutual

inductive CRec where
  | mk (name : Nat) (isEmpty : Bool) (size nvSize nvAlign : Nat)
       (bases : List CBase) (vbases : List CBase) (fields : List CFld)

/-- A base-class entry of a layout: virtualness, its offset in the
enclosing layout, and its class. -/
inductive CBase where
  | mk (isVirtual : Bool) (offset : Nat) (cls : CRec)

/-- A field entry of a layout: bitfieldness, its offset in the enclosing
layout (CharUnits), and its type. -/
inductive CFld where
  | mk (isBitField : Bool) (offset : Nat) (ty : CTy)

/-- A field type as the traversals classify it: a record, a constant array
with a record base element type (`count` elements), or anything else. -/
inductive CTy where
  | scalar
  | record (cls : CRec)
  | array (elem : CRec) (count : Nat)

end

def CRec.name : CRec → Nat
  | .mk n _ _ _ _ _ _ _ => n

def CRec.isEmpty : CRec → Bool
  | .mk _ e _ _ _ _ _ _ => e

def CRec.size : CRec → Nat
  | .mk _ _ s _ _ _ _ _ => s

def CRec.nvSize : CRec → Nat
  | .mk _ _ _ s _ _ _ _ => s

def CRec.nvAlign : CRec → Nat
  | .mk _ _ _ _ a _ _ _ => a

def CRec.bases : CRec → List CBase
  | .mk _ _ _ _ _ bs _ _ => bs

def CRec.vbases : CRec → List CBase
  | .mk _ _ _ _ _ _ vbs _ => vbs

def CRec.fields : CRec → List CFld
  | .mk _ _ _ _ _ _ _ fs => fs

/-- `BaseSubobjectInfo` (RecordLayoutBuilder.cpp:40).  Each child edge is
annotated with `Layout.getBaseClassOffset(child.cls)` in the parent's
layout.  `pvb` holds the primary virtual base info exactly when this node
has claimed it (`Info == PrimaryVirtualBaseInfo->Derived` in the source);
an unclaimed primary virtual base is never traversed and is modelled as
`none`. -/
inductive BSI where
  | mk (cls : CRec) (isVirtual : Bool) (bases : List (Nat × BSI))
       (pvb : Option BSI)

def BSI.cls : BSI → CRec
  | .mk c _ _ _ => c

/-- `EmptySubobjectMap` state: the precomputed largest-empty-subobject
size, the offset → empty-class-names table, and the maximum offset known
to contain an empty class. -/
structure ESOMap where
  sizeOfLargestEmptySubobject : Nat
  emptyClassOffsets : List (Nat × List Nat)
  maxEmptyClassOffset : Nat
deriving Repr, DecidableEq

/-- The class vector recorded at an offset (empty when absent). -/
def lookupClasses (m : ESOMap) (off : Nat) : List Nat :=
  match m.emptyClassOffsets.lookup off with
  | none => []
  | some classes => classes

/-- `AnyEmptySubobjectsBeyondOffset` (RecordLayoutBuilder.cpp:92). -/
def anyEmptySubobjectsBeyondOffset (m : ESOMap) (off : Nat) : Bool :=
  decide (off ≤ m.maxEmptyClassOffset)

/-- `CanPlaceSubobjectAtOffset` (RecordLayoutBuilder.cpp:189). -/
def canPlaceSubobjectAtOffset (m : ESOMap) (rd : CRec) (off : Nat) : Bool :=
  if !rd.isEmpty then true
  else
    match m.emptyClassOffsets.lookup off with
    | none => true
    | some classes => if rd.name ∈ classes then false else true

/-- Append a class to the vector at an offset (the `DenseMap` access of
`AddSubobjectAtOffset`). -/
def assocAdd : List (Nat × List Nat) → Nat → Nat → List (Nat × List Nat)
  | [], off, n => [(off, [n])]
  | (o, cs) :: rest, off, n =>
    if o = off then (o, cs ++ [n]) :: rest else (o, cs) :: assocAdd rest off n

/-- `AddSubobjectAtOffset` (RecordLayoutBuilder.cpp:208). -/
def addSubobjectAtOffset (m : ESOMap) (rd : CRec) (off : Nat) : ESOMap :=
  if !rd.isEmpty then m
  else if rd.name ∈ lookupClasses m off then m
  else
    { m with emptyClassOffsets := assocAdd m.emptyClassOffsets off rd.name,
             maxEmptyClassOffset :=
               if off > m.maxEmptyClassOffset then off
               else m.maxEmptyClassOffset }

mutual

/-- `CanPlaceBaseSubobjectAtOffset` (RecordLayoutBuilder.cpp:227). -/
def canPlaceBaseSubobjectAtOffset (m : ESOMap) : BSI → Nat → Bool
  | .mk cls _ bases pvb, off =>
    if !(anyEmptySubobjectsBeyondOffset m off) then true
    else if !(canPlaceSubobjectAtOffset m cls off) then false
    else
      canPlaceBSIBasesList m bases off &&
      (match pvb with
       | some p => canPlaceBaseSubobjectAtOffset m p off
       | none => true) &&
      canPlaceFldList m cls.fields off
termination_by info off => (sizeOf info, 0)

/-- The non-virtual base loop of `CanPlaceBaseSubobjectAtOffset`
(RecordLayoutBuilder.cpp:240): virtual children are skipped. -/
def canPlaceBSIBasesList (m : ESOMap) : List (Nat × BSI) → Nat → Bool
  | [], _ => true
  | (boff, child) :: rest, off =>
    (match child with
     | .mk ccls cIsVirtual cbases cpvb =>
       if cIsVirtual then true
       else canPlaceBaseSubobjectAtOffset m (.mk ccls cIsVirtual cbases cpvb)
              (off + boff)) &&
    canPlaceBSIBasesList m rest off
termination_by l off => (sizeOf l, 0)

/-- `CanPlaceFieldSubobjectAtOffset` for a record
(RecordLayoutBuilder.cpp:336); `className` is the most-derived class of
the field (`Class`), compared against `RD` by declaration identity. -/
def canPlaceFieldSubobjectAtOffsetR (m : ESOMap) :
    CRec → Nat → Nat → Bool
  | rd@(.mk name _ _ _ _ bases vbases fields), className, off =>
    if !(anyEmptySubobjectsBeyondOffset m off) then true
    else if !(canPlaceSubobjectAtOffset m rd off) then false
    else
      canPlaceRecBasesList m bases className off &&
      (if name = className then canPlaceRecVBasesList m vbases className off
       else true) &&
      canPlaceFldList m fields off
termination_by rd className off => (sizeOf rd, 0)

/-- The non-virtual base loop of the record variant
(RecordLayoutBuilder.cpp:351). -/
def canPlaceRecBasesList (m : ESOMap) : List CBase → Nat → Nat → Bool
  | [], _, _ => true
  | .mk isVirtual boff cls :: rest, className, off =>
    (if isVirtual then true
     else canPlaceFieldSubobjectAtOffsetR m cls className (off + boff)) &&
    canPlaceRecBasesList m rest className off
termination_by l className off => (sizeOf l, 0)

/-- The virtual base loop of the record variant, entered only at the most
derived class (RecordLayoutBuilder.cpp:364). -/
def canPlaceRecVBasesList (m : ESOMap) : List CBase → Nat → Nat → Bool
  | [], _, _ => true
  | .mk _ boff cls :: rest, className, off =>
    canPlaceFieldSubobjectAtOffsetR m cls className (off + boff) &&
    canPlaceRecVBasesList m rest className off
termination_by l className off => (sizeOf l, 0)

/-- The member-variable loop shared by both variants
(RecordLayoutBuilder.cpp:260 and 377): bitfields are skipped. -/
def canPlaceFldList (m : ESOMap) : List CFld → Nat → Bool
  | [], _ => true
  | .mk isBitField foff ty :: rest, off =>
    (if isBitField then true
     else canPlaceFieldSubobjectAtOffsetFD m ty (off + foff)) &&
    canPlaceFldList m rest off
termination_by l off => (sizeOf l, 0)

/-- `CanPlaceFieldSubobjectAtOffset` for a field declaration
(RecordLayoutBuilder.cpp:393), dispatching on the field's type. -/
def canPlaceFieldSubobjectAtOffsetFD (m : ESOMap) : CTy → Nat → Bool
  | ty, off =>
    if !(anyEmptySubobjectsBeyondOffset m off) then true
    else
      match ty with
      | .scalar => true
      | .record cls => canPlaceFieldSubobjectAtOffsetR m cls cls.name off
      | .array elem count => canPlaceArrayElems m elem count off
termination_by ty off => (sizeOf ty, 0)

/-- The array-element loop of the field variant
(RecordLayoutBuilder.cpp:419), with its per-element short-circuit. -/
def canPlaceArrayElems (m : ESOMap) : CRec → Nat → Nat → Bool
  | _, 0, _ => true
  | elem, count + 1, off =>
    if !(anyEmptySubobjectsBeyondOffset m off) then true
    else
      canPlaceFieldSubobjectAtOffsetR m elem elem.name off &&
      canPlaceArrayElems m elem count (off + elem.size)
termination_by elem count off => (sizeOf elem, count)

end

mutual

/-- `UpdateEmptyBaseSubobjects` (RecordLayoutBuilder.cpp:275). -/
def updateEmptyBaseSubobjects (m : ESOMap) : BSI → Nat → Bool → ESOMap
  | .mk cls _ bases pvb, off, placingEmptyBase =>
    if ¬placingEmptyBase ∧ off ≥ m.sizeOfLargestEmptySubobject then m
    else
      let m := addSubobjectAtOffset m cls off
      let m := updateBSIBasesList m bases off placingEmptyBase
      let m := match pvb with
        | some p => updateEmptyBaseSubobjects m p off placingEmptyBase
        | none => m
      updateFldList m cls.fields off
termination_by info off _ => (sizeOf info, 0)

def updateBSIBasesList (m : ESOMap) : List (Nat × BSI) → Nat → Bool → ESOMap
  | [], _, _ => m
  | (boff, child) :: rest, off, placingEmptyBase =>
    let m := match child with
      | .mk ccls cIsVirtual cbases cpvb =>
        if cIsVirtual then m
        else updateEmptyBaseSubobjects m (.mk ccls cIsVirtual cbases cpvb)
               (off + boff) placingEmptyBase
    updateBSIBasesList m rest off placingEmptyBase
termination_by l off _ => (sizeOf l, 0)

/-- `UpdateEmptyFieldSubobjects` for a record
(RecordLayoutBuilder.cpp:447). -/
def updateEmptyFieldSubobjectsR (m : ESOMap) : CRec → Nat → Nat → ESOMap
  | rd@(.mk name _ _ _ _ bases vbases fields), className, off =>
    if off ≥ m.sizeOfLargestEmptySubobject then m
    else
      let m := addSubobjectAtOffset m rd off
      let m := updateRecBasesList m bases className off
      let m := if name = className then
          updateRecVBasesList m vbases className off
        else m
      updateFldList m fields off
termination_by rd className off => (sizeOf rd, 0)

def updateRecBasesList (m : ESOMap) : List CBase → Nat → Nat → ESOMap
  | [], _, _ => m
  | .mk isVirtual boff cls :: rest, className, off =>
    let m := if isVirtual then m
      else updateEmptyFieldSubobjectsR m cls className (off + boff)
    updateRecBasesList m rest className off
termination_by l className off => (sizeOf l, 0)

def updateRecVBasesList (m : ESOMap) : List CBase → Nat → Nat → ESOMap
  | [], _, _ => m
  | .mk _ boff cls :: rest, className, off =>
    let m := updateEmptyFieldSubobjectsR m cls className (off + boff)
    updateRecVBasesList m rest className off
termination_by l className off => (sizeOf l, 0)

def updateFldList (m : ESOMap) : List CFld → Nat → ESOMap
  | [], _ => m
  | .mk isBitField foff ty :: rest, off =>
    let m := if isBitField then m
      else updateEmptyFieldSubobjectsFD m ty (off + foff)
    updateFldList m rest off
termination_by l off => (sizeOf l, 0)

/-- `UpdateEmptyFieldSubobjects` for a field declaration
(RecordLayoutBuilder.cpp:500). -/
def updateEmptyFieldSubobjectsFD (m : ESOMap) : CTy → Nat → ESOMap
  | ty, off =>
    match ty with
    | .scalar => m
    | .record cls => updateEmptyFieldSubobjectsR m cls cls.name off
    | .array elem count => updateArrayElems m elem count off
termination_by ty off => (sizeOf ty, 0)

def updateArrayElems (m : ESOMap) : CRec → Nat → Nat → ESOMap
  | _, 0, _ => m
  | elem, count + 1, off =>
    if off ≥ m.sizeOfLargestEmptySubobject then m
    else
      let m := updateEmptyFieldSubobjectsR m elem elem.name off
      updateArrayElems m elem count (off + elem.size)
termination_by elem count off => (sizeOf elem, count)

end

/-- `CanPlaceBaseAtOffset` (RecordLayoutBuilder.cpp:320): the public query,
updating the table only after a successful check. -/
def canPlaceBaseAtOffset (m : ESOMap) (info : BSI) (off : Nat) :
    Bool × ESOMap :=
  if m.sizeOfLargestEmptySubobject = 0 then (true, m)
  else if !(canPlaceBaseSubobjectAtOffset m info off) then (false, m)
  else (true, updateEmptyBaseSubobjects m info off info.cls.isEmpty)

/-- `CanPlaceFieldAtOffset` (RecordLayoutBuilder.cpp:435). -/
def canPlaceFieldAtOffset (m : ESOMap) (ty : CTy) (off : Nat) :
    Bool × ESOMap :=
  if !(canPlaceFieldSubobjectAtOffsetFD m ty off) then (false, m)
  else (true, updateEmptyFieldSubobjectsFD m ty off)

mutual

/-- All empty constituent subobjects (class name, absolute offset) the
check traversal of a base inspects, with no short-circuiting: the base
itself when empty, its non-virtual bases, its claimed primary virtual
base, and its non-bitfield fields. -/
def emptiesOfBase : BSI → Nat → List (Nat × Nat)
  | .mk cls _ bases pvb, off =>
    (if cls.isEmpty then [(cls.name, off)] else []) ++
    emptiesOfBSIBasesList bases off ++
    (match pvb with
     | some p => emptiesOfBase p off
     | none => []) ++
    emptiesOfFldList cls.fields off
termination_by info off => (sizeOf info, 0)

def emptiesOfBSIBasesList : List (Nat × BSI) → Nat → List (Nat × Nat)
  | [], _ => []
  | (boff, child) :: rest, off =>
    (match child with
     | .mk ccls cIsVirtual cbases cpvb =>
       if cIsVirtual then []
       else emptiesOfBase (.mk ccls cIsVirtual cbases cpvb) (off + boff)) ++
    emptiesOfBSIBasesList rest off
termination_by l off => (sizeOf l, 0)

def emptiesOfRec : CRec → Nat → Nat → List (Nat × Nat)
  | rd@(.mk name _ _ _ _ bases vbases fields), className, off =>
    (if rd.isEmpty then [(name, off)] else []) ++
    emptiesOfRecBasesList bases className off ++
    (if name = className then emptiesOfRecVBasesList vbases className off
     else []) ++
    emptiesOfFldList fields off
termination_by rd className off => (sizeOf rd, 0)

def emptiesOfRecBasesList : List CBase → Nat → Nat → List (Nat × Nat)
  | [], _, _ => []
  | .mk isVirtual boff cls :: rest, className, off =>
    (if isVirtual then [] else emptiesOfRec cls className (off + boff)) ++
    emptiesOfRecBasesList rest className off
termination_by l className off => (sizeOf l, 0)

def emptiesOfRecVBasesList : List CBase → Nat → Nat → List (Nat × Nat)
  | [], _, _ => []
  | .mk _ boff cls :: rest, className, off =>
    emptiesOfRec cls className (off + boff) ++
    emptiesOfRecVBasesList rest className off
termination_by l className off => (sizeOf l, 0)

def emptiesOfFldList : List CFld → Nat → List (Nat × Nat)
  | [], _ => []
  | .mk isBitField foff ty :: rest, off =>
    (if isBitField then [] else emptiesOfFD ty (off + foff)) ++
    emptiesOfFldList rest off
termination_by l off => (sizeOf l, 0)

def emptiesOfFD : CTy → Nat → List (Nat × Nat)
  | .scalar, _ => []
  | .record cls, off => emptiesOfRec cls cls.name off
  | .array elem count, off => emptiesOfArrayElems elem count off
termination_by ty off => (sizeOf ty, 0)

def emptiesOfArrayElems : CRec → Nat → Nat → List (Nat × Nat)
  | _, 0, _ => []
  | elem, count + 1, off =>
    emptiesOfRec elem elem.name off ++
    emptiesOfArrayElems elem count (off + elem.size)
termination_by elem count off => (sizeOf elem, count)

end

/-- Well-formedness of the map: every recorded entry lies at or below
`maxEmptyClassOffset` (the invariant `AddSubobjectAtOffset` maintains). -/
def esoWF (m : ESOMap) : Prop :=
  ∀ o c, c ∈ lookupClasses m o → o ≤ m.maxEmptyClassOffset

/-- The joint property proved of each check traversal: every enumerated
empty subobject lies at or beyond the traversal root offset, and a
successful check means none of them is already recorded at its offset. -/
def esoSemProp (m : ESOMap) (enum : List (Nat × Nat)) (ck : Bool)
    (off : Nat) : Prop :=
  (∀ p ∈ enum, off ≤ p.2) ∧
  (ck = true → ∀ p ∈ enum, p.1 ∉ lookupClasses m p.2)

theorem esoFresh_beyond (m : ESOMap) (hwf : esoWF m) {off p2 : Nat}
    (hbeyond : m.maxEmptyClassOffset < off) (hle : off ≤ p2) (p1 : Nat) :
    p1 ∉ lookupClasses m p2 :=
  fun hmem => absurd (hwf p2 p1 hmem) (by omega)

theorem anyEmpty_not_iff (m : ESOMap) (off : Nat) :
    (!anyEmptySubobjectsBeyondOffset m off) = true ↔
      m.maxEmptyClassOffset < off := by
  simp [anyEmptySubobjectsBeyondOffset]

theorem canPlaceSubobject_root_fresh (m : ESOMap) (rd : CRec) (off : Nat)
    (hE : rd.isEmpty = true)
    (h : canPlaceSubobjectAtOffset m rd off = true) :
    rd.name ∉ lookupClasses m off := by
  unfold canPlaceSubobjectAtOffset at h
  rw [hE] at h
  simp only [Bool.not_true, Bool.false_eq_true, if_false] at h
  unfold lookupClasses
  cases hl : m.emptyClassOffsets.lookup off with
  | none => simp
  | some classes =>
    rw [hl] at h
    intro hmem
    have hmem' : rd.name ∈ classes := by simpa using hmem
    have h' : (if rd.name ∈ classes then false else true) = true := by
      simpa using h
    rw [if_pos hmem'] at h'
    exact absurd h' (by simp)

theorem esoSem_c1 (m : ESOMap) : ∀ (off : Nat),
    esoSemProp m (emptiesOfFldList [] off) (canPlaceFldList m [] off) off := by
  intro off
  rw [emptiesOfFldList.eq_def, canPlaceFldList.eq_def]
  simp [esoSemProp]

theorem esoSem_c2 (m : ESOMap) : ∀ (isBitField : Bool) (foff : Nat)
    (ty : CTy) (rest : List CFld) (off : Nat),
    esoSemProp m (emptiesOfFD ty (off + foff))
      (canPlaceFieldSubobjectAtOffsetFD m ty (off + foff)) (off + foff) →
    esoSemProp m (emptiesOfFldList rest off) (canPlaceFldList m rest off)
      off →
    esoSemProp m (emptiesOfFldList (CFld.mk isBitField foff ty :: rest) off)
      (canPlaceFldList m (CFld.mk isBitField foff ty :: rest) off) off := by
  intro isBF foff ty rest off ih2 ih1
  unfold esoSemProp at ih2 ih1 ⊢
  rw [emptiesOfFldList.eq_def, canPlaceFldList.eq_def]
  cases isBF with
  | true =>
    simpa using ih1
  | false =>
    simp only [Bool.false_eq_true, if_false, Bool.true_and, List.mem_append,
      Bool.and_eq_true]
    constructor
    · intro p hp
      rcases hp with hp | hp
      · exact le_trans (Nat.le_add_right off foff) (ih2.1 p hp)
      · exact ih1.1 p hp
    · intro hck p hp
      rcases hp with hp | hp
      · exact ih2.2 hck.1 p hp
      · exact ih1.2 hck.2 p hp

theorem esoSem_c3 (m : ESOMap) : ∀ (off : Nat),
    esoSemProp m (emptiesOfFD CTy.scalar off)
      (canPlaceFieldSubobjectAtOffsetFD m CTy.scalar off) off := by
  intro off
  rw [emptiesOfFD.eq_def]
  simp [esoSemProp]

theorem esoSem_c4 (m : ESOMap) (hwf : esoWF m) : ∀ (cls : CRec) (off : Nat),
    esoSemProp m (emptiesOfRec cls cls.name off)
      (canPlaceFieldSubobjectAtOffsetR m cls cls.name off) off →
    esoSemProp m (emptiesOfFD (CTy.record cls) off)
      (canPlaceFieldSubobjectAtOffsetFD m (CTy.record cls) off) off := by
  intro cls off ih
  unfold esoSemProp at ih ⊢
  rw [emptiesOfFD.eq_def, canPlaceFieldSubobjectAtOffsetFD.eq_def]
  simp only
  by_cases hb : (!anyEmptySubobjectsBeyondOffset m off) = true
  · rw [if_pos hb]
    refine ⟨ih.1, fun _ p hp => ?_⟩
    exact esoFresh_beyond m hwf ((anyEmpty_not_iff m off).mp hb)
      (ih.1 p hp) p.1
  · rw [if_neg hb]
    exact ih

theorem esoSem_c5 (m : ESOMap) (hwf : esoWF m) : ∀ (elem : CRec)
    (count off : Nat),
    esoSemProp m (emptiesOfArrayElems elem count off)
      (canPlaceArrayElems m elem count off) off →
    esoSemProp m (emptiesOfFD (CTy.array elem count) off)
      (canPlaceFieldSubobjectAtOffsetFD m (CTy.array elem count) off) off := by
  intro elem count off ih
  unfold esoSemProp at ih ⊢
  rw [emptiesOfFD.eq_def, canPlaceFieldSubobjectAtOffsetFD.eq_def]
  simp only
  by_cases hb : (!anyEmptySubobjectsBeyondOffset m off) = true
  · rw [if_pos hb]
    refine ⟨ih.1, fun _ p hp => ?_⟩
    exact esoFresh_beyond m hwf ((anyEmpty_not_iff m off).mp hb)
      (ih.1 p hp) p.1
  · rw [if_neg hb]
    exact ih

theorem esoSem_c6 (m : ESOMap) : ∀ (elem : CRec) (off : Nat),
    esoSemProp m (emptiesOfArrayElems elem 0 off)
      (canPlaceArrayElems m elem 0 off) off := by
  intro elem off
  rw [emptiesOfArrayElems.eq_def, canPlaceArrayElems.eq_def]
  simp [esoSemProp]

theorem esoSem_c7 (m : ESOMap) (hwf : esoWF m) : ∀ (elem : CRec)
    (count off : Nat),
    esoSemProp m (emptiesOfRec elem elem.name off)
      (canPlaceFieldSubobjectAtOffsetR m elem elem.name off) off →
    esoSemProp m (emptiesOfArrayElems elem count (off + elem.size))
      (canPlaceArrayElems m elem count (off + elem.size)) (off + elem.size) →
    esoSemProp m (emptiesOfArrayElems elem (count + 1) off)
      (canPlaceArrayElems m elem (count + 1) off) off := by
  intro elem count off ih4 ih3
  unfold esoSemProp at ih4 ih3 ⊢
  rw [emptiesOfArrayElems.eq_def, canPlaceArrayElems.eq_def]
  simp only [List.mem_append]
  have hmono : ∀ p ∈ emptiesOfRec elem elem.name off ++
      emptiesOfArrayElems elem count (off + elem.size), off ≤ p.2 := by
    intro p hp
    rcases List.mem_append.mp hp with hp | hp
    · exact ih4.1 p hp
    · exact le_trans (Nat.le_add_right off elem.size) (ih3.1 p hp)
  by_cases hb : (!anyEmptySubobjectsBeyondOffset m off) = true
  · rw [if_pos hb]
    refine ⟨fun p hp => hmono p (List.mem_append.mpr hp), fun _ p hp => ?_⟩
    exact esoFresh_beyond m hwf ((anyEmpty_not_iff m off).mp hb)
      (hmono p (List.mem_append.mpr hp)) p.1
  · rw [if_neg hb]
    refine ⟨fun p hp => hmono p (List.mem_append.mpr hp), fun hck p hp => ?_⟩
    rw [Bool.and_eq_true] at hck
    rcases hp with hp | hp
    · exact ih4.2 hck.1 p hp
    · exact ih3.2 hck.2 p hp

theorem esoSem_c8 (m : ESOMap) (hwf : esoWF m) : ∀ (name : Nat)
    (isEmpty : Bool) (size nvSize nvAlign : Nat) (bases vbases : List CBase)
    (fields : List CFld) (className off : Nat),
    esoSemProp m (emptiesOfRecBasesList bases className off)
      (canPlaceRecBasesList m bases className off) off →
    (name = className →
      esoSemProp m (emptiesOfRecVBasesList vbases className off)
        (canPlaceRecVBasesList m vbases className off) off) →
    esoSemProp m (emptiesOfFldList fields off)
      (canPlaceFldList m fields off) off →
    esoSemProp m
      (emptiesOfRec (CRec.mk name isEmpty size nvSize nvAlign bases vbases
        fields) className off)
      (canPlaceFieldSubobjectAtOffsetR m
        (CRec.mk name isEmpty size nvSize nvAlign bases vbases fields)
        className off) off := by
  intro name isEmpty size nvSize nvAlign bases vbases fields className off
    ih6 ih5 ih1
  unfold esoSemProp at ih6 ih1 ⊢
  rw [emptiesOfRec.eq_def, canPlaceFieldSubobjectAtOffsetR.eq_def]
  simp only [CRec.isEmpty, CRec.fields]
  have hroot : ∀ p ∈ (if isEmpty = true then [(name, off)] else []),
      isEmpty = true ∧ p = (name, off) := by
    intro p hp
    cases isEmpty <;> simp_all
  have hvb : ∀ p ∈ (if name = className then
      emptiesOfRecVBasesList vbases className off else []),
      name = className ∧ p ∈ emptiesOfRecVBasesList vbases className off := by
    intro p hp
    by_cases hnc : name = className <;> simp_all
  have hsplit : ∀ p ∈ (if isEmpty = true then [(name, off)] else []) ++
      emptiesOfRecBasesList bases className off ++
      (if name = className then emptiesOfRecVBasesList vbases className off
       else []) ++ emptiesOfFldList fields off,
      (isEmpty = true ∧ p = (name, off)) ∨
      p ∈ emptiesOfRecBasesList bases className off ∨
      (name = className ∧ p ∈ emptiesOfRecVBasesList vbases className off) ∨
      p ∈ emptiesOfFldList fields off := by
    intro p hp
    rcases List.mem_append.mp hp with hp | hp
    · rcases List.mem_append.mp hp with hp | hp
      · rcases List.mem_append.mp hp with hp | hp
        · exact Or.inl (hroot p hp)
        · exact Or.inr (Or.inl hp)
      · exact Or.inr (Or.inr (Or.inl (hvb p hp)))
    · exact Or.inr (Or.inr (Or.inr hp))
  have hmono : ∀ p ∈ (if isEmpty = true then [(name, off)] else []) ++
      emptiesOfRecBasesList bases className off ++
      (if name = className then emptiesOfRecVBasesList vbases className off
       else []) ++ emptiesOfFldList fields off, off ≤ p.2 := by
    intro p hp
    rcases hsplit p hp with hp | hp | hp | hp
    · rw [hp.2]
    · exact ih6.1 p hp
    · exact ((ih5 hp.1).1) p hp.2
    · exact ih1.1 p hp
  by_cases hb : (!anyEmptySubobjectsBeyondOffset m off) = true
  · rw [if_pos hb]
    exact ⟨hmono, fun _ p hp => esoFresh_beyond m hwf
      ((anyEmpty_not_iff m off).mp hb) (hmono p hp) p.1⟩
  · rw [if_neg hb]
    by_cases hsub : (!canPlaceSubobjectAtOffset m
        (CRec.mk name isEmpty size nvSize nvAlign bases vbases fields) off) =
        true
    · rw [if_pos hsub]
      exact ⟨hmono, fun hck _ _ => absurd hck (by simp)⟩
    · rw [if_neg hsub]
      refine ⟨hmono, fun hck p hp => ?_⟩
      rw [Bool.and_eq_true, Bool.and_eq_true] at hck
      have hsub2 : canPlaceSubobjectAtOffset m
          (CRec.mk name isEmpty size nvSize nvAlign bases vbases fields) off =
          true := by simpa using hsub
      rcases hsplit p hp with hpe | hp2 | hp2 | hp2
      · obtain ⟨hEE, hpe⟩ := hpe
        subst hpe
        have := canPlaceSubobject_root_fresh m
          (CRec.mk name isEmpty size nvSize nvAlign bases vbases fields) off
          (by simp [CRec.isEmpty, hEE]) hsub2
        simpa [CRec.name] using this
      · exact ih6.2 hck.1.1 p hp2
      · refine ((ih5 hp2.1).2) ?_ p hp2.2
        have := hck.1.2
        rwa [if_pos hp2.1] at this
      · exact ih1.2 hck.2 p hp2

theorem esoSem_c9 (m : ESOMap) : ∀ (className off : Nat),
    esoSemProp m (emptiesOfRecVBasesList [] className off)
      (canPlaceRecVBasesList m [] className off) off := by
  intro className off
  rw [emptiesOfRecVBasesList.eq_def, canPlaceRecVBasesList.eq_def]
  simp [esoSemProp]

theorem esoSem_c10 (m : ESOMap) : ∀ (isVirtual : Bool) (boff : Nat)
    (cls : CRec) (rest : List CBase) (className off : Nat),
    esoSemProp m (emptiesOfRec cls className (off + boff))
      (canPlaceFieldSubobjectAtOffsetR m cls className (off + boff))
      (off + boff) →
    esoSemProp m (emptiesOfRecVBasesList rest className off)
      (canPlaceRecVBasesList m rest className off) off →
    esoSemProp m
      (emptiesOfRecVBasesList (CBase.mk isVirtual boff cls :: rest)
        className off)
      (canPlaceRecVBasesList m (CBase.mk isVirtual boff cls :: rest)
        className off) off := by
  intro isVirtual boff cls rest className off ih4 ih5
  unfold esoSemProp at ih4 ih5 ⊢
  rw [emptiesOfRecVBasesList.eq_def, canPlaceRecVBasesList.eq_def]
  simp only [List.mem_append, Bool.and_eq_true]
  constructor
  · intro p hp
    rcases hp with hp | hp
    · exact le_trans (Nat.le_add_right off boff) (ih4.1 p hp)
    · exact ih5.1 p hp
  · intro hck p hp
    rcases hp with hp | hp
    · exact ih4.2 hck.1 p hp
    · exact ih5.2 hck.2 p hp

theorem esoSem_c11 (m : ESOMap) : ∀ (className off : Nat),
    esoSemProp m (emptiesOfRecBasesList [] className off)
      (canPlaceRecBasesList m [] className off) off := by
  intro className off
  rw [emptiesOfRecBasesList.eq_def, canPlaceRecBasesList.eq_def]
  simp [esoSemProp]

theorem esoSem_c12 (m : ESOMap) : ∀ (isVirtual : Bool) (boff : Nat)
    (cls : CRec) (rest : List CBase) (className off : Nat),
    esoSemProp m (emptiesOfRec cls className (off + boff))
      (canPlaceFieldSubobjectAtOffsetR m cls className (off + boff))
      (off + boff) →
    esoSemProp m (emptiesOfRecBasesList rest className off)
      (canPlaceRecBasesList m rest className off) off →
    esoSemProp m
      (emptiesOfRecBasesList (CBase.mk isVirtual boff cls :: rest)
        className off)
      (canPlaceRecBasesList m (CBase.mk isVirtual boff cls :: rest)
        className off) off := by
  intro isVirtual boff cls rest className off ih4 ih6
  unfold esoSemProp at ih4 ih6 ⊢
  rw [emptiesOfRecBasesList.eq_def, canPlaceRecBasesList.eq_def]
  cases isVirtual with
  | true => simpa using ih6
  | false =>
    simp only [Bool.false_eq_true, if_false, List.mem_append,
      Bool.and_eq_true]
    constructor
    · intro p hp
      rcases hp with hp | hp
      · exact le_trans (Nat.le_add_right off boff) (ih4.1 p hp)
      · exact ih6.1 p hp
    · intro hck p hp
      rcases hp with hp | hp
      · exact ih4.2 hck.1 p hp
      · exact ih6.2 hck.2 p hp

theorem esoSem_R (m : ESOMap) (hwf : esoWF m) :
    ∀ (rd : CRec) (className off : Nat),
    esoSemProp m (emptiesOfRec rd className off)
      (canPlaceFieldSubobjectAtOffsetR m rd className off) off :=
  emptiesOfRec.induct
    (fun fl off => esoSemProp m (emptiesOfFldList fl off)
      (canPlaceFldList m fl off) off)
    (fun ty off => esoSemProp m (emptiesOfFD ty off)
      (canPlaceFieldSubobjectAtOffsetFD m ty off) off)
    (fun elem count off => esoSemProp m (emptiesOfArrayElems elem count off)
      (canPlaceArrayElems m elem count off) off)
    (fun rd cn off => esoSemProp m (emptiesOfRec rd cn off)
      (canPlaceFieldSubobjectAtOffsetR m rd cn off) off)
    (fun l cn off => esoSemProp m (emptiesOfRecVBasesList l cn off)
      (canPlaceRecVBasesList m l cn off) off)
    (fun l cn off => esoSemProp m (emptiesOfRecBasesList l cn off)
      (canPlaceRecBasesList m l cn off) off)
    (esoSem_c1 m) (esoSem_c2 m) (esoSem_c3 m) (esoSem_c4 m hwf)
    (esoSem_c5 m hwf) (esoSem_c6 m) (esoSem_c7 m hwf) (esoSem_c8 m hwf)
    (esoSem_c9 m) (esoSem_c10 m) (esoSem_c11 m) (esoSem_c12 m)

theorem esoSem_FldList (m : ESOMap) (hwf : esoWF m) :
    ∀ (fl : List CFld) (off : Nat),
    esoSemProp m (emptiesOfFldList fl off) (canPlaceFldList m fl off) off :=
  emptiesOfFldList.induct
    (fun fl off => esoSemProp m (emptiesOfFldList fl off)
      (canPlaceFldList m fl off) off)
    (fun ty off => esoSemProp m (emptiesOfFD ty off)
      (canPlaceFieldSubobjectAtOffsetFD m ty off) off)
    (fun elem count off => esoSemProp m (emptiesOfArrayElems elem count off)
      (canPlaceArrayElems m elem count off) off)
    (fun rd cn off => esoSemProp m (emptiesOfRec rd cn off)
      (canPlaceFieldSubobjectAtOffsetR m rd cn off) off)
    (fun l cn off => esoSemProp m (emptiesOfRecVBasesList l cn off)
      (canPlaceRecVBasesList m l cn off) off)
    (fun l cn off => esoSemProp m (emptiesOfRecBasesList l cn off)
      (canPlaceRecBasesList m l cn off) off)
    (esoSem_c1 m) (esoSem_c2 m) (esoSem_c3 m) (esoSem_c4 m hwf)
    (esoSem_c5 m hwf) (esoSem_c6 m) (esoSem_c7 m hwf) (esoSem_c8 m hwf)
    (esoSem_c9 m) (esoSem_c10 m) (esoSem_c11 m) (esoSem_c12 m)

theorem esoSem_FD (m : ESOMap) (hwf : esoWF m) :
    ∀ (ty : CTy) (off : Nat),
    esoSemProp m (emptiesOfFD ty off)
      (canPlaceFieldSubobjectAtOffsetFD m ty off) off :=
  emptiesOfFD.induct
    (fun fl off => esoSemProp m (emptiesOfFldList fl off)
      (canPlaceFldList m fl off) off)
    (fun ty off => esoSemProp m (emptiesOfFD ty off)
      (canPlaceFieldSubobjectAtOffsetFD m ty off) off)
    (fun elem count off => esoSemProp m (emptiesOfArrayElems elem count off)
      (canPlaceArrayElems m elem count off) off)
    (fun rd cn off => esoSemProp m (emptiesOfRec rd cn off)
      (canPlaceFieldSubobjectAtOffsetR m rd cn off) off)
    (fun l cn off => esoSemProp m (emptiesOfRecVBasesList l cn off)
      (canPlaceRecVBasesList m l cn off) off)
    (fun l cn off => esoSemProp m (emptiesOfRecBasesList l cn off)
      (canPlaceRecBasesList m l cn off) off)
    (esoSem_c1 m) (esoSem_c2 m) (esoSem_c3 m) (esoSem_c4 m hwf)
    (esoSem_c5 m hwf) (esoSem_c6 m) (esoSem_c7 m hwf) (esoSem_c8 m hwf)
    (esoSem_c9 m) (esoSem_c10 m) (esoSem_c11 m) (esoSem_c12 m)

theorem esoSem_b1 (m : ESOMap) (hwf : esoWF m) : ∀ (cls : CRec)
    (isVirtual : Bool) (bases : List (Nat × BSI)) (pvb : Option BSI)
    (off : Nat),
    esoSemProp m (emptiesOfBSIBasesList bases off)
      (canPlaceBSIBasesList m bases off) off →
    (match pvb with
     | some p => esoSemProp m (emptiesOfBase p off)
         (canPlaceBaseSubobjectAtOffset m p off) off
     | none => True) →
    esoSemProp m (emptiesOfBase (BSI.mk cls isVirtual bases pvb) off)
      (canPlaceBaseSubobjectAtOffset m (BSI.mk cls isVirtual bases pvb) off)
      off := by
  intro cls isVirtual bases pvb off ihb ihp
  have ihf := esoSem_FldList m hwf cls.fields off
  unfold esoSemProp at ihb ihf ⊢
  rw [emptiesOfBase.eq_def, canPlaceBaseSubobjectAtOffset.eq_def]
  simp only
  have hroot : ∀ p ∈ (if cls.isEmpty = true then [(cls.name, off)] else []),
      cls.isEmpty = true ∧ p = (cls.name, off) := by
    intro p hp
    by_cases hE : cls.isEmpty = true
    · rw [if_pos hE] at hp
      simp at hp
      exact ⟨hE, hp⟩
    · rw [if_neg hE] at hp
      simp at hp
  have hpvb : ∀ p ∈ (match pvb with
      | some q => emptiesOfBase q off
      | none => []),
      ∃ q, pvb = some q ∧ p ∈ emptiesOfBase q off := by
    intro p hp
    cases pvb with
    | none => simp at hp
    | some q => exact ⟨q, rfl, by simpa using hp⟩
  have hsplit : ∀ p ∈
      (if cls.isEmpty = true then [(cls.name, off)] else []) ++
      emptiesOfBSIBasesList bases off ++
      (match pvb with
       | some q => emptiesOfBase q off
       | none => []) ++
      emptiesOfFldList cls.fields off,
      (cls.isEmpty = true ∧ p = (cls.name, off)) ∨
      p ∈ emptiesOfBSIBasesList bases off ∨
      (∃ q, pvb = some q ∧ p ∈ emptiesOfBase q off) ∨
      p ∈ emptiesOfFldList cls.fields off := by
    intro p hp
    rcases List.mem_append.mp hp with hp | hp
    · rcases List.mem_append.mp hp with hp | hp
      · rcases List.mem_append.mp hp with hp | hp
        · exact Or.inl (hroot p hp)
        · exact Or.inr (Or.inl hp)
      · exact Or.inr (Or.inr (Or.inl (hpvb p hp)))
    · exact Or.inr (Or.inr (Or.inr hp))
  have hmono : ∀ p ∈
      (if cls.isEmpty = true then [(cls.name, off)] else []) ++
      emptiesOfBSIBasesList bases off ++
      (match pvb with
       | some q => emptiesOfBase q off
       | none => []) ++
      emptiesOfFldList cls.fields off, off ≤ p.2 := by
    intro p hp
    rcases hsplit p hp with hp | hp | hp | hp
    · rw [hp.2]
    · exact ihb.1 p hp
    · obtain ⟨q, hq, hpq⟩ := hp
      rw [hq] at ihp
      exact ihp.1 p hpq
    · exact ihf.1 p hp
  by_cases hb : (!anyEmptySubobjectsBeyondOffset m off) = true
  · rw [if_pos hb]
    exact ⟨hmono, fun _ p hp => esoFresh_beyond m hwf
      ((anyEmpty_not_iff m off).mp hb) (hmono p hp) p.1⟩
  · rw [if_neg hb]
    by_cases hsub : (!canPlaceSubobjectAtOffset m cls off) = true
    · rw [if_pos hsub]
      exact ⟨hmono, fun hck _ _ => absurd hck (by simp)⟩
    · rw [if_neg hsub]
      refine ⟨hmono, fun hck p hp => ?_⟩
      rw [Bool.and_eq_true, Bool.and_eq_true] at hck
      have hsub2 : canPlaceSubobjectAtOffset m cls off = true := by
        simpa using hsub
      rcases hsplit p hp with hpe | hp2 | hp2 | hp2
      · obtain ⟨hEE, hpe⟩ := hpe
        subst hpe
        exact canPlaceSubobject_root_fresh m cls off hEE hsub2
      · exact ihb.2 hck.1.1 p hp2
      · obtain ⟨q, hq, hpq⟩ := hp2
        rw [hq] at ihp
        refine ihp.2 ?_ p hpq
        have := hck.1.2
        rw [hq] at this
        simpa using this
      · exact ihf.2 hck.2 p hp2

theorem esoSem_b2 (m : ESOMap) : ∀ (off : Nat),
    esoSemProp m (emptiesOfBSIBasesList [] off)
      (canPlaceBSIBasesList m [] off) off := by
  intro off
  rw [emptiesOfBSIBasesList.eq_def, canPlaceBSIBasesList.eq_def]
  simp [esoSemProp]

theorem esoSem_b3 (m : ESOMap) : ∀ (boff : Nat) (child : BSI)
    (rest : List (Nat × BSI)) (off : Nat),
    (match child with
     | BSI.mk c isVirtual bases pvb =>
       esoSemProp m (emptiesOfBase (BSI.mk c isVirtual bases pvb) (off + boff))
         (canPlaceBaseSubobjectAtOffset m (BSI.mk c isVirtual bases pvb)
           (off + boff)) (off + boff)) →
    esoSemProp m (emptiesOfBSIBasesList rest off)
      (canPlaceBSIBasesList m rest off) off →
    esoSemProp m (emptiesOfBSIBasesList ((boff, child) :: rest) off)
      (canPlaceBSIBasesList m ((boff, child) :: rest) off) off := by
  intro boff child rest off ihc ihr
  obtain ⟨ccls, civ, cb, cp⟩ := child
  simp only at ihc
  unfold esoSemProp at ihc ihr ⊢
  rw [emptiesOfBSIBasesList.eq_def, canPlaceBSIBasesList.eq_def]
  simp only
  cases civ with
  | true =>
    simpa using ihr
  | false =>
    simp only [Bool.false_eq_true, if_false, List.mem_append,
      Bool.and_eq_true]
    constructor
    · intro p hp
      rcases hp with hp | hp
      · exact le_trans (Nat.le_add_right off boff) (ihc.1 p hp)
      · exact ihr.1 p hp
    · intro hck p hp
      rcases hp with hp | hp
      · exact ihc.2 hck.1 p hp
      · exact ihr.2 hck.2 p hp

theorem esoSem_Base (m : ESOMap) (hwf : esoWF m) :
    ∀ (info : BSI) (off : Nat),
    esoSemProp m (emptiesOfBase info off)
      (canPlaceBaseSubobjectAtOffset m info off) off :=
  emptiesOfBase.induct
    (fun info off => esoSemProp m (emptiesOfBase info off)
      (canPlaceBaseSubobjectAtOffset m info off) off)
    (fun l off => esoSemProp m (emptiesOfBSIBasesList l off)
      (canPlaceBSIBasesList m l off) off)
    (esoSem_b1 m hwf) (esoSem_b2 m) (esoSem_b3 m)

/-- The while loop of the non-external placement path of
`RecordLayoutBuilder::LayoutBase` (RecordLayoutBuilder.cpp:1216): query
`CanPlaceBaseAtOffset` and bump the trial offset by the base alignment
until it accepts; `fuel` bounds the iteration count.  Returns whether the
loop terminated within `fuel` steps, the accepted offset, and the updated
empty-subobject map. -/
def layoutBaseLoop (info : BSI) (align : Nat) :
    ESOMap → Nat → Nat → Bool × Nat × ESOMap
  | m, _, 0 => (false, 0, m)
  | m, off, fuel + 1 =>
    let r := canPlaceBaseAtOffset m info off
    if r.1 then (true, off, r.2)
    else layoutBaseLoop info align r.2 (off + align) fuel

/-- The non-external placement of `RecordLayoutBuilder::LayoutBase`
(RecordLayoutBuilder.cpp:1211-1217): round the current data size up to the
base's alignment boundary, then run the bumping loop. -/
def layoutBase (m : ESOMap) (info : BSI) (dataSize align fuel : Nat) :
    Bool × Nat × ESOMap :=
  layoutBaseLoop info align m (roundUp dataSize align) fuel

theorem layoutBaseLoop_succ (info : BSI) (align : Nat) (m : ESOMap)
    (off fuel : Nat) :
    layoutBaseLoop info align m off (fuel + 1) =
      if (canPlaceBaseAtOffset m info off).1
      then (true, off, (canPlaceBaseAtOffset m info off).2)
      else layoutBaseLoop info align (canPlaceBaseAtOffset m info off).2
             (off + align) fuel := rfl

/-- A failing `CanPlaceBaseAtOffset` returns the map unchanged. -/
theorem canPlaceBaseAtOffset_false_snd (m : ESOMap) (info : BSI)
    (off : Nat) (h : (canPlaceBaseAtOffset m info off).1 = false) :
    (canPlaceBaseAtOffset m info off).2 = m := by
  unfold canPlaceBaseAtOffset at h ⊢
  by_cases h0 : m.sizeOfLargestEmptySubobject = 0
  · rw [if_pos h0] at h
    simp at h
  · rw [if_neg h0] at h ⊢
    by_cases hc : (!canPlaceBaseSubobjectAtOffset m info off) = true
    · rw [if_pos hc]
    · rw [if_neg hc] at h
      simp at h

/-- Beyond the maximum empty-class offset, `CanPlaceBaseAtOffset` always
accepts. -/
theorem canPlaceBaseAtOffset_beyond (m : ESOMap) (info : BSI) (off : Nat)
    (h : m.maxEmptyClassOffset < off) :
    (canPlaceBaseAtOffset m info off).1 = true := by
  unfold canPlaceBaseAtOffset
  by_cases h0 : m.sizeOfLargestEmptySubobject = 0
  · rw [if_pos h0]
  · rw [if_neg h0]
    obtain ⟨cls, iv, bases, pvb⟩ := info
    have hck : canPlaceBaseSubobjectAtOffset m (.mk cls iv bases pvb) off
        = true := by
      rw [canPlaceBaseSubobjectAtOffset.eq_def]
      simp only
      rw [if_pos ((anyEmpty_not_iff m off).mpr h)]
    rw [hck]
    simp

/-- A successful `CanPlaceBaseAtOffset` implies (away from the degenerate
zero bound) a successful check traversal, and in every case the freshness
of all empty constituents of the base at their offsets. -/
theorem canPlaceBaseAtOffset_true_props (m : ESOMap) (hwf : esoWF m)
    (h0 : m.sizeOfLargestEmptySubobject = 0 → m.emptyClassOffsets = [])
    (info : BSI) (off : Nat)
    (h : (canPlaceBaseAtOffset m info off).1 = true) :
    (m.sizeOfLargestEmptySubobject ≠ 0 →
      canPlaceBaseSubobjectAtOffset m info off = true) ∧
    ∀ p ∈ emptiesOfBase info off, p.1 ∉ lookupClasses m p.2 := by
  by_cases hb : m.sizeOfLargestEmptySubobject = 0
  · refine ⟨fun hne => absurd hb hne, fun p hp => ?_⟩
    have hempty : lookupClasses m p.2 = [] := by
      unfold lookupClasses
      rw [h0 hb]
      rfl
    rw [hempty]
    simp
  · unfold canPlaceBaseAtOffset at h
    rw [if_neg hb] at h
    by_cases hc : (!canPlaceBaseSubobjectAtOffset m info off) = true
    · rw [if_pos hc] at h
      simp at h
    · have hck : canPlaceBaseSubobjectAtOffset m info off = true := by
        simpa using hc
      have hs := esoSem_Base m hwf info off
      unfold esoSemProp at hs
      exact ⟨fun _ => hck, hs.2 hck⟩

/-- Specification of the bumping loop: with enough fuel it succeeds; the
accepted offset is the start plus a whole number of alignment bumps, every
earlier trial was rejected, the map is the one the accepting call
returned, the accepting offset passes the full check traversal (away from
the zero-bound fast path), and none of the base's empty constituents is
already recorded at its offset. -/
theorem layoutBaseLoop_spec (m : ESOMap) (info : BSI) (align : Nat)
    (hwf : esoWF m)
    (h0 : m.sizeOfLargestEmptySubobject = 0 → m.emptyClassOffsets = []) :
    ∀ (fuel startOff : Nat),
    m.maxEmptyClassOffset < startOff + fuel * align →
    (layoutBaseLoop info align m startOff (fuel + 1)).1 = true ∧
    ∃ k,
      (layoutBaseLoop info align m startOff (fuel + 1)).2.1
        = startOff + k * align ∧
      (∀ j < k,
        (canPlaceBaseAtOffset m info (startOff + j * align)).1 = false) ∧
      (layoutBaseLoop info align m startOff (fuel + 1)).2.2
        = (canPlaceBaseAtOffset m info (startOff + k * align)).2 ∧
      (m.sizeOfLargestEmptySubobject ≠ 0 →
        canPlaceBaseSubobjectAtOffset m info (startOff + k * align)
          = true) ∧
      ∀ p ∈ emptiesOfBase info (startOff + k * align),
        p.1 ∉ lookupClasses m p.2 := by
  intro fuel
  induction fuel with
  | zero =>
    intro startOff hlt
    simp only [Nat.zero_mul, Nat.add_zero] at hlt
    have hsucc := canPlaceBaseAtOffset_beyond m info startOff hlt
    have hprops := canPlaceBaseAtOffset_true_props m hwf h0 info startOff
      hsucc
    rw [layoutBaseLoop_succ, if_pos hsucc]
    exact ⟨rfl, 0, by simp, fun j hj => absurd hj (Nat.not_lt_zero j),
      by simp, by simpa using hprops.1, by simpa using hprops.2⟩
  | succ fuel ih =>
    intro startOff hlt
    by_cases hs : (canPlaceBaseAtOffset m info startOff).1 = true
    · have hprops := canPlaceBaseAtOffset_true_props m hwf h0 info startOff
        hs
      rw [layoutBaseLoop_succ, if_pos hs]
      exact ⟨rfl, 0, by simp, fun j hj => absurd hj (Nat.not_lt_zero j),
        by simp, by simpa using hprops.1, by simpa using hprops.2⟩
    · have hs' : (canPlaceBaseAtOffset m info startOff).1 = false := by
        cases hb : (canPlaceBaseAtOffset m info startOff).1
        · rfl
        · exact absurd hb hs
      have hunch := canPlaceBaseAtOffset_false_snd m info startOff hs'
      rw [layoutBaseLoop_succ, if_neg hs, hunch]
      have hmul : (fuel + 1) * align = fuel * align + align :=
        Nat.succ_mul fuel align
      have hlt' : m.maxEmptyClassOffset < startOff + align + fuel * align
        := by omega
      obtain ⟨h1, k, h2, h3, h4, h5, h6⟩ := ih (startOff + align) hlt'
      have harith : ∀ n : Nat, startOff + align + n * align
          = startOff + (n + 1) * align := by
        intro n
        rw [Nat.succ_mul]
        omega
      refine ⟨h1, k + 1, ?_, ?_, ?_, ?_, ?_⟩
      · rw [h2, harith k]
      · intro j hj
        cases j with
        | zero => simpa using hs'
        | succ j' =>
          have hr := h3 j' (by omega)
          rwa [harith j'] at hr
      · rw [h4, harith k]
      · rw [← harith k]
        exact h5
      · rw [← harith k]
        exact h6

/-- **C1.** Empty-subobject non-overlap at base placement: the Itanium
builder's `LayoutBase` rounds the data size up to the base alignment and
keeps bumping the trial offset by the base's alignment until the
empty-subobject map accepts (every earlier trial offset was rejected by
`CanPlaceBaseAtOffset`); at the accepted offset the full check traversal
succeeds (away from the zero-bound fast path), so no empty direct or
indirect constituent subobject of the placed base shares both its static
class type (declaration) and its offset with an empty subobject already
recorded in the map. -/
theorem layoutBase_empty_subobject_spec (m : ESOMap) (info : BSI)
    (dataSize align fuel : Nat) (hwf : esoWF m)
    (h0 : m.sizeOfLargestEmptySubobject = 0 → m.emptyClassOffsets = [])
    (hfuel : m.maxEmptyClassOffset < roundUp dataSize align + fuel * align) :
    (layoutBase m info dataSize align (fuel + 1)).1 = true ∧
    ∃ k,
      (layoutBase m info dataSize align (fuel + 1)).2.1
        = roundUp dataSize align + k * align ∧
      (∀ j < k, (canPlaceBaseAtOffset m info
        (roundUp dataSize align + j * align)).1 = false) ∧
      (layoutBase m info dataSize align (fuel + 1)).2.2
        = (canPlaceBaseAtOffset m info
            (roundUp dataSize align + k * align)).2 ∧
      (m.sizeOfLargestEmptySubobject ≠ 0 →
        canPlaceBaseSubobjectAtOffset m info
          (roundUp dataSize align + k * align) = true) ∧
      ∀ p ∈ emptiesOfBase info (roundUp dataSize align + k * align),
        p.1 ∉ lookupClasses m p.2 :=
  layoutBaseLoop_spec m info align hwf h0 fuel (roundUp dataSize align)
    hfuel

/-- Witness for C1: a concrete placement of an empty base through the
loop succeeds. -/
theorem layoutBase_empty_subobject_spec_witness :
    (layoutBase ⟨1, [], 0⟩
      (BSI.mk (CRec.mk 7 true 1 1 1 [] [] []) false [] none) 0 1 2).1
      = true :=
  (layoutBase_empty_subobject_spec ⟨1, [], 0⟩
    (BSI.mk (CRec.mk 7 true 1 1 1 [] [] []) false [] none) 0 1 1
    (fun o c h => by simp [lookupClasses, List.lookup] at h)
    (fun _ => rfl) (by decide)).1

/-- `List.lookup` on a cons cell, with propositional key comparison. -/
theorem lookup_cons_nat {β : Type} (k : Nat) (b : β) (es : List (Nat × β))
    (o : Nat) :
    List.lookup o ((k, b) :: es) = if o = k then some b else es.lookup o := by
  by_cases h : o = k
  · subst h
    simp [List.lookup]
  · have hb : (o == k) = false := beq_eq_false_iff_ne.mpr h
    simp [List.lookup, hb, h]

/-- Effect of `assocAdd` on lookups: the vector at the touched offset
gains the class at its end, all other offsets are untouched. -/
theorem assocAdd_lookup (off n : Nat) :
    ∀ (l : List (Nat × List Nat)) (o : Nat),
    (assocAdd l off n).lookup o =
      if o = off
      then some ((match l.lookup off with
                  | none => []
                  | some cs => cs) ++ [n])
      else l.lookup o := by
  intro l
  induction l with
  | nil =>
    intro o
    rw [assocAdd, lookup_cons_nat]
    by_cases h : o = off
    · rw [if_pos h, if_pos h]
      rfl
    · rw [if_neg h, if_neg h]
  | cons hd rest ih =>
    obtain ⟨k, cs⟩ := hd
    intro o
    by_cases hk : k = off <;> by_cases ho : o = k <;>
      by_cases hoff : o = off <;>
      simp_all [assocAdd, lookup_cons_nat]

/-- Effect of `AddSubobjectAtOffset` on the recorded class vectors. -/
theorem lookupClasses_addSubobject (m : ESOMap) (rd : CRec)
    (off o : Nat) :
    lookupClasses (addSubobjectAtOffset m rd off) o =
      if rd.isEmpty = true ∧ o = off ∧ rd.name ∉ lookupClasses m off
      then lookupClasses m o ++ [rd.name]
      else lookupClasses m o := by
  unfold addSubobjectAtOffset
  by_cases hE : rd.isEmpty = true
  · rw [hE]
    simp only [Bool.not_true, Bool.false_eq_true, if_false]
    by_cases hmem : rd.name ∈ lookupClasses m off
    · rw [if_pos hmem, if_neg (by simp [hmem])]
    · rw [if_neg hmem]
      conv_lhs => unfold lookupClasses
      simp only
      rw [assocAdd_lookup]
      by_cases ho : o = off
      · subst ho
        rw [if_pos rfl, if_pos (by exact ⟨trivial, rfl, hmem⟩)]
        rfl
      · rw [if_neg ho, if_neg (by simp [ho])]
        rfl
  · have hE' : rd.isEmpty = false := by
      cases h : rd.isEmpty
      · rfl
      · exact absurd h hE
    rw [hE']
    simp only [Bool.not_false, if_true]
    rw [if_neg (by simp [hE'])]

/-- `AddSubobjectAtOffset` never changes the tracked bound. -/
theorem addSubobject_size (m : ESOMap) (rd : CRec) (off : Nat) :
    (addSubobjectAtOffset m rd off).sizeOfLargestEmptySubobject
      = m.sizeOfLargestEmptySubobject := by
  unfold addSubobjectAtOffset
  split
  · rfl
  · split
    · rfl
    · rfl

/-- Relation between a map and its state after part of an update
traversal: the tracked bound `SizeOfLargestEmptySubobject` is unchanged,
every recorded class/offset pair is preserved, and every pair of the
given list has been recorded. -/
def updRecProp (m m' : ESOMap) (recorded : List (Nat × Nat)) : Prop :=
  m'.sizeOfLargestEmptySubobject = m.sizeOfLargestEmptySubobject ∧
  (∀ c o, c ∈ lookupClasses m o → c ∈ lookupClasses m' o) ∧
  (∀ p ∈ recorded, p.1 ∈ lookupClasses m' p.2)

theorem updRecProp_refl (m : ESOMap) : updRecProp m m [] :=
  ⟨rfl, fun _ _ h => h, fun p hp => absurd hp (by simp)⟩

theorem updRecProp_trans {m m1 m2 : ESOMap} {r1 r2 : List (Nat × Nat)}
    (h1 : updRecProp m m1 r1) (h2 : updRecProp m1 m2 r2) :
    updRecProp m m2 (r1 ++ r2) := by
  obtain ⟨s1, p1, q1⟩ := h1
  obtain ⟨s2, p2, q2⟩ := h2
  refine ⟨s2.trans s1, fun c o h => p2 c o (p1 c o h), fun p hp => ?_⟩
  rcases List.mem_append.mp hp with hp | hp
  · exact p2 p.1 p.2 (q1 p hp)
  · exact q2 p hp

theorem updRecProp_add (m : ESOMap) (rd : CRec) (off : Nat) :
    updRecProp m (addSubobjectAtOffset m rd off)
      (if rd.isEmpty then [(rd.name, off)] else []) := by
  refine ⟨addSubobject_size m rd off, fun c o h => ?_, fun p hp => ?_⟩
  · rw [lookupClasses_addSubobject]
    split
    · exact List.mem_append_left _ h
    · exact h
  · by_cases hE : rd.isEmpty = true
    · rw [hE] at hp
      simp only [if_true] at hp
      rcases List.mem_singleton.mp hp with rfl
    

      rw [lookupClasses_addSubobject]
      by_cases hmem : rd.name ∈ lookupClasses m off
      · rw [if_neg (by simp [hmem])]
        exact hmem
      · rw [if_pos ⟨hE, rfl, hmem⟩]
        exact List.mem_append_right _ (by simp)
    · have hE' : rd.isEmpty = false := by
        cases h : rd.isEmpty
        · rfl
        · exact absurd h hE
      rw [hE'] at hp
      simp at hp

mutual

/-- The class/offset pairs `UpdateEmptyFieldSubobjects` (record form)
passes to `AddSubobjectAtOffset` for empty classes, mirroring its pruning
guard; `B` stands for the constant `SizeOfLargestEmptySubobject`. -/
def recordedOfR (B : Nat) : CRec → Nat → Nat → List (Nat × Nat)
  | .mk name isEmpty _ _ _ bases vbases fields, className, off =>
    if off ≥ B then []
    else
      (if isEmpty then [(name, off)] else []) ++
      recordedOfRecBasesList B bases className off ++
      (if name = className then
        recordedOfRecVBasesList B vbases className off
       else []) ++
      recordedOfFldList B fields off
termination_by rd className off => (sizeOf rd, 0)

def recordedOfRecBasesList (B : Nat) :
    List CBase → Nat → Nat → List (Nat × Nat)
  | [], _, _ => []
  | .mk isVirtual boff cls :: rest, className, off =>
    (if isVirtual then [] else recordedOfR B cls className (off + boff)) ++
    recordedOfRecBasesList B rest className off
termination_by l className off => (sizeOf l, 0)

def recordedOfRecVBasesList (B : Nat) :
    List CBase → Nat → Nat → List (Nat × Nat)
  | [], _, _ => []
  | .mk _ boff cls :: rest, className, off =>
    recordedOfR B cls className (off + boff) ++
    recordedOfRecVBasesList B rest className off
termination_by l className off => (sizeOf l, 0)

def recordedOfFldList (B : Nat) : List CFld → Nat → List (Nat × Nat)
  | [], _ => []
  | .mk isBitField foff ty :: rest, off =>
    (if isBitField then [] else recordedOfFD B ty (off + foff)) ++
    recordedOfFldList B rest off
termination_by l off => (sizeOf l, 0)

/-- The pairs `UpdateEmptyFieldSubobjects` (field form) records. -/
def recordedOfFD (B : Nat) : CTy → Nat → List (Nat × Nat)
  | ty, off =>
    match ty with
    | .scalar => []
    | .record cls => recordedOfR B cls cls.name off
    | .array elem count => recordedOfArrayElems B elem count off
termination_by ty off => (sizeOf ty, 0)

def recordedOfArrayElems (B : Nat) : CRec → Nat → Nat → List (Nat × Nat)
  | _, 0, _ => []
  | elem, count + 1, off =>
    if off ≥ B then []
    else
      recordedOfR B elem elem.name off ++
      recordedOfArrayElems B elem count (off + elem.size)
termination_by elem count off => (sizeOf elem, count)

end

mutual

/-- The class/offset pairs `UpdateEmptyBaseSubobjects` passes to
`AddSubobjectAtOffset` for empty classes, mirroring its pruning guard. -/
def recordedOfBase (B : Nat) : BSI → Nat → Bool → List (Nat × Nat)
  | .mk cls _ bases pvb, off, placingEmptyBase =>
    if ¬placingEmptyBase ∧ off ≥ B then []
    else
      (if cls.isEmpty then [(cls.name, off)] else []) ++
      recordedOfBSIBasesList B bases off placingEmptyBase ++
      (match pvb with
       | some p => recordedOfBase B p off placingEmptyBase
       | none => []) ++
      recordedOfFldList B cls.fields off
termination_by info off _ => (sizeOf info, 0)

def recordedOfBSIBasesList (B : Nat) :
    List (Nat × BSI) → Nat → Bool → List (Nat × Nat)
  | [], _, _ => []
  | (boff, child) :: rest, off, placingEmptyBase =>
    (match child with
     | .mk ccls cIsVirtual cbases cpvb =>
       if cIsVirtual then []
       else recordedOfBase B (.mk ccls cIsVirtual cbases cpvb)
              (off + boff) placingEmptyBase) ++
    recordedOfBSIBasesList B rest off placingEmptyBase
termination_by l off _ => (sizeOf l, 0)

end

/-- The fused update-traversal property for each update function. -/
def updFldProp (m : ESOMap) (l : List CFld) (off : Nat) : Prop :=
  updRecProp m (updateFldList m l off)
    (recordedOfFldList m.sizeOfLargestEmptySubobject l off)

def updFDProp (m : ESOMap) (ty : CTy) (off : Nat) : Prop :=
  updRecProp m (updateEmptyFieldSubobjectsFD m ty off)
    (recordedOfFD m.sizeOfLargestEmptySubobject ty off)

def updArrProp (m : ESOMap) (elem : CRec) (count off : Nat) : Prop :=
  updRecProp m (updateArrayElems m elem count off)
    (recordedOfArrayElems m.sizeOfLargestEmptySubobject elem count off)

def updRProp (m : ESOMap) (rd : CRec) (className off : Nat) : Prop :=
  updRecProp m (updateEmptyFieldSubobjectsR m rd className off)
    (recordedOfR m.sizeOfLargestEmptySubobject rd className off)

def updVBProp (m : ESOMap) (l : List CBase) (className off : Nat) : Prop :=
  updRecProp m (updateRecVBasesList m l className off)
    (recordedOfRecVBasesList m.sizeOfLargestEmptySubobject l className off)

def updNVBProp (m : ESOMap) (l : List CBase) (className off : Nat) : Prop :=
  updRecProp m (updateRecBasesList m l className off)
    (recordedOfRecBasesList m.sizeOfLargestEmptySubobject l className off)

theorem updRec_c1 : ∀ (m : ESOMap) (x : Nat), updFldProp m [] x := by
  intro m x
  unfold updFldProp
  rw [updateFldList.eq_def, recordedOfFldList.eq_def]
  exact updRecProp_refl m

theorem updRec_c2 : ∀ (m : ESOMap) (isBitField : Bool) (foff : Nat)
    (ty : CTy) (rest : List CFld) (off : Nat),
    updFDProp m ty (off + foff) →
    updFldProp (if _h : isBitField = true then m
      else updateEmptyFieldSubobjectsFD m ty (off + foff)) rest off →
    updFldProp m (CFld.mk isBitField foff ty :: rest) off := by
  intro m isBitField foff ty rest off ihFD ihrest
  unfold updFldProp at ihrest ⊢
  unfold updFDProp at ihFD
  rw [updateFldList.eq_def, recordedOfFldList.eq_def]
  simp only
  by_cases hb : isBitField = true
  · rw [dif_pos hb] at ihrest
    rw [if_pos hb, if_pos hb]
    simpa using ihrest
  · rw [dif_neg hb] at ihrest
    rw [if_neg hb, if_neg hb]
    rw [ihFD.1] at ihrest
    exact updRecProp_trans ihFD ihrest

theorem updRec_c3 : ∀ (m : ESOMap) (off : Nat),
    updFDProp m CTy.scalar off := by
  intro m off
  unfold updFDProp
  rw [updateEmptyFieldSubobjectsFD.eq_def, recordedOfFD.eq_def]
  exact updRecProp_refl m

theorem updRec_c4 : ∀ (m : ESOMap) (off : Nat) (cls : CRec),
    updRProp m cls cls.name off → updFDProp m (CTy.record cls) off := by
  intro m off cls ih
  unfold updFDProp
  unfold updRProp at ih
  rw [updateEmptyFieldSubobjectsFD.eq_def, recordedOfFD.eq_def]
  simpa using ih

theorem updRec_c5 : ∀ (m : ESOMap) (off : Nat) (elem : CRec)
    (count : Nat),
    updArrProp m elem count off → updFDProp m (CTy.array elem count) off
    := by
  intro m off elem count ih
  unfold updFDProp
  unfold updArrProp at ih
  rw [updateEmptyFieldSubobjectsFD.eq_def, recordedOfFD.eq_def]
  simpa using ih

theorem updRec_c6 : ∀ (m : ESOMap) (x : CRec) (x1 : Nat),
    updArrProp m x 0 x1 := by
  intro m x x1
  unfold updArrProp
  rw [updateArrayElems.eq_def, recordedOfArrayElems.eq_def]
  exact updRecProp_refl m

theorem updRec_c7 : ∀ (m : ESOMap) (elem : CRec) (count off : Nat),
    off ≥ m.sizeOfLargestEmptySubobject →
    updArrProp m elem count.succ off := by
  intro m elem count off hg
  unfold updArrProp
  rw [updateArrayElems.eq_def, recordedOfArrayElems.eq_def]
  simp only
  rw [if_pos hg, if_pos hg]
  exact updRecProp_refl m

theorem updRec_c8 : ∀ (m : ESOMap) (elem : CRec) (count off : Nat),
    ¬off ≥ m.sizeOfLargestEmptySubobject →
    updRProp m elem elem.name off →
    updArrProp (updateEmptyFieldSubobjectsR m elem elem.name off) elem
      count (off + elem.size) →
    updArrProp m elem count.succ off := by
  intro m elem count off hg ihR ihArr
  unfold updArrProp at ihArr ⊢
  unfold updRProp at ihR
  rw [updateArrayElems.eq_def, recordedOfArrayElems.eq_def]
  simp only
  rw [if_neg hg, if_neg hg]
  rw [ihR.1] at ihArr
  exact updRecProp_trans ihR ihArr

theorem updRec_c9 : ∀ (m : ESOMap) (name : Nat) (isEmpty : Bool)
    (size nvSize nvAlign : Nat) (bases vbases : List CBase)
    (fields : List CFld) (className off : Nat),
    off ≥ m.sizeOfLargestEmptySubobject →
    updRProp m (CRec.mk name isEmpty size nvSize nvAlign bases vbases
      fields) className off := by
  intro m name isEmpty size nvSize nvAlign bases vbases fields className
    off hg
  unfold updRProp
  rw [updateEmptyFieldSubobjectsR.eq_def, recordedOfR.eq_def]
  simp only
  rw [if_pos hg, if_pos hg]
  exact updRecProp_refl m

theorem updRec_c10 : ∀ (m : ESOMap) (name : Nat) (isEmpty : Bool)
    (size nvSize nvAlign : Nat) (bases vbases : List CBase)
    (fields : List CFld) (className off : Nat),
    ¬off ≥ m.sizeOfLargestEmptySubobject →
    updNVBProp (addSubobjectAtOffset m (CRec.mk name isEmpty size nvSize
      nvAlign bases vbases fields) off) bases className off →
    updNVBProp (addSubobjectAtOffset m (CRec.mk name isEmpty size nvSize
      nvAlign bases vbases fields) off) bases className off →
    (name = className →
      updVBProp (updateRecBasesList (addSubobjectAtOffset m (CRec.mk name
        isEmpty size nvSize nvAlign bases vbases fields) off) bases
        className off) vbases className off) →
    (name = className →
      updVBProp (updateRecBasesList (addSubobjectAtOffset m (CRec.mk name
        isEmpty size nvSize nvAlign bases vbases fields) off) bases
        className off) vbases className off) →
    updFldProp (if name = className then
        updateRecVBasesList (updateRecBasesList (addSubobjectAtOffset m
          (CRec.mk name isEmpty size nvSize nvAlign bases vbases fields)
          off) bases className off) vbases className off
      else
        updateRecBasesList (addSubobjectAtOffset m (CRec.mk name isEmpty
          size nvSize nvAlign bases vbases fields) off) bases className
          off) fields off →
    updRProp m (CRec.mk name isEmpty size nvSize nvAlign bases vbases
      fields) className off := by
  intro m name isEmpty size nvSize nvAlign bases vbases fields className
    off hg ih6 _ih6 ih5 _ih5 ih1
  unfold updRProp
  unfold updNVBProp at ih6
  unfold updFldProp at ih1
  rw [updateEmptyFieldSubobjectsR.eq_def, recordedOfR.eq_def]
  simp only
  rw [if_neg hg, if_neg hg]
  have hadd := updRecProp_add m
    (CRec.mk name isEmpty size nvSize nvAlign bases vbases fields) off
  simp only [CRec.isEmpty, CRec.name] at hadd
  rw [hadd.1] at ih6
  have hchain1 := updRecProp_trans hadd ih6
  by_cases hnc : name = className
  · have ih5' := ih5 hnc
    unfold updVBProp at ih5'
    rw [ih6.1, hadd.1] at ih5'
    have hchain2 := updRecProp_trans hchain1 ih5'
    rw [if_pos hnc] at ih1 ⊢
    rw [ih5'.1, ih6.1, hadd.1] at ih1
    have hchain3 := updRecProp_trans hchain2 ih1
    rw [if_pos hnc]
    exact hchain3
  · rw [if_neg hnc] at ih1 ⊢
    rw [ih6.1, hadd.1] at ih1
    have hchain3 := updRecProp_trans hchain1 ih1
    rw [if_neg hnc]
    simpa using hchain3

theorem updRec_c11 : ∀ (m : ESOMap) (x x1 : Nat),
    updVBProp m [] x x1 := by
  intro m x x1
  unfold updVBProp
  rw [updateRecVBasesList.eq_def, recordedOfRecVBasesList.eq_def]
  exact updRecProp_refl m

theorem updRec_c12 : ∀ (m : ESOMap) (isVirtual : Bool) (boff : Nat)
    (cls : CRec) (rest : List CBase) (className off : Nat),
    updRProp m cls className (off + boff) →
    updVBProp (updateEmptyFieldSubobjectsR m cls className (off + boff))
      rest className off →
    updVBProp m (CBase.mk isVirtual boff cls :: rest) className off := by
  intro m isVirtual boff cls rest className off ihR ihrest
  unfold updVBProp at ihrest ⊢
  unfold updRProp at ihR
  rw [updateRecVBasesList.eq_def, recordedOfRecVBasesList.eq_def]
  simp only
  rw [ihR.1] at ihrest
  exact updRecProp_trans ihR ihrest

theorem updRec_c13 : ∀ (m : ESOMap) (x x1 : Nat),
    updNVBProp m [] x x1 := by
  intro m x x1
  unfold updNVBProp
  rw [updateRecBasesList.eq_def, recordedOfRecBasesList.eq_def]
  exact updRecProp_refl m

theorem updRec_c14 : ∀ (m : ESOMap) (isVirtual : Bool) (boff : Nat)
    (cls : CRec) (rest : List CBase) (className off : Nat),
    updRProp m cls className (off + boff) →
    updNVBProp (if _h : isVirtual = true then m
      else updateEmptyFieldSubobjectsR m cls className (off + boff)) rest
      className off →
    updNVBProp m (CBase.mk isVirtual boff cls :: rest) className off := by
  intro m isVirtual boff cls rest className off ihR ihrest
  unfold updNVBProp at ihrest ⊢
  unfold updRProp at ihR
  rw [updateRecBasesList.eq_def, recordedOfRecBasesList.eq_def]
  simp only
  by_cases hb : isVirtual = true
  · rw [dif_pos hb] at ihrest
    rw [if_pos hb, if_pos hb]
    simpa using ihrest
  · rw [dif_neg hb] at ihrest
    rw [if_neg hb, if_neg hb]
    rw [ihR.1] at ihrest
    exact updRecProp_trans ihR ihrest

/-- The fused property holds of `updateFldList`. -/
theorem updFldList_spec : ∀ (m : ESOMap) (l : List CFld) (off : Nat),
    updFldProp m l off :=
  updateFldList.induct
    (fun m l off => updFldProp m l off)
    (fun m ty off => updFDProp m ty off)
    (fun m elem count off => updArrProp m elem count off)
    (fun m rd className off => updRProp m rd className off)
    (fun m l className off => updVBProp m l className off)
    (fun m l className off => updNVBProp m l className off)
    updRec_c1 updRec_c2 updRec_c3 updRec_c4 updRec_c5 updRec_c6 updRec_c7
    updRec_c8 updRec_c9 updRec_c10 updRec_c11 updRec_c12 updRec_c13
    updRec_c14

/-- The fused property holds of `updateEmptyFieldSubobjectsFD`. -/
theorem updFD_spec : ∀ (m : ESOMap) (ty : CTy) (off : Nat),
    updFDProp m ty off :=
  updateEmptyFieldSubobjectsFD.induct
    (fun m l off => updFldProp m l off)
    (fun m ty off => updFDProp m ty off)
    (fun m elem count off => updArrProp m elem count off)
    (fun m rd className off => updRProp m rd className off)
    (fun m l className off => updVBProp m l className off)
    (fun m l className off => updNVBProp m l className off)
    updRec_c1 updRec_c2 updRec_c3 updRec_c4 updRec_c5 updRec_c6 updRec_c7
    updRec_c8 updRec_c9 updRec_c10 updRec_c11 updRec_c12 updRec_c13
    updRec_c14

def updBaseProp (info : BSI) (off : Nat) : Prop :=
  ∀ (m : ESOMap) (peb : Bool),
    updRecProp m (updateEmptyBaseSubobjects m info off peb)
      (recordedOfBase m.sizeOfLargestEmptySubobject info off peb)

def updBSIProp (l : List (Nat × BSI)) (off : Nat) : Prop :=
  ∀ (m : ESOMap) (peb : Bool),
    updRecProp m (updateBSIBasesList m l off peb)
      (recordedOfBSIBasesList m.sizeOfLargestEmptySubobject l off peb)

theorem updRec_b1 : ∀ (cls : CRec) (isVirtual : Bool)
    (bases : List (Nat × BSI)) (pvb : Option BSI) (off : Nat),
    updBSIProp bases off →
    (match pvb with
     | some p => updBaseProp p off
     | none => True) →
    updBaseProp (BSI.mk cls isVirtual bases pvb) off := by
  intro cls isVirtual bases pvb off ihb ihp
  intro m peb
  rw [updateEmptyBaseSubobjects.eq_def, recordedOfBase.eq_def]
  simp only
  by_cases hgd : ¬peb = true ∧ off ≥ m.sizeOfLargestEmptySubobject
  · rw [if_pos hgd, if_pos hgd]
    exact updRecProp_refl m
  · rw [if_neg hgd, if_neg hgd]
    have hadd := updRecProp_add m cls off
    have hbases := ihb (addSubobjectAtOffset m cls off) peb
    rw [hadd.1] at hbases
    have hchain1 := updRecProp_trans hadd hbases
    cases pvb with
    | none =>
      have hfld := updFldList_spec
        (updateBSIBasesList (addSubobjectAtOffset m cls off) bases off peb)
        cls.fields off
      unfold updFldProp at hfld
      rw [hbases.1, hadd.1] at hfld
      have hchain2 := updRecProp_trans hchain1 hfld
      simpa using hchain2
    | some p =>
      simp only at ihp
      have hp := ihp
        (updateBSIBasesList (addSubobjectAtOffset m cls off) bases off peb)
        peb
      rw [hbases.1, hadd.1] at hp
      have hchain2 := updRecProp_trans hchain1 hp
      have hfld := updFldList_spec
        (updateEmptyBaseSubobjects
          (updateBSIBasesList (addSubobjectAtOffset m cls off) bases off
            peb) p off peb) cls.fields off
      unfold updFldProp at hfld
      rw [hp.1, hbases.1, hadd.1] at hfld
      have hchain3 := updRecProp_trans hchain2 hfld
      simpa using hchain3

theorem updRec_b2 : ∀ (off : Nat), updBSIProp [] off := by
  intro off m peb
  rw [updateBSIBasesList.eq_def, recordedOfBSIBasesList.eq_def]
  exact updRecProp_refl m

theorem updRec_b3 : ∀ (boff : Nat) (child : BSI)
    (rest : List (Nat × BSI)) (off : Nat),
    (match child with
     | BSI.mk c isVirtual bases pvb =>
       updBaseProp (BSI.mk c isVirtual bases pvb) (off + boff)) →
    updBSIProp rest off →
    updBSIProp ((boff, child) :: rest) off := by
  intro boff child rest off ihc ihr
  obtain ⟨ccls, civ, cb, cp⟩ := child
  simp only at ihc
  intro m peb
  rw [updateBSIBasesList.eq_def, recordedOfBSIBasesList.eq_def]
  simp only
  by_cases hv : civ = true
  · rw [if_pos hv, if_pos hv]
    simpa using ihr m peb
  · rw [if_neg hv, if_neg hv]
    have hc := ihc m peb
    have hr := ihr
      (updateEmptyBaseSubobjects m (BSI.mk ccls civ cb cp) (off + boff)
        peb) peb
    rw [hc.1] at hr
    exact updRecProp_trans hc hr

/-- The fused property holds of `updateEmptyBaseSubobjects`. -/
theorem updBase_spec : ∀ (info : BSI) (off : Nat), updBaseProp info off :=
  emptiesOfBase.induct
    (fun info off => updBaseProp info off)
    (fun l off => updBSIProp l off)
    updRec_b1 updRec_b2 updRec_b3

/-- A failing `CanPlaceFieldAtOffset` returns the map unchanged. -/
theorem canPlaceFieldAtOffset_false_snd (m : ESOMap) (ty : CTy)
    (off : Nat) (h : (canPlaceFieldAtOffset m ty off).1 = false) :
    (canPlaceFieldAtOffset m ty off).2 = m := by
  unfold canPlaceFieldAtOffset at h ⊢
  by_cases hc : (!canPlaceFieldSubobjectAtOffsetFD m ty off) = true
  · rw [if_pos hc]
  · rw [if_neg hc] at h
    simp at h

/-- **C9.** A call to `CanPlaceBaseAtOffset` or `CanPlaceFieldAtOffset`
that returns false leaves the empty-subobject map (its offset table and
maximum empty-class offset) unchanged; a call that returns true then
records every empty subobject its update traversal visits within the
tracked bound: each class/offset pair of the mirrored pruned enumeration
is present in the resulting table (for a base, unless the
zero-`SizeOfLargestEmptySubobject` fast path returned without touching
the map). -/
theorem canPlace_map_state_spec (m : ESOMap) (info : BSI) (ty : CTy)
    (off foff : Nat) :
    ((canPlaceBaseAtOffset m info off).1 = false →
      (canPlaceBaseAtOffset m info off).2 = m) ∧
    ((canPlaceFieldAtOffset m ty foff).1 = false →
      (canPlaceFieldAtOffset m ty foff).2 = m) ∧
    ((canPlaceBaseAtOffset m info off).1 = true →
      (m.sizeOfLargestEmptySubobject = 0 →
        (canPlaceBaseAtOffset m info off).2 = m) ∧
      (m.sizeOfLargestEmptySubobject ≠ 0 →
        ∀ p ∈ recordedOfBase m.sizeOfLargestEmptySubobject info off
            info.cls.isEmpty,
          p.1 ∈ lookupClasses (canPlaceBaseAtOffset m info off).2 p.2)) ∧
    ((canPlaceFieldAtOffset m ty foff).1 = true →
      ∀ p ∈ recordedOfFD m.sizeOfLargestEmptySubobject ty foff,
        p.1 ∈ lookupClasses (canPlaceFieldAtOffset m ty foff).2 p.2) := by
  refine ⟨canPlaceBaseAtOffset_false_snd m info off,
    canPlaceFieldAtOffset_false_snd m ty foff, ?_, ?_⟩
  · intro ht
    constructor
    · intro h0
      unfold canPlaceBaseAtOffset
      rw [if_pos h0]
    · intro hne p hp
      unfold canPlaceBaseAtOffset at ht ⊢
      rw [if_neg hne] at ht ⊢
      by_cases hc : (!canPlaceBaseSubobjectAtOffset m info off) = true
      · rw [if_pos hc] at ht
        simp at ht
      · rw [if_neg hc]
        exact (updBase_spec info off m info.cls.isEmpty).2.2 p hp
  · intro ht p hp
    unfold canPlaceFieldAtOffset at ht ⊢
    by_cases hc : (!canPlaceFieldSubobjectAtOffsetFD m ty foff) = true
    · rw [if_pos hc] at ht
      simp at ht
    · rw [if_neg hc]
      exact (updFD_spec m ty foff).2.2 p hp

/-- Witness for C9: a concrete successful field placement records the
empty field class at its offset. -/
theorem canPlace_map_state_spec_witness :
    (canPlaceFieldAtOffset ⟨4, [], 0⟩
      (CTy.record (CRec.mk 3 true 1 1 1 [] [] [])) 0).1 = true ∧
    3 ∈ lookupClasses
      (canPlaceFieldAtOffset ⟨4, [], 0⟩
        (CTy.record (CRec.mk 3 true 1 1 1 [] [] [])) 0).2 0 := by
  have hfst : (canPlaceFieldAtOffset ⟨4, [], 0⟩
      (CTy.record (CRec.mk 3 true 1 1 1 [] [] [])) 0).1 = true := by
    unfold canPlaceFieldAtOffset
    simp only [canPlaceFieldSubobjectAtOffsetFD.eq_def,
      canPlaceFieldSubobjectAtOffsetR.eq_def,
      canPlaceRecBasesList.eq_def, canPlaceRecVBasesList.eq_def,
      canPlaceFldList.eq_def]
    simp [anyEmptySubobjectsBeyondOffset, canPlaceSubobjectAtOffset,
      lookupClasses, List.lookup, CRec.isEmpty, CRec.name]
  have hmem : ((3 : Nat), (0 : Nat)) ∈ recordedOfFD 4
      (CTy.record (CRec.mk 3 true 1 1 1 [] [] [])) 0 := by
    simp only [recordedOfFD.eq_def, recordedOfR.eq_def,
      recordedOfRecBasesList.eq_def, recordedOfRecVBasesList.eq_def,
      recordedOfFldList.eq_def]
    simp [CRec.name]
  exact ⟨hfst,
    (canPlace_map_state_spec ⟨4, [], 0⟩
      (BSI.mk (CRec.mk 3 true 1 1 1 [] [] []) false [] none)
      (CTy.record (CRec.mk 3 true 1 1 1 [] [] [])) 0 0).2.2.2 hfst
      (3, 0) hmem⟩

/-- The external-layout branch of `RecordLayoutBuilder::LayoutBase`
(RecordLayoutBuilder.cpp:1218-1229): the externally-supplied base offset
is used verbatim, and packing is inferred only when inference is on and
that offset is strictly before the data size rounded up to the base
alignment. -/
def layoutBaseExternal (s : ItaniumState)
    (offset dataSize baseAlign : Nat) : Nat × ItaniumState :=
  (offset,
   if s.inferAlignment ∧ offset < roundUp dataSize baseAlign then
     { s with alignment := 1, inferAlignment := false }
   else s)

/-- **C8 counterexample.** An externally-supplied field offset that
disagrees with the computed one by exceeding it leaves the alignment and
the inference flag untouched: with inference on, external offset 8 and
computed offset 4 disagree, yet no packing is inferred. -/
theorem updateExternalFieldOffset_counterexample :
    (8 : Nat) ≠ 4 ∧
    (updateExternalFieldOffset
      ⟨0, 0, 4, 4, 0, 0, 0, false, false, false, false, true, true, []⟩
      8 4).1 = 8 ∧
    (updateExternalFieldOffset
      ⟨0, 0, 4, 4, 0, 0, 0, false, false, false, false, true, true, []⟩
      8 4).2.alignment = 4 ∧
    (updateExternalFieldOffset
      ⟨0, 0, 4, 4, 0, 0, 0, false, false, false, false, true, true, []⟩
      8 4).2.inferAlignment = true := by
  refine ⟨by decide, ?_, ?_, ?_⟩ <;>
    · rw [updateExternalFieldOffset]
      decide

/-- **C8 (amended).** The externally-supplied offset always wins, for
fields and for bases; packing is inferred (alignment set to one char,
inference stopped) exactly when inference is still active and the
external offset is strictly less than the computed one (for a base, the
data size rounded up to the base alignment); otherwise the builder state
is unchanged. -/
theorem updateExternalFieldOffset_spec (s : ItaniumState)
    (ext comp off dataSize baseAlign : Nat) :
    (updateExternalFieldOffset s ext comp).1 = ext ∧
    (s.inferAlignment = true ∧ ext < comp →
      (updateExternalFieldOffset s ext comp).2.alignment = 1 ∧
      (updateExternalFieldOffset s ext comp).2.inferAlignment = false) ∧
    (¬(s.inferAlignment = true ∧ ext < comp) →
      (updateExternalFieldOffset s ext comp).2 = s) ∧
    (layoutBaseExternal s off dataSize baseAlign).1 = off ∧
    (s.inferAlignment = true ∧ off < roundUp dataSize baseAlign →
      (layoutBaseExternal s off dataSize baseAlign).2.alignment = 1 ∧
      (layoutBaseExternal s off dataSize baseAlign).2.inferAlignment
        = false) ∧
    (¬(s.inferAlignment = true ∧ off < roundUp dataSize baseAlign) →
      (layoutBaseExternal s off dataSize baseAlign).2 = s) := by
  unfold updateExternalFieldOffset layoutBaseExternal
  refine ⟨?_, ?_, ?_, rfl, ?_, ?_⟩
  · by_cases h : s.inferAlignment = true ∧ ext < comp
    · rw [if_pos h]
    · rw [if_neg h]
  · intro h
    rw [if_pos h]
    exact ⟨rfl, rfl⟩
  · intro h
    rw [if_neg h]
  · intro h
    rw [if_pos h]
    exact ⟨rfl, rfl⟩
  · intro h
    rw [if_neg h]

/-- Witness for the amended C8: a concrete preceding external field
offset infers packing, a concrete exceeding external base offset leaves
the state unchanged. -/
theorem updateExternalFieldOffset_spec_witness :
    (updateExternalFieldOffset
      ⟨0, 0, 4, 4, 0, 0, 0, false, false, false, false, true, true, []⟩
      2 4).2.alignment = 1 ∧
    (layoutBaseExternal
      ⟨0, 0, 4, 4, 0, 0, 0, false, false, false, false, true, true, []⟩
      8 3 4).2 =
      ⟨0, 0, 4, 4, 0, 0, 0, false, false, false, false, true, true, []⟩ :=
  ⟨((updateExternalFieldOffset_spec
      ⟨0, 0, 4, 4, 0, 0, 0, false, false, false, false, true, true, []⟩
      2 4 8 3 4).2.1 ⟨rfl, by decide⟩).1,
   (updateExternalFieldOffset_spec
      ⟨0, 0, 4, 4, 0, 0, 0, false, false, false, false, true, true, []⟩
      2 4 8 3 4).2.2.2.2.2 (by decide)⟩

/-! ## The Microsoft record layout builder
(`MicrosoftRecordLayoutBuilder`, RecordLayoutBuilder.cpp:2036)

Offsets and sizes are in CharUnits (`charWidth` = 8 for the bit
conversions of field offsets).  Fields of record type are not modelled;
`getAdjustedElementInfo` for fields covers the non-record branch.  The
builder's uninitialized `VBPtrOffset` member starts at the
default-constructed zero. -/

/-- The slice of a cached `ASTRecordLayout` the Microsoft builder reads
for a base class. -/
structure MSLayout where
  size : Nat
  dataSize : Nat
  alignment : Nat
  requiredAlignment : Nat
  vbptrOffset : Int
  hasVBPtr : Bool
  hasExtendableVFPtr : Bool
  hasZeroSizedSubObject : Bool
  leadsWithZeroSizedBase : Bool
deriving Repr, DecidableEq

/-- A direct base as the builder walks it: declaration name, virtualness,
and its cached layout. -/
structure MSBase where
  name : Nat
  isVirtual : Bool
  layout : MSLayout
deriving Repr, DecidableEq

/-- A field of non-record type as the builder reads it: bitfieldness, the
declared bit width, the type's size and alignment in chars, the
`__declspec(align)` requirement in chars (`getMaxAlignment`), and the
packed attribute. -/
structure MSField where
  isBitField : Bool
  width : Nat
  typeSize : Nat
  typeAlign : Nat
  maxAlignment : Nat
  packedAttr : Bool
deriving Repr, DecidableEq

/-- The mutable state of `MicrosoftRecordLayoutBuilder`. -/
structure MSState where
  size : Nat
  dataSize : Nat
  alignment : Nat
  maxFieldAlignment : Nat
  requiredAlignment : Nat
  currentBitfieldSize : Nat
  vbptrOffset : Int
  pointerSize : Nat
  pointerAlignment : Nat
  primaryBase : Option Nat
  sharedVBPtrBase : Option (Nat × MSLayout)
  fieldOffsets : List Nat
  bases : List (Nat × Nat)
  vbases : List (Nat × Nat × Bool)
  remainingBitsInField : Nat
  isUnion : Bool
  lastFieldIsNonZeroWidthBitfield : Bool
  hasOwnVFPtr : Bool
  hasVBPtr : Bool
  is64BitMode : Bool
  hasZeroSizedSubObject : Bool
  leadsWithZeroSizedBase : Bool
deriving Repr, DecidableEq

/-- `DenseMap` access with its default-constructed zero for a missing
key. -/
def assocLookupNat (l : List (Nat × Nat)) (k : Nat) : Nat :=
  match l.lookup k with
  | some v => v
  | none => 0

/-- `DenseMap` overwrite of an existing key. -/
def assocSet : List (Nat × Nat) → Nat → Nat → List (Nat × Nat)
  | [], k, v => [(k, v)]
  | (k0, v0) :: rest, k, v =>
    if k0 = k then (k0, v) :: rest else (k0, v0) :: assocSet rest k v

/-- `CharUnits::RoundUpToAlignment` applied to the builder's vbptr
offsets, which are nonnegative at every rounding site. -/
def roundUpInt (x : Int) (a : Nat) : Int := (roundUp x.toNat a : Nat)

/-- `getAdjustedElementInfo` for a base layout
(RecordLayoutBuilder.cpp:2144). -/
def getAdjustedElementInfoBase (s : MSState) (L : MSLayout) :
    (Nat × Nat) × MSState :=
  let infoAlign := if s.maxFieldAlignment ≠ 0
    then min L.alignment s.maxFieldAlignment else L.alignment
  let s := { s with
    hasZeroSizedSubObject :=
      if L.hasZeroSizedSubObject then true else s.hasZeroSizedSubObject,
    alignment := max s.alignment infoAlign }
  ((L.dataSize, max infoAlign L.requiredAlignment), s)

/-- `getAdjustedElementInfo` for a field declaration of non-record type
(RecordLayoutBuilder.cpp:2164). -/
def getAdjustedElementInfoFD (s : MSState) (fd : MSField) :
    (Nat × Nat) × MSState :=
  let fieldRequiredAlignment := fd.maxAlignment
  let infoSize := fd.typeSize
  let infoAlign := fd.typeAlign
  let infoAlign := if fd.isBitField ∧ fd.maxAlignment ≠ 0
    then max infoAlign fieldRequiredAlignment else infoAlign
  let infoAlign := if s.maxFieldAlignment ≠ 0
    then min infoAlign s.maxFieldAlignment else infoAlign
  let infoAlign := if fd.packedAttr then 1 else infoAlign
  let infoAlign := if ¬fd.isBitField
    then max infoAlign fieldRequiredAlignment else infoAlign
  let ra := max s.requiredAlignment fieldRequiredAlignment
  let s := if ¬fd.isBitField
    then { s with requiredAlignment := ra }
    else s
  let s := if ¬(fd.isBitField ∧ s.isUnion) then
      let a := max s.alignment infoAlign
      { s with alignment := if s.maxFieldAlignment ≠ 0
          then min a s.maxFieldAlignment else a }
    else s
  ((infoSize, infoAlign), s)

/-- `initializeLayout` (RecordLayoutBuilder.cpp:2230); `pragmaPack` folds
the `PackStruct` option and a not-too-large `MaxFieldAlignmentAttr` into
one chars quantity (zero when absent). -/
def msInitializeLayout (isUnion is64 : Bool)
    (recMaxAlign pragmaPack : Nat) (packedAttr : Bool) : MSState :=
  { size := 0, dataSize := 0, alignment := 1,
    maxFieldAlignment := if packedAttr then 1 else pragmaPack,
    requiredAlignment := max (if is64 then 1 else 0) recMaxAlign,
    currentBitfieldSize := 0, vbptrOffset := 0,
    pointerSize := 0, pointerAlignment := 0,
    primaryBase := none, sharedVBPtrBase := none,
    fieldOffsets := [], bases := [], vbases := [],
    remainingBitsInField := 0,
    isUnion := isUnion, lastFieldIsNonZeroWidthBitfield := false,
    hasOwnVFPtr := false, hasVBPtr := false, is64BitMode := is64,
    hasZeroSizedSubObject := false, leadsWithZeroSizedBase := false }

/-- `initializeCXXLayout` (RecordLayoutBuilder.cpp:2258). -/
def msInitializeCXXLayout (s : MSState) : MSState :=
  let ptrSize : Nat := if s.is64BitMode then 8 else 4
  let pa := if s.maxFieldAlignment ≠ 0
    then min ptrSize s.maxFieldAlignment else ptrSize
  { s with
    hasZeroSizedSubObject := false
    leadsWithZeroSizedBase := false
    hasOwnVFPtr := false
    hasVBPtr := false
    primaryBase := none
    sharedVBPtrBase := none
    pointerSize := ptrSize
    pointerAlignment := pa }

/-- `layoutNonVirtualBase` (RecordLayoutBuilder.cpp:2353). -/
def msLayoutNonVirtualBase (s : MSState) (prev : Option MSLayout)
    (name : Nat) (L : MSLayout) : MSState × Option MSLayout :=
  let s := match prev with
    | some pl =>
      if pl.hasZeroSizedSubObject ∧ L.leadsWithZeroSizedBase
      then { s with size := s.size + 1 } else s
    | none => s
  let r := getAdjustedElementInfoBase s L
  let s := r.2
  let baseOffset := roundUp s.size r.1.2
  ({ s with bases := s.bases ++ [(name, baseOffset)],
            size := baseOffset + L.dataSize,
            vbptrOffset := ((baseOffset + L.dataSize : Nat) : Int) },
   some L)

/-- The first pass of `layoutNonVirtualBases`
(RecordLayoutBuilder.cpp:2286): track required alignment, mark virtual
bases, find a vbptr to share and a primary base, lay out bases with
extendable vfptrs. -/
def msNVBasesPass1 (s : MSState) (prev : Option MSLayout) :
    List MSBase → MSState × Option MSLayout
  | [] => (s, prev)
  | b :: rest =>
    let ra := max s.requiredAlignment b.layout.requiredAlignment
    let s := { s with requiredAlignment := ra }
    if b.isVirtual then
      msNVBasesPass1 { s with hasVBPtr := true } prev rest
    else
      let s := if s.sharedVBPtrBase = none ∧ b.layout.hasVBPtr then
          { s with sharedVBPtrBase := some (b.name, b.layout),
                   hasVBPtr := true }
        else s
      if ¬b.layout.hasExtendableVFPtr then
        msNVBasesPass1 s prev rest
      else
        let s := if s.primaryBase = none then
            { s with
              primaryBase := some b.name
              leadsWithZeroSizedBase := b.layout.leadsWithZeroSizedBase }
          else s
        let r := msLayoutNonVirtualBase s prev b.name b.layout
        msNVBasesPass1 r.1 r.2 rest

/-- The second pass of `layoutNonVirtualBases`
(RecordLayoutBuilder.cpp:2325): lay out the bases without extendable
vfptrs, checking the leading layout once when there is no primary
base. -/
def msNVBasesPass2 (s : MSState) (prev : Option MSLayout)
    (checkLeading : Bool) : List MSBase → MSState × Option MSLayout
  | [] => (s, prev)
  | b :: rest =>
    if b.isVirtual then msNVBasesPass2 s prev checkLeading rest
    else if b.layout.hasExtendableVFPtr then
      msNVBasesPass2 s prev checkLeading rest
    else
      let s := if checkLeading then
          { s with leadsWithZeroSizedBase :=
            b.layout.leadsWithZeroSizedBase }
        else s
      let r := msLayoutNonVirtualBase s prev b.name b.layout
      msNVBasesPass2 r.1 r.2 false rest

/-- The second pass and vbptr resolution of `layoutNonVirtualBases`
(RecordLayoutBuilder.cpp:2324-2350). -/
def msLNVBTail (s : MSState) (prev : Option MSLayout) (cl : Bool)
    (bases : List MSBase) : MSState :=
  let r2 := msNVBasesPass2 s prev cl bases
  let s := r2.1
  if ¬s.hasVBPtr then { s with vbptrOffset := -1 }
  else match s.sharedVBPtrBase with
    | some sb =>
      { s with vbptrOffset :=
          ((assocLookupNat s.bases sb.1 : Nat) : Int) +
            sb.2.vbptrOffset }
    | none => s

/-- `layoutNonVirtualBases` (RecordLayoutBuilder.cpp:2277), with the
fresh-vfptr scan folded into the `hasNewVirtualFunction` input (whether
some virtual method overrides nothing). -/
def msLayoutNonVirtualBases (s : MSState) (bases : List MSBase)
    (isDynamic hasNewVirtualFunction : Bool) : MSState :=
  let r := msNVBasesPass1 s none bases
  let s := r.1
  let s := if s.primaryBase = none ∧ isDynamic ∧
      hasNewVirtualFunction then
      { s with hasOwnVFPtr := true } else s
  msLNVBTail s r.2 (decide (s.primaryBase = none)) bases

/-- `layoutField` for a non-bitfield (RecordLayoutBuilder.cpp:2379,
after the bitfield dispatch). -/
def msLayoutPlainField (s : MSState) (fd : MSField) : MSState :=
  let s := { s with lastFieldIsNonZeroWidthBitfield := false }
  let r := getAdjustedElementInfoFD s fd
  let s := r.2
  if s.isUnion then
    { s with
      fieldOffsets := s.fieldOffsets ++ [0]
      size := max s.size r.1.1 }
  else
    let fieldOffset := roundUp s.size r.1.2
    { s with
      fieldOffsets := s.fieldOffsets ++ [fieldOffset * 8]
      size := fieldOffset + r.1.1 }

/-- `layoutZeroWidthBitField` (RecordLayoutBuilder.cpp:2431). -/
def msLayoutZeroWidthBitField (s : MSState) (fd : MSField) : MSState :=
  if ¬s.lastFieldIsNonZeroWidthBitfield then
    { s with fieldOffsets :=
        s.fieldOffsets ++ [if s.isUnion then 0 else s.size * 8] }
  else
    let s := { s with lastFieldIsNonZeroWidthBitfield := false }
    let r := getAdjustedElementInfoFD s fd
    let s := r.2
    if s.isUnion then
      { s with
        fieldOffsets := s.fieldOffsets ++ [0]
        size := max s.size r.1.1 }
    else
      let fieldOffset := roundUp s.size r.1.2
      { s with
        fieldOffsets := s.fieldOffsets ++ [fieldOffset * 8]
        size := fieldOffset }

/-- `layoutBitField` (RecordLayoutBuilder.cpp:2396). -/
def msLayoutBitField (s : MSState) (fd : MSField) : MSState :=
  if fd.width = 0 then msLayoutZeroWidthBitField s fd
  else
    let r := getAdjustedElementInfoFD s fd
    let s := r.2
    let width := if fd.width > r.1.1 * 8 then r.1.1 * 8 else fd.width
    if ¬s.isUnion ∧ s.lastFieldIsNonZeroWidthBitfield ∧
        s.currentBitfieldSize = r.1.1 ∧
        width ≤ s.remainingBitsInField then
      { s with
        fieldOffsets :=
          s.fieldOffsets ++ [s.size * 8 - s.remainingBitsInField]
        remainingBitsInField := s.remainingBitsInField - width }
    else
      let s := { s with
        lastFieldIsNonZeroWidthBitfield := true
        currentBitfieldSize := r.1.1 }
      if s.isUnion then
        { s with
          fieldOffsets := s.fieldOffsets ++ [0]
          size := max s.size r.1.1 }
      else
        let fieldOffset := roundUp s.size r.1.2
        { s with
          fieldOffsets := s.fieldOffsets ++ [fieldOffset * 8]
          size := fieldOffset + r.1.1
          remainingBitsInField := r.1.1 * 8 - width }

/-- `layoutField` (RecordLayoutBuilder.cpp:2379). -/
def msLayoutField (s : MSState) (fd : MSField) : MSState :=
  if fd.isBitField then msLayoutBitField s fd
  else msLayoutPlainField s fd

def msFieldsLoop (s : MSState) : List MSField → MSState
  | [] => s
  | fd :: rest => msFieldsLoop (msLayoutField s fd) rest

/-- `layoutFields` (RecordLayoutBuilder.cpp:2371). -/
def msLayoutFields (s : MSState) (fields : List MSField) : MSState :=
  msFieldsLoop { s with lastFieldIsNonZeroWidthBitfield := false } fields

/-- `injectVBPtr` (RecordLayoutBuilder.cpp:2453). -/
def msInjectVBPtr (s : MSState) : MSState :=
  if ¬s.hasVBPtr ∨ s.sharedVBPtrBase ≠ none then s
  else
    let injectionSite := s.vbptrOffset
    let vbpo := roundUpInt s.vbptrOffset s.pointerAlignment
    let fieldStart := vbpo + (s.pointerSize : Int)
    let offset := (roundUpInt (fieldStart - injectionSite)
      s.alignment).toNat
    { s with
      vbptrOffset := vbpo
      size := s.size + offset
      fieldOffsets := s.fieldOffsets.map (fun fo => fo + offset * 8)
      bases := s.bases.map (fun p =>
        if (p.2 : Int) ≥ injectionSite then (p.1, p.2 + offset) else p)
      hasZeroSizedSubObject := false }

/-- `injectVFPtr` (RecordLayoutBuilder.cpp:2481). -/
def msInjectVFPtr (s : MSState) : MSState :=
  if ¬s.hasOwnVFPtr then s
  else
    let offset := roundUp s.pointerSize s.alignment
    { s with
      size := s.size + offset
      fieldOffsets := s.fieldOffsets.map (fun fo => fo + offset * 8)
      vbptrOffset := if s.hasVBPtr then s.vbptrOffset + (offset : Int)
        else s.vbptrOffset
      bases := s.bases.map (fun p => (p.1, p.2 + offset)) }

/-- The scan of `injectVPtrs` for the last two non-virtual bases by base
offset (RecordLayoutBuilder.cpp:2528). -/
def msFindLastTwo (bm : List (Nat × Nat)) :
    List MSBase → Option MSBase → Option MSBase →
    Option MSBase × Option MSBase
  | [], penult, last => (penult, last)
  | b :: rest, penult, last =>
    if b.isVirtual then msFindLastTwo bm rest penult last
    else match last with
      | none => msFindLastTwo bm rest last (some b)
      | some lb =>
        if assocLookupNat bm b.name > assocLookupNat bm lb.name then
          msFindLastTwo bm rest (some lb) (some b)
        else msFindLastTwo bm rest penult (some lb)

/-- The vbptr placement of the 64-bit relayout of `injectVPtrs`
(RecordLayoutBuilder.cpp:2524-2566). -/
def msRelayoutVBPtr (s : MSState) (bases : List MSBase) : MSState :=
  if s.hasVBPtr ∧ s.sharedVBPtrBase = none then
    let pl := msFindLastTwo s.bases bases none none
    let vbpo0 : Nat := match pl.2 with
      | some lb =>
        if lb.layout.dataSize = 0 then
          match pl.1 with
          | some pb =>
            if pb.layout.dataSize = 0 then assocLookupNat s.bases
              pb.name
            else assocLookupNat s.bases lb.name
          | none => assocLookupNat s.bases lb.name
        else s.size
      | none => s.size
    let vbpo := roundUp vbpo0 s.pointerAlignment
    let s := { s with
      vbptrOffset := (vbpo : Int)
      size := vbpo + s.pointerSize }
    match pl.2 with
    | some lb =>
      if lb.layout.dataSize = 0 then
        let s := match pl.1 with
          | some pb =>
            if pb.layout.dataSize = 0 then
              { s with size := s.size + 1 }
            else s
          | none => s
        let sz := roundUp s.size lb.layout.requiredAlignment
        { s with
          size := sz
          bases := assocSet s.bases lb.name sz }
      else s
    | none => s
  else s

/-- `injectVPtrs` (RecordLayoutBuilder.cpp:2501), including the 64-bit
high-required-alignment relayout. -/
def msInjectVPtrs (s : MSState) (bases : List MSBase)
    (fields : List MSField) (isDynamic hasNewVirtualFunction : Bool) :
    MSState :=
  if ¬(s.hasOwnVFPtr ∨ (s.hasVBPtr ∧ s.sharedVBPtrBase = none)) then s
  else if ¬s.is64BitMode ∨ s.requiredAlignment ≤ 8 then
    let s := msInjectVBPtr s
    let s := msInjectVFPtr s
    { s with alignment := max s.alignment s.pointerAlignment }
  else
    let s := { s with
      fieldOffsets := []
      bases := []
      size := 0
      alignment := max s.alignment s.pointerAlignment }
    let s := if s.hasOwnVFPtr then { s with size := s.pointerSize }
      else s
    let s := msLayoutNonVirtualBases s bases isDynamic
      hasNewVirtualFunction
    let s := msRelayoutVBPtr s bases
    let s := msLayoutFields s fields
    { s with hasZeroSizedSubObject := false }

/-- One iteration of the virtual-base loop of `layoutVirtualBases`
(RecordLayoutBuilder.cpp:2590). -/
def msVBaseStep (vds vda : Nat) (vtordispSet : List Nat) (s : MSState)
    (prev : Option MSLayout) (name : Nat) (L : MSLayout) : MSState :=
  let hasVtordisp := decide (name ∈ vtordispSet)
  let s := if s.lastFieldIsNonZeroWidthBitfield then
      { s with size := s.size + s.currentBitfieldSize }
    else s
  let s := match prev with
    | some pl =>
      if pl.hasZeroSizedSubObject ∧ L.leadsWithZeroSizedBase then
        { s with size := roundUp s.size vda + vds }
      else s
    | none => s
  let s := if hasVtordisp then
      { s with size := roundUp s.size vda + vds }
    else s
  let r := getAdjustedElementInfoBase s L
  let s := r.2
  let baseOffset := roundUp s.size r.1.2
  { s with
    vbases := s.vbases ++ [(name, baseOffset, hasVtordisp)]
    size := baseOffset + L.dataSize }

/-- The per-virtual-base loop of `layoutVirtualBases`
(RecordLayoutBuilder.cpp:2590). -/
def msVBasesLoop (vds vda : Nat) (vtordispSet : List Nat)
    (s : MSState) (prev : Option MSLayout) :
    List (Nat × MSLayout) → MSState
  | [] => s
  | (name, L) :: rest =>
    msVBasesLoop vds vda vtordispSet
      (msVBaseStep vds vda vtordispSet s prev name L) (some L) rest

/-- `layoutVirtualBases` (RecordLayoutBuilder.cpp:2573); the vtordisp
set computed by `computeVtorDispSet` is an input. -/
def msLayoutVirtualBases (s : MSState) (vbases : List (Nat × MSLayout))
    (vtordispSet : List Nat) : MSState :=
  if ¬s.hasVBPtr then s
  else
    let vtorDispSize : Nat := 4
    let vda := if s.maxFieldAlignment ≠ 0
      then min 4 s.maxFieldAlignment else 4
    let vda := max vda s.requiredAlignment
    msVBasesLoop vtorDispSize vda vtordispSet s none vbases

/-- `finalizeLayout` (RecordLayoutBuilder.cpp:2622). -/
def msFinalizeLayout (s : MSState) : MSState :=
  let s := if s.requiredAlignment ≠ 0 then
      let a := max s.alignment s.requiredAlignment
      { s with
        alignment := a
        size := roundUp s.size a }
    else s
  if s.size = 0 then
    { s with
      hasZeroSizedSubObject := true
      leadsWithZeroSizedBase := true
      size := s.alignment }
  else s

/-- `layout` for a plain (non-C++ or union) record
(RecordLayoutBuilder.cpp:2212). -/
def msLayout (isUnion is64 : Bool) (recMaxAlign pragmaPack : Nat)
    (packedAttr : Bool) (fields : List MSField) : MSState :=
  let s := msInitializeLayout isUnion is64 recMaxAlign pragmaPack
    packedAttr
  let s := msLayoutFields s fields
  let sz := roundUp s.size s.alignment
  let s := { s with size := sz, dataSize := sz }
  msFinalizeLayout s

/-- `cxxLayout` (RecordLayoutBuilder.cpp:2219). -/
def msCxxLayout (is64 : Bool) (recMaxAlign pragmaPack : Nat)
    (packedAttr : Bool) (bases : List MSBase) (fields : List MSField)
    (vbases : List (Nat × MSLayout)) (vtordispSet : List Nat)
    (isDynamic hasNewVirtualFunction : Bool) : MSState :=
  let s := msInitializeLayout false is64 recMaxAlign pragmaPack
    packedAttr
  let s := msInitializeCXXLayout s
  let s := msLayoutNonVirtualBases s bases isDynamic
    hasNewVirtualFunction
  let s := msLayoutFields s fields
  let s := msInjectVPtrs s bases fields isDynamic hasNewVirtualFunction
  let sz := roundUp s.size s.alignment
  let s := { s with size := sz, dataSize := sz }
  let s := msLayoutVirtualBases s vbases vtordispSet
  msFinalizeLayout s

theorem getAdjBase_pres (s : MSState) (L : MSLayout) :
    (getAdjustedElementInfoBase s L).2.size = s.size ∧
    (getAdjustedElementInfoBase s L).2.dataSize = s.dataSize ∧
    (getAdjustedElementInfoBase s L).2.requiredAlignment
      = s.requiredAlignment ∧
    (getAdjustedElementInfoBase s L).2.vbptrOffset = s.vbptrOffset ∧
    (getAdjustedElementInfoBase s L).2.hasVBPtr = s.hasVBPtr ∧
    (getAdjustedElementInfoBase s L).2.vbases = s.vbases :=
  ⟨rfl, rfl, rfl, rfl, rfl, rfl⟩

theorem msVBaseStep_spec (vds vda : Nat) (set : List Nat) (s : MSState)
    (prev : Option MSLayout) (name : Nat) (L : MSLayout) :
    s.size ≤ (msVBaseStep vds vda set s prev name L).size ∧
    (msVBaseStep vds vda set s prev name L).dataSize = s.dataSize ∧
    (msVBaseStep vds vda set s prev name L).requiredAlignment
      = s.requiredAlignment ∧
    (msVBaseStep vds vda set s prev name L).vbptrOffset
      = s.vbptrOffset ∧
    (msVBaseStep vds vda set s prev name L).hasVBPtr = s.hasVBPtr ∧
    (msVBaseStep vds vda set s prev name L).vbases.length
      = s.vbases.length + 1 := by
  unfold msVBaseStep getAdjustedElementInfoBase
  cases prev <;>
    · simp only []
      split_ifs <;>
        · refine ⟨?_, rfl, rfl, rfl, rfl, by simp⟩
          repeat'
            first
            | exact le_refl _
            | exact Nat.le_add_right _ _
            | refine le_trans ?_ (Nat.le_add_right _ _)
            | refine le_trans ?_ (le_roundUp _ _)

theorem msVBasesLoop_spec (vds vda : Nat) (set : List Nat) :
    ∀ (l : List (Nat × MSLayout)) (s : MSState)
    (prev : Option MSLayout),
    s.size ≤ (msVBasesLoop vds vda set s prev l).size ∧
    (msVBasesLoop vds vda set s prev l).dataSize = s.dataSize ∧
    (msVBasesLoop vds vda set s prev l).requiredAlignment
      = s.requiredAlignment ∧
    (msVBasesLoop vds vda set s prev l).vbptrOffset = s.vbptrOffset ∧
    (msVBasesLoop vds vda set s prev l).hasVBPtr = s.hasVBPtr ∧
    (msVBasesLoop vds vda set s prev l).vbases.length
      = s.vbases.length + l.length := by
  intro l
  induction l with
  | nil =>
    intro s prev
    exact ⟨le_refl _, rfl, rfl, rfl, rfl, by simp [msVBasesLoop]⟩
  | cons hd rest ih =>
    intro s prev
    obtain ⟨name, L⟩ := hd
    rw [msVBasesLoop]
    obtain ⟨h1, h2, h3, h4, h5, h6⟩ :=
      ih (msVBaseStep vds vda set s prev name L) (some L)
    obtain ⟨g1, g2, g3, g4, g5, g6⟩ :=
      msVBaseStep_spec vds vda set s prev name L
    refine ⟨le_trans g1 h1, h2.trans g2, h3.trans g3, h4.trans g4,
      h5.trans g5, ?_⟩
    rw [h6, g6]
    simp [Nat.add_assoc, Nat.add_comm 1 rest.length]

theorem msLayoutVirtualBases_spec (s : MSState)
    (vbases : List (Nat × MSLayout)) (set : List Nat) :
    s.size ≤ (msLayoutVirtualBases s vbases set).size ∧
    (msLayoutVirtualBases s vbases set).dataSize = s.dataSize ∧
    (msLayoutVirtualBases s vbases set).requiredAlignment
      = s.requiredAlignment ∧
    (msLayoutVirtualBases s vbases set).vbptrOffset = s.vbptrOffset ∧
    (msLayoutVirtualBases s vbases set).hasVBPtr = s.hasVBPtr ∧
    (msLayoutVirtualBases s vbases set).vbases.length
      = s.vbases.length +
        (if s.hasVBPtr then vbases.length else 0) := by
  unfold msLayoutVirtualBases
  by_cases h : s.hasVBPtr = true
  · rw [if_neg (by simp [h])]
    obtain ⟨h1, h2, h3, h4, h5, h6⟩ := msVBasesLoop_spec 4
      (max (if s.maxFieldAlignment ≠ 0 then min 4 s.maxFieldAlignment
        else 4) s.requiredAlignment) set vbases s none
    exact ⟨h1, h2, h3, h4, h5, by rw [h6, if_pos h]⟩
  · have h' : s.hasVBPtr = false := by
      cases hb : s.hasVBPtr
      · rfl
      · exact absurd hb h
    rw [if_pos (by simp [h'])]
    exact ⟨le_refl _, rfl, rfl, rfl, rfl, by rw [if_neg h]; simp⟩

theorem msFinalizeLayout_pres (s : MSState) :
    s.size ≤ (msFinalizeLayout s).size ∧
    (msFinalizeLayout s).dataSize = s.dataSize ∧
    (msFinalizeLayout s).requiredAlignment = s.requiredAlignment ∧
    (msFinalizeLayout s).vbptrOffset = s.vbptrOffset ∧
    (msFinalizeLayout s).vbases = s.vbases ∧
    (msFinalizeLayout s).hasVBPtr = s.hasVBPtr := by
  simp only [msFinalizeLayout]
  split_ifs with h1 h2 h3 <;>
    refine ⟨?_, rfl, rfl, rfl, rfl, rfl⟩ <;>
    first
    | exact le_roundUp _ _
    | exact le_refl _
    | (have hle := le_roundUp s.size
        (max s.alignment s.requiredAlignment)
       simp only [] at h2
       omega)
    | (simp only [] at h3
       omega)

theorem msFinalizeLayout_dvd (s : MSState)
    (hr : s.requiredAlignment ≠ 0) :
    (msFinalizeLayout s).alignment ∣ (msFinalizeLayout s).size := by
  simp only [msFinalizeLayout]
  rw [if_pos hr]
  split_ifs with h
  · exact dvd_refl _
  · have hane : max s.alignment s.requiredAlignment ≠ 0 := by
      have := Nat.le_max_right s.alignment s.requiredAlignment
      omega
    exact dvd_roundUp _ _ hane

/-- `struct A { int x; }` as the 32-bit Microsoft builder caches it. -/
def msLayoutIntA : MSLayout := ⟨4, 4, 4, 0, -1, false, false, false, false⟩

/-- The 32-bit Microsoft layout of `struct B : virtual A { double d; }`:
the vbptr is injected at offset 0, `d` lands at offset 8, `A` at 16. -/
def msRunB : MSState :=
  msCxxLayout false 0 0 false [⟨10, true, msLayoutIntA⟩]
    [⟨false, 0, 8, 8, 0, false⟩] [(10, msLayoutIntA)] [] false false

/-- **C4 counterexample.** The record `struct B : virtual A { double d; }`
(32-bit Microsoft mode) reaches `finalizeLayout` with zero
`RequiredAlignment`, so its size is not rounded: the final size is 20
while rounding the size to the alignment 8 would give 24. -/
theorem msFinalizeLayout_counterexample :
    msRunB.size = 20 ∧ msRunB.alignment = 8 ∧
    roundUp msRunB.size msRunB.alignment = 24 ∧
    msRunB.size ≠ roundUp msRunB.size msRunB.alignment := by decide

/-- **C4 (amended).** The Microsoft finalize step rounds the size up to
the (required-alignment-boosted) alignment only when `RequiredAlignment`
is nonzero; with zero required alignment the size is left as is.  A
record whose size is zero after that step gets size equal to its final
alignment. -/
theorem msFinalizeLayout_spec (s : MSState) :
    (s.requiredAlignment ≠ 0 →
      (msFinalizeLayout s).alignment
        = max s.alignment s.requiredAlignment ∧
      (roundUp s.size (max s.alignment s.requiredAlignment) ≠ 0 →
        (msFinalizeLayout s).size
          = roundUp s.size (max s.alignment s.requiredAlignment)) ∧
      (roundUp s.size (max s.alignment s.requiredAlignment) = 0 →
        (msFinalizeLayout s).size
          = max s.alignment s.requiredAlignment)) ∧
    (s.requiredAlignment = 0 →
      (msFinalizeLayout s).alignment = s.alignment ∧
      (s.size ≠ 0 → (msFinalizeLayout s).size = s.size) ∧
      (s.size = 0 → (msFinalizeLayout s).size = s.alignment)) := by
  constructor
  · intro hr
    simp only [msFinalizeLayout]
    rw [if_pos hr]
    refine ⟨?_, fun hnz => ?_, fun hz => ?_⟩
    · split_ifs with h
      · rfl
      · rfl
    · split_ifs with h
      · simp only [] at h
        exact absurd h hnz
      · rfl
    · split_ifs with h
      · rfl
      · simp only [] at h
        exact absurd hz h
  · intro hr
    simp only [msFinalizeLayout]
    rw [if_neg (show ¬s.requiredAlignment ≠ 0 by simp [hr])]
    refine ⟨?_, fun hnz => ?_, fun hz => ?_⟩
    · split_ifs with h
      · rfl
      · rfl
    · rw [if_neg hnz]
    · rw [if_pos hz]

/-- Witness for the amended C4: a concrete state with required alignment
4 and size 6 is finalized to size 8; one with required alignment 0
keeps size 6. -/
theorem msFinalizeLayout_spec_witness :
    (msFinalizeLayout ⟨6, 0, 4, 0, 4, 0, 0, 0, 0, none, none, [], [],
      [], 0, false, false, false, false, false, false, false⟩).size = 8 ∧
    (msFinalizeLayout ⟨6, 0, 4, 0, 0, 0, 0, 0, 0, none, none, [], [],
      [], 0, false, false, false, false, false, false, false⟩).size
      = 6 := by
  constructor
  · rw [((msFinalizeLayout_spec ⟨6, 0, 4, 0, 4, 0, 0, 0, 0, none, none,
      [], [], [], 0, false, false, false, false, false, false,
      false⟩).1 (by decide)).2.1 (by decide)]
    decide
  · rw [((msFinalizeLayout_spec ⟨6, 0, 4, 0, 0, 0, 0, 0, 0, none, none,
      [], [], [], 0, false, false, false, false, false, false,
      false⟩).2 (by decide)).2.1 (by decide)]

/-- After the size-rounding step of `cxxLayout`, the remaining pipeline
(virtual bases and finalize) never drops the size below the data size
fixed there. -/
theorem msTail_dataSize_le (X : MSState) (vbs : List (Nat × MSLayout))
    (vts : List Nat) :
    (msFinalizeLayout (msLayoutVirtualBases
      { X with
        size := roundUp X.size X.alignment
        dataSize := roundUp X.size X.alignment } vbs vts)).dataSize
      ≤ (msFinalizeLayout (msLayoutVirtualBases
      { X with
        size := roundUp X.size X.alignment
        dataSize := roundUp X.size X.alignment } vbs vts)).size := by
  obtain ⟨l1, l2, l3, l4, l5, l6⟩ := msLayoutVirtualBases_spec
    { X with
      size := roundUp X.size X.alignment
      dataSize := roundUp X.size X.alignment } vbs vts
  obtain ⟨f1, f2, f3, f4, f5, f6⟩ := msFinalizeLayout_pres
    (msLayoutVirtualBases
      { X with
        size := roundUp X.size X.alignment
        dataSize := roundUp X.size X.alignment } vbs vts)
  rw [f2, l2]
  exact le_trans l1 f1

/-- **C3 counterexample.** The 32-bit Microsoft layout of
`struct B : virtual A { double d; }` ends with size 20 and alignment 8:
the data size 16 stays below the size, but the size is not a multiple of
the alignment. -/
theorem layout_size_multiple_counterexample :
    msRunB.dataSize ≤ msRunB.size ∧ msRunB.alignment = 8 ∧
    ¬ msRunB.alignment ∣ msRunB.size := by decide

theorem finishTail_spec (t : ItaniumTarget) (s1 : ItaniumState)
    (hal : s1.alignment ≠ 0) (hcw : t.charWidth ≠ 0)
    (hds : s1.dataSizeBits ≤ s1.sizeBits) :
    (s1.alignment * t.charWidth
      ∣ roundUp s1.sizeBits (s1.alignment * t.charWidth)) ∧
    s1.dataSizeBits ≤ roundUp s1.sizeBits (s1.alignment * t.charWidth) :=
  ⟨dvd_roundUp _ _ (Nat.mul_ne_zero hal hcw),
   le_trans hds (le_roundUp _ _)⟩

/-- **C3 (amended).** Size/alignment invariants of the completed
layouts.  Itanium without an external layout source: the final size is a
multiple of the alignment, and the data size never exceeds it.  Itanium
with an external layout: the externally supplied size is adopted
verbatim (so neither property is guaranteed).  Microsoft: the data size
never exceeds the size; the size is a multiple of the alignment whenever
the required alignment is nonzero (in particular always in 64-bit mode),
but a 32-bit record with zero required alignment can end with a size
that is not a multiple of its alignment. -/
theorem layout_size_invariants_spec (t : ItaniumTarget)
    (fi : FinishInput) (ext : Nat) (s : ItaniumState) (S : MSState)
    (hcw : t.charWidth ≠ 0) (hal : s.alignment ≠ 0)
    (hds : s.dataSizeBits ≤ s.sizeBits) :
    (s.externalLayout = false →
      ((finishLayout t fi ext s).alignment * t.charWidth
          ∣ (finishLayout t fi ext s).sizeBits) ∧
      (finishLayout t fi ext s).dataSizeBits
        ≤ (finishLayout t fi ext s).sizeBits) ∧
    (s.externalLayout = true →
      (finishLayout t fi ext s).sizeBits = ext) ∧
    (S.requiredAlignment ≠ 0 →
      (msFinalizeLayout S).alignment ∣ (msFinalizeLayout S).size) ∧
    ∀ (is64 : Bool) (rma pp : Nat) (pa : Bool) (bases : List MSBase)
      (fields : List MSField) (vbs : List (Nat × MSLayout))
      (vts : List Nat) (dyn hnv : Bool),
      (msCxxLayout is64 rma pp pa bases fields vbs vts dyn
        hnv).dataSize
        ≤ (msCxxLayout is64 rma pp pa bases fields vbs vts dyn
          hnv).size := by
  refine ⟨?_, ?_, msFinalizeLayout_dvd S, ?_⟩
  · intro hext
    simp only [finishLayout]
    by_cases hc1 : fi.isCPlusPlus = true ∧ s.sizeBits = 0
    · rw [if_pos hc1]
      by_cases hc2 : fi.isCXXRecord = true
      · rw [if_pos hc2]
        by_cases hc3 : fi.isEmptyRecord = true
        · rw [if_pos hc3]
          split_ifs with h h2
          · exact absurd (by simpa using h) (by simp [hext])
          · exact absurd (by simpa using h) (by simp [hext])
          · exact finishTail_spec t { s with sizeBits := t.charWidth }
              hal hcw (show s.dataSizeBits ≤ t.charWidth by omega)
        · rw [if_neg hc3]
          split_ifs with h h2
          · exact absurd (by simpa using h) (by simp [hext])
          · exact absurd (by simpa using h) (by simp [hext])
          · exact finishTail_spec t s hal hcw hds
      · rw [if_neg hc2]
        split_ifs with h h2
        · exact absurd (by simpa using h) (by simp [hext])
        · exact absurd (by simpa using h) (by simp [hext])
        · exact finishTail_spec t { s with sizeBits := t.charWidth }
            hal hcw (show s.dataSizeBits ≤ t.charWidth by omega)
    · rw [if_neg hc1]
      split_ifs with h h2
      · exact absurd (by simpa using h) (by simp [hext])
      · exact absurd (by simpa using h) (by simp [hext])
      · exact finishTail_spec t s hal hcw hds
  · intro hext
    simp only [finishLayout]
    by_cases hc1 : fi.isCPlusPlus = true ∧ s.sizeBits = 0
    · rw [if_pos hc1]
      by_cases hc2 : fi.isCXXRecord = true
      · rw [if_pos hc2]
        by_cases hc3 : fi.isEmptyRecord = true
        · rw [if_pos hc3]
          split_ifs with h h2 <;>
            first
            | rfl
            | exact absurd hext (by simpa using h)
        · rw [if_neg hc3]
          split_ifs with h h2 <;>
            first
            | rfl
            | exact absurd hext (by simpa using h)
      · rw [if_neg hc2]
        split_ifs with h h2 <;>
          first
          | rfl
          | exact absurd hext (by simpa using h)
    · rw [if_neg hc1]
      split_ifs with h h2 <;>
        first
        | rfl
        | exact absurd hext (by simpa using h)
  · intro is64 rma pp pa bases fields vbs vts dyn hnv
    simp only [msCxxLayout]
    exact msTail_dataSize_le _ vbs vts

/-- Witness for the amended C3: a concrete non-external Itanium state
(size 20 bits, alignment 4 chars) finishes with a size divisible by the
alignment in bits. -/
theorem layout_size_invariants_spec_witness :
    ((finishLayout lp64Target ⟨false, false, false⟩ 0
      ⟨20, 16, 4, 4, 0, 0, 0, false, false, false, false, false, false,
        []⟩).alignment * lp64Target.charWidth
      ∣ (finishLayout lp64Target ⟨false, false, false⟩ 0
      ⟨20, 16, 4, 4, 0, 0, 0, false, false, false, false, false, false,
        []⟩).sizeBits) :=
  ((layout_size_invariants_spec lp64Target ⟨false, false, false⟩ 0
    ⟨20, 16, 4, 4, 0, 0, 0, false, false, false, false, false, false,
      []⟩
    ⟨0, 0, 1, 0, 0, 0, 0, 0, 0, none, none, [], [], [], 0, false,
      false, false, false, false, false, false⟩
    (by decide) (by decide) (by decide)).1 rfl).1

theorem updateAlignment_pres (s : ItaniumState) (a ua : Nat) :
    (updateAlignment s a ua).fieldOffsets = s.fieldOffsets ∧
    (updateAlignment s a ua).dataSizeBits = s.dataSizeBits ∧
    (updateAlignment s a ua).unfilledBitsInLastUnit
      = s.unfilledBitsInLastUnit ∧
    (updateAlignment s a ua).lastBitfieldTypeSize
      = s.lastBitfieldTypeSize ∧
    (updateAlignment s a ua).sizeBits = s.sizeBits := by
  simp only [updateAlignment]
  split_ifs <;> exact ⟨rfl, rfl, rfl, rfl, rfl⟩

/-- `pickIntegralPOD` on a size-sorted list returns, when it returns at
all, an element not exceeding the field size and maximal among those. -/
theorem pickIntegralPOD_sound :
    ∀ (l : List (Nat × Nat)) (fs : Nat) (acc : Option (Nat × Nat)),
    List.Pairwise (fun a b => a.1 ≤ b.1) l →
    ((∀ u ∈ l, fs < u.1) → pickIntegralPOD l fs acc = acc) ∧
    (∀ r, pickIntegralPOD l fs acc = some r →
      (some r = acc ∧ ∀ u ∈ l, fs < u.1) ∨
      (r ∈ l ∧ r.1 ≤ fs ∧ ∀ u ∈ l, u.1 ≤ fs → u.1 ≤ r.1)) := by
  intro l
  induction l with
  | nil =>
    intro fs acc _
    exact ⟨fun _ => rfl, fun r hr => Or.inl ⟨hr.symm, by simp⟩⟩
  | cons t rest ih =>
    intro fs acc hpw
    obtain ⟨hhead, hrest⟩ := List.pairwise_cons.mp hpw
    by_cases ht : t.1 > fs
    · rw [pickIntegralPOD, if_pos ht]
      refine ⟨fun _ => rfl, fun r hr =>
        Or.inl ⟨hr.symm, fun u hu => ?_⟩⟩
      rcases List.mem_cons.mp hu with rfl | hu
      · exact ht
      · exact lt_of_lt_of_le ht (hhead u hu)
    · rw [pickIntegralPOD, if_neg ht]
      have hle : t.1 ≤ fs := Nat.le_of_not_lt ht
      constructor
      · intro hall
        exact absurd (hall t (List.mem_cons_self t rest))
          (Nat.not_lt.mpr hle)
      · intro r hr
        rcases (ih fs (some t) hrest).2 r hr with ⟨h1, h2⟩ | ⟨h1, h2, h3⟩
        · have hrt : r = t := Option.some.inj h1
          subst hrt
          refine Or.inr ⟨List.mem_cons_self r rest, hle,
            fun u hu hule => ?_⟩
          rcases List.mem_cons.mp hu with rfl | hu
          · exact le_refl _
          · exact absurd (h2 u hu) (Nat.not_lt.mpr hule)
        · refine Or.inr ⟨List.mem_cons_of_mem t h1, h2,
            fun u hu hule => ?_⟩
          rcases List.mem_cons.mp hu with rfl | hu
          · exact hhead r h1
          · exact h3 u hu hule

/-- **C5 counterexample.** For `unsigned long long : 40` on an LP64
target the wide-bitfield branch is not entered at all (the declared
width 40 does not exceed the 64-bit type size); and even the wide
selection loop applied to a 40-bit field picks unsigned int (32 bits,
align 4), not unsigned long long (64 bits, align 8). -/
theorem wide_bitfield_counterexample :
    ¬ (40 > 64) ∧
    pickIntegralPOD lp64Target.integralPODTypes 40 none = some (32, 4) ∧
    some ((32 : Nat), (4 : Nat)) ≠ some ((64 : Nat), (8 : Nat)) := by
  decide

/-- **C5 (amended).** The wide-bitfield mechanism: (1) the selection
loop run over the size-sorted integral POD types returns the largest
type whose bit size does not exceed the field width; (2) a wide
bitfield placed in a non-union record resets bit-packing, lands at the
data size rounded up to the selected type's alignment, and grows the
data size to the next char-alignment boundary remembering the unfilled
tail bits; (3) `union { unsigned long long : 40; }` is not wide
(40 ≤ 64): under the Microsoft builder the allocation unit is the
declared type itself and the union's size is sizeof(unsigned long
long) = 8. -/
theorem layoutWideBitField_spec :
    (∀ (l : List (Nat × Nat)) (fs : Nat) (r : Nat × Nat),
      List.Pairwise (fun a b => a.1 ≤ b.1) l →
      pickIntegralPOD l fs none = some r →
      r ∈ l ∧ r.1 ≤ fs ∧ ∀ u ∈ l, u.1 ≤ fs → u.1 ≤ r.1) ∧
    (∀ (t : ItaniumTarget) (fieldSize : Nat) (s : ItaniumState)
      (tsize talign : Nat),
      s.isUnion = false →
      pickIntegralPOD t.integralPODTypes fieldSize none
        = some (tsize, talign) →
      (layoutWideBitField t fieldSize s).fieldOffsets
        = s.fieldOffsets
          ++ [roundUp s.dataSizeBits (talign * t.charWidth)] ∧
      (layoutWideBitField t fieldSize s).dataSizeBits
        = roundUp (roundUp s.dataSizeBits (talign * t.charWidth)
            + fieldSize) t.charAlign ∧
      (layoutWideBitField t fieldSize s).unfilledBitsInLastUnit
        = roundUp (roundUp s.dataSizeBits (talign * t.charWidth)
            + fieldSize) t.charAlign
          - (roundUp s.dataSizeBits (talign * t.charWidth)
            + fieldSize) ∧
      (layoutWideBitField t fieldSize s).lastBitfieldTypeSize = 0) ∧
    (msLayout true false 0 0 false
      [⟨true, 40, 8, 8, 0, false⟩]).size = 8 := by
  refine ⟨?_, ?_, by decide⟩
  · intro l fs r hpw hpick
    rcases (pickIntegralPOD_sound l fs none hpw).2 r hpick with
      ⟨h1, _⟩ | h
    · exact absurd h1 (by simp)
    · exact h
  · intro t fieldSize s tsize talign hunion hpick
    unfold layoutWideBitField
    rw [hpick]
    simp only
    rw [if_neg (show ¬s.isUnion = true by simp [hunion])]
    simp only
    obtain ⟨u1, u2, u3, u4, u5⟩ := updateAlignment_pres _ talign talign
    refine ⟨?_, ?_, ?_, ?_⟩
    · rw [u1]
    · rw [u2]
    · rw [u3]
    · rw [u4]

/-- Witness for the amended C5: a 100-bit-wide bitfield on LP64 selects
the 64-bit type and grows the data size from 16 bits to 168. -/
theorem layoutWideBitField_spec_witness :
    (layoutWideBitField lp64Target 100
      ⟨16, 16, 1, 1, 0, 0, 0, false, false, false, false, false, false,
        []⟩).dataSizeBits = 168 := by
  rw [(layoutWideBitField_spec.2.1 lp64Target 100
    ⟨16, 16, 1, 1, 0, 0, 0, false, false, false, false, false, false,
      []⟩ 64 8 rfl (by decide)).2.1]
  decide

theorem getAdjFD_pres (s : MSState) (fd : MSField) :
    (getAdjustedElementInfoFD s fd).2.vbptrOffset = s.vbptrOffset ∧
    (getAdjustedElementInfoFD s fd).2.hasVBPtr = s.hasVBPtr ∧
    (getAdjustedElementInfoFD s fd).2.vbases = s.vbases ∧
    (getAdjustedElementInfoFD s fd).2.sharedVBPtrBase
      = s.sharedVBPtrBase ∧
    (getAdjustedElementInfoFD s fd).2.pointerAlignment
      = s.pointerAlignment ∧
    (getAdjustedElementInfoFD s fd).2.pointerSize = s.pointerSize := by
  simp only [getAdjustedElementInfoFD]
  split_ifs <;> exact ⟨rfl, rfl, rfl, rfl, rfl, rfl⟩

theorem msLayoutPlainField_pres (s : MSState) (fd : MSField) :
    (msLayoutPlainField s fd).vbptrOffset = s.vbptrOffset ∧
    (msLayoutPlainField s fd).hasVBPtr = s.hasVBPtr ∧
    (msLayoutPlainField s fd).vbases = s.vbases ∧
    (msLayoutPlainField s fd).sharedVBPtrBase = s.sharedVBPtrBase ∧
    (msLayoutPlainField s fd).pointerAlignment = s.pointerAlignment ∧
    (msLayoutPlainField s fd).pointerSize = s.pointerSize := by
  simp only [msLayoutPlainField]
  obtain ⟨g1, g2, g3, g4, g5, g6⟩ := getAdjFD_pres
    { s with lastFieldIsNonZeroWidthBitfield := false } fd
  split_ifs <;> exact ⟨g1, g2, g3, g4, g5, g6⟩

theorem msLayoutZeroWidthBitField_pres (s : MSState) (fd : MSField) :
    (msLayoutZeroWidthBitField s fd).vbptrOffset = s.vbptrOffset ∧
    (msLayoutZeroWidthBitField s fd).hasVBPtr = s.hasVBPtr ∧
    (msLayoutZeroWidthBitField s fd).vbases = s.vbases ∧
    (msLayoutZeroWidthBitField s fd).sharedVBPtrBase
      = s.sharedVBPtrBase ∧
    (msLayoutZeroWidthBitField s fd).pointerAlignment
      = s.pointerAlignment ∧
    (msLayoutZeroWidthBitField s fd).pointerSize = s.pointerSize := by
  simp only [msLayoutZeroWidthBitField]
  obtain ⟨g1, g2, g3, g4, g5, g6⟩ := getAdjFD_pres
    { s with lastFieldIsNonZeroWidthBitfield := false } fd
  split_ifs <;>
    first
    | exact ⟨rfl, rfl, rfl, rfl, rfl, rfl⟩
    | exact ⟨g1, g2, g3, g4, g5, g6⟩

theorem msLayoutBitField_pres (s : MSState) (fd : MSField) :
    (msLayoutBitField s fd).vbptrOffset = s.vbptrOffset ∧
    (msLayoutBitField s fd).hasVBPtr = s.hasVBPtr ∧
    (msLayoutBitField s fd).vbases = s.vbases ∧
    (msLayoutBitField s fd).sharedVBPtrBase = s.sharedVBPtrBase ∧
    (msLayoutBitField s fd).pointerAlignment = s.pointerAlignment ∧
    (msLayoutBitField s fd).pointerSize = s.pointerSize := by
  simp only [msLayoutBitField]
  obtain ⟨g1, g2, g3, g4, g5, g6⟩ := getAdjFD_pres s fd
  obtain ⟨z1, z2, z3, z4, z5, z6⟩ := msLayoutZeroWidthBitField_pres s fd
  split_ifs <;>
    first
    | exact ⟨z1, z2, z3, z4, z5, z6⟩
    | exact ⟨g1, g2, g3, g4, g5, g6⟩

theorem msLayoutField_pres (s : MSState) (fd : MSField) :
    (msLayoutField s fd).vbptrOffset = s.vbptrOffset ∧
    (msLayoutField s fd).hasVBPtr = s.hasVBPtr ∧
    (msLayoutField s fd).vbases = s.vbases ∧
    (msLayoutField s fd).sharedVBPtrBase = s.sharedVBPtrBase ∧
    (msLayoutField s fd).pointerAlignment = s.pointerAlignment ∧
    (msLayoutField s fd).pointerSize = s.pointerSize := by
  simp only [msLayoutField]
  split_ifs
  · exact msLayoutBitField_pres s fd
  · exact msLayoutPlainField_pres s fd

theorem msFieldsLoop_pres :
    ∀ (fields : List MSField) (s : MSState),
    (msFieldsLoop s fields).vbptrOffset = s.vbptrOffset ∧
    (msFieldsLoop s fields).hasVBPtr = s.hasVBPtr ∧
    (msFieldsLoop s fields).vbases = s.vbases ∧
    (msFieldsLoop s fields).sharedVBPtrBase = s.sharedVBPtrBase ∧
    (msFieldsLoop s fields).pointerAlignment = s.pointerAlignment ∧
    (msFieldsLoop s fields).pointerSize = s.pointerSize := by
  intro fields
  induction fields with
  | nil => intro s; exact ⟨rfl, rfl, rfl, rfl, rfl, rfl⟩
  | cons fd rest ih =>
    intro s
    obtain ⟨i1, i2, i3, i4, i5, i6⟩ := ih (msLayoutField s fd)
    obtain ⟨f1, f2, f3, f4, f5, f6⟩ := msLayoutField_pres s fd
    exact ⟨i1.trans f1, i2.trans f2, i3.trans f3, i4.trans f4,
      i5.trans f5, i6.trans f6⟩

theorem msLayoutFields_pres (s : MSState) (fields : List MSField) :
    (msLayoutFields s fields).vbptrOffset = s.vbptrOffset ∧
    (msLayoutFields s fields).hasVBPtr = s.hasVBPtr ∧
    (msLayoutFields s fields).vbases = s.vbases ∧
    (msLayoutFields s fields).sharedVBPtrBase = s.sharedVBPtrBase ∧
    (msLayoutFields s fields).pointerAlignment = s.pointerAlignment ∧
    (msLayoutFields s fields).pointerSize = s.pointerSize :=
  msFieldsLoop_pres fields
    { s with lastFieldIsNonZeroWidthBitfield := false }

/-- Whether the first pass over the direct bases discovers a vbptr. -/
def msHasVBPtrScan (l : List MSBase) : Bool :=
  l.any (fun b => b.isVirtual || b.layout.hasVBPtr)

theorem msLayoutNonVirtualBase_pres (s : MSState)
    (prev : Option MSLayout) (name : Nat) (L : MSLayout) :
    (msLayoutNonVirtualBase s prev name L).1.hasVBPtr = s.hasVBPtr ∧
    (msLayoutNonVirtualBase s prev name L).1.sharedVBPtrBase
      = s.sharedVBPtrBase ∧
    (msLayoutNonVirtualBase s prev name L).1.vbases = s.vbases ∧
    (msLayoutNonVirtualBase s prev name L).1.pointerAlignment
      = s.pointerAlignment ∧
    (msLayoutNonVirtualBase s prev name L).1.pointerSize
      = s.pointerSize ∧
    0 ≤ (msLayoutNonVirtualBase s prev name L).1.vbptrOffset := by
  simp only [msLayoutNonVirtualBase, getAdjustedElementInfoBase]
  cases prev <;>
    · simp only []
      split_ifs <;>
        · refine ⟨?_, ?_, ?_, ?_, ?_, ?_⟩ <;>
            first
            | trivial
            | positivity


theorem msNVBasesPass1_spec :
    ∀ (l : List MSBase) (s : MSState) (prev : Option MSLayout),
    (s.sharedVBPtrBase = none ∨ s.hasVBPtr = true) →
    (msNVBasesPass1 s prev l).1.hasVBPtr
      = (s.hasVBPtr || msHasVBPtrScan l) ∧
    (0 ≤ s.vbptrOffset →
      0 ≤ (msNVBasesPass1 s prev l).1.vbptrOffset) ∧
    (msNVBasesPass1 s prev l).1.vbases = s.vbases ∧
    (msNVBasesPass1 s prev l).1.pointerAlignment
      = s.pointerAlignment ∧
    (msNVBasesPass1 s prev l).1.pointerSize = s.pointerSize ∧
    (∀ nb, (msNVBasesPass1 s prev l).1.sharedVBPtrBase = some nb →
      s.sharedVBPtrBase = some nb ∨
      (∃ b, b ∈ l ∧ b.isVirtual = false ∧ b.layout.hasVBPtr = true ∧
        nb = (b.name, b.layout))) ∧
    ((msNVBasesPass1 s prev l).1.sharedVBPtrBase = none ∨
      (msNVBasesPass1 s prev l).1.hasVBPtr = true) ∧
    ((∀ b ∈ l, b.isVirtual = false → b.layout.hasVBPtr = false) →
      (msNVBasesPass1 s prev l).1.sharedVBPtrBase
        = s.sharedVBPtrBase) := by
  intro l
  induction l with
  | nil =>
    intro s prev hinv
    exact ⟨by simp [msNVBasesPass1, msHasVBPtrScan], fun h => h, rfl,
      rfl, rfl, fun nb h => Or.inl h, hinv, fun _ => rfl⟩
  | cons b rest ih =>
    intro s prev hinv
    rw [msNVBasesPass1]
    simp only
    by_cases hv : b.isVirtual = true
    · rw [if_pos hv]
      obtain ⟨i1, i2, i3, i4, i5, i6, i7, i8⟩ :=
        ih { s with
              requiredAlignment :=
                max s.requiredAlignment b.layout.requiredAlignment
              hasVBPtr := true } prev
          (Or.elim hinv (fun h => Or.inl h) (fun _ => Or.inr rfl))
      refine ⟨i1.trans (by simp [msHasVBPtrScan, hv]), i2, i3, i4, i5,
        ?_, i7, ?_⟩
      · intro nb h
        rcases i6 nb h with h | ⟨b', hb', h1, h2, h3⟩
        · exact Or.inl h
        · exact Or.inr ⟨b', List.mem_cons_of_mem b hb', h1, h2, h3⟩
      · intro hall
        exact i8 (fun b' hb' => hall b' (List.mem_cons_of_mem b hb'))
    · rw [if_neg hv]
      have hv' : b.isVirtual = false := by
        cases h : b.isVirtual
        · rfl
        · exact absurd h hv
      by_cases hsh : s.sharedVBPtrBase = none ∧ b.layout.hasVBPtr = true
      · rw [if_pos hsh]
        by_cases hvf : ¬b.layout.hasExtendableVFPtr = true
        · rw [if_pos hvf]
          obtain ⟨i1, i2, i3, i4, i5, i6, i7, i8⟩ :=
            ih { s with
                  requiredAlignment :=
                    max s.requiredAlignment b.layout.requiredAlignment
                  sharedVBPtrBase := some (b.name, b.layout)
                  hasVBPtr := true } prev (Or.inr rfl)
          refine ⟨i1.trans (by simp [msHasVBPtrScan, hsh.2]), i2, i3,
            i4, i5, ?_, i7, ?_⟩
          · intro nb h
            rcases i6 nb h with h | ⟨b', hb', h1, h2, h3⟩
            · exact Or.inr ⟨b, List.mem_cons_self b rest, hv', hsh.2,
                (Option.some.inj h).symm⟩
            · exact Or.inr ⟨b', List.mem_cons_of_mem b hb', h1, h2, h3⟩
          · intro hall
            exact absurd hsh.2
              (by simp [hall b (List.mem_cons_self b rest) hv'])
        · rw [if_neg hvf]
          by_cases hpb : s.primaryBase = none
          · rw [if_pos hpb]
            obtain ⟨p1, p2, p3, p4, p5, p6⟩ :=
              msLayoutNonVirtualBase_pres
                { s with
                  requiredAlignment :=
                    max s.requiredAlignment b.layout.requiredAlignment
                  sharedVBPtrBase := some (b.name, b.layout)
                  hasVBPtr := true
                  primaryBase := some b.name
                  leadsWithZeroSizedBase :=
                    b.layout.leadsWithZeroSizedBase } prev b.name
                b.layout
            obtain ⟨i1, i2, i3, i4, i5, i6, i7, i8⟩ :=
              ih (msLayoutNonVirtualBase
                { s with
                  requiredAlignment :=
                    max s.requiredAlignment b.layout.requiredAlignment
                  sharedVBPtrBase := some (b.name, b.layout)
                  hasVBPtr := true
                  primaryBase := some b.name
                  leadsWithZeroSizedBase :=
                    b.layout.leadsWithZeroSizedBase } prev b.name
                  b.layout).1
                (msLayoutNonVirtualBase
                { s with
                  requiredAlignment :=
                    max s.requiredAlignment b.layout.requiredAlignment
                  sharedVBPtrBase := some (b.name, b.layout)
                  hasVBPtr := true
                  primaryBase := some b.name
                  leadsWithZeroSizedBase :=
                    b.layout.leadsWithZeroSizedBase } prev b.name
                  b.layout).2
                (Or.inr (p1.trans rfl))
            refine ⟨i1.trans (by rw [p1]; simp [msHasVBPtrScan,
              hsh.2]), fun _ => i2 p6, i3.trans (p3.trans rfl),
              i4.trans (p4.trans rfl), i5.trans (p5.trans rfl), ?_,
              i7, ?_⟩
            · intro nb h
              rcases i6 nb h with h' | ⟨b', hb', h1, h2, h3⟩
              · have h'' : some (b.name, b.layout) = some nb :=
                  p2.symm.trans h'
                exact Or.inr ⟨b, List.mem_cons_self b rest, hv',
                  hsh.2, (Option.some.inj h'').symm⟩
              · exact Or.inr ⟨b', List.mem_cons_of_mem b hb', h1, h2,
                  h3⟩
            · intro hall
              exact absurd hsh.2
                (by simp [hall b (List.mem_cons_self b rest) hv'])
          · rw [if_neg hpb]
            obtain ⟨p1, p2, p3, p4, p5, p6⟩ :=
              msLayoutNonVirtualBase_pres
                { s with
                  requiredAlignment :=
                    max s.requiredAlignment b.layout.requiredAlignment
                  sharedVBPtrBase := some (b.name, b.layout)
                  hasVBPtr := true } prev b.name b.layout
            obtain ⟨i1, i2, i3, i4, i5, i6, i7, i8⟩ :=
              ih (msLayoutNonVirtualBase
                { s with
                  requiredAlignment :=
                    max s.requiredAlignment b.layout.requiredAlignment
                  sharedVBPtrBase := some (b.name, b.layout)
                  hasVBPtr := true } prev b.name b.layout).1
                (msLayoutNonVirtualBase
                { s with
                  requiredAlignment :=
                    max s.requiredAlignment b.layout.requiredAlignment
                  sharedVBPtrBase := some (b.name, b.layout)
                  hasVBPtr := true } prev b.name b.layout).2
                (Or.inr (p1.trans rfl))
            refine ⟨i1.trans (by rw [p1]; simp [msHasVBPtrScan,
              hsh.2]), fun _ => i2 p6, i3.trans (p3.trans rfl),
              i4.trans (p4.trans rfl), i5.trans (p5.trans rfl), ?_,
              i7, ?_⟩
            · intro nb h
              rcases i6 nb h with h' | ⟨b', hb', h1, h2, h3⟩
              · have h'' : some (b.name, b.layout) = some nb :=
                  p2.symm.trans h'
                exact Or.inr ⟨b, List.mem_cons_self b rest, hv',
                  hsh.2, (Option.some.inj h'').symm⟩
              · exact Or.inr ⟨b', List.mem_cons_of_mem b hb', h1, h2,
                  h3⟩
            · intro hall
              exact absurd hsh.2
                (by simp [hall b (List.mem_cons_self b rest) hv'])
      · rw [if_neg hsh]
        by_cases hvf : ¬b.layout.hasExtendableVFPtr = true
        · rw [if_pos hvf]
          obtain ⟨i1, i2, i3, i4, i5, i6, i7, i8⟩ :=
            ih { s with
                  requiredAlignment :=
                    max s.requiredAlignment b.layout.requiredAlignment }
              prev hinv
          refine ⟨i1.trans ?_, i2, i3, i4, i5, ?_, i7, ?_⟩
          · by_cases hbl : b.layout.hasVBPtr = true
            · have hhv : s.hasVBPtr = true :=
                hinv.resolve_left (fun h => hsh ⟨h, hbl⟩)
              simp [msHasVBPtrScan, hhv]
            · have hbl' : b.layout.hasVBPtr = false := by
                cases h : b.layout.hasVBPtr
                · rfl
                · exact absurd h hbl
              simp [msHasVBPtrScan, hv', hbl']
          · intro nb h
            rcases i6 nb h with h' | ⟨b', hb', h1, h2, h3⟩
            · exact Or.inl h'
            · exact Or.inr ⟨b', List.mem_cons_of_mem b hb', h1, h2,
                h3⟩
          · intro hall
            exact i8 (fun b' hb' => hall b' (List.mem_cons_of_mem b
              hb'))
        · rw [if_neg hvf]
          by_cases hpb : s.primaryBase = none
          · rw [if_pos hpb]
            obtain ⟨p1, p2, p3, p4, p5, p6⟩ :=
              msLayoutNonVirtualBase_pres
                { s with
                  requiredAlignment :=
                    max s.requiredAlignment b.layout.requiredAlignment
                  primaryBase := some b.name
                  leadsWithZeroSizedBase :=
                    b.layout.leadsWithZeroSizedBase } prev b.name
                b.layout
            obtain ⟨i1, i2, i3, i4, i5, i6, i7, i8⟩ :=
              ih (msLayoutNonVirtualBase
                { s with
                  requiredAlignment :=
                    max s.requiredAlignment b.layout.requiredAlignment
                  primaryBase := some b.name
                  leadsWithZeroSizedBase :=
                    b.layout.leadsWithZeroSizedBase } prev b.name
                  b.layout).1
                (msLayoutNonVirtualBase
                { s with
                  requiredAlignment :=
                    max s.requiredAlignment b.layout.requiredAlignment
                  primaryBase := some b.name
                  leadsWithZeroSizedBase :=
                    b.layout.leadsWithZeroSizedBase } prev b.name
                  b.layout).2
                (Or.elim hinv (fun h => Or.inl (p2.trans rfl |>.trans
                  h)) (fun h => Or.inr (p1.trans rfl |>.trans h)))
            refine ⟨i1.trans ?_, fun _ => i2 p6,
              i3.trans (p3.trans rfl), i4.trans (p4.trans rfl),
              i5.trans (p5.trans rfl), ?_, i7, ?_⟩
            · rw [p1]
              by_cases hbl : b.layout.hasVBPtr = true
              · have hhv : s.hasVBPtr = true :=
                  hinv.resolve_left (fun h => hsh ⟨h, hbl⟩)
                simp [msHasVBPtrScan, hhv]
              · have hbl' : b.layout.hasVBPtr = false := by
                  cases h : b.layout.hasVBPtr
                  · rfl
                  · exact absurd h hbl
                simp [msHasVBPtrScan, hv', hbl']
            · intro nb h
              rcases i6 nb h with h' | ⟨b', hb', h1, h2, h3⟩
              · exact Or.inl (p2.symm.trans h' |>.symm.trans rfl
                  |>.symm)
              · exact Or.inr ⟨b', List.mem_cons_of_mem b hb', h1, h2,
                  h3⟩
            · intro hall
              exact (i8 (fun b' hb' => hall b'
                (List.mem_cons_of_mem b hb'))).trans (p2.trans rfl)
          · rw [if_neg hpb]
            obtain ⟨p1, p2, p3, p4, p5, p6⟩ :=
              msLayoutNonVirtualBase_pres
                { s with
                  requiredAlignment :=
                    max s.requiredAlignment b.layout.requiredAlignment }
                prev b.name b.layout
            obtain ⟨i1, i2, i3, i4, i5, i6, i7, i8⟩ :=
              ih (msLayoutNonVirtualBase
                { s with
                  requiredAlignment :=
                    max s.requiredAlignment b.layout.requiredAlignment }
                  prev b.name b.layout).1
                (msLayoutNonVirtualBase
                { s with
                  requiredAlignment :=
                    max s.requiredAlignment b.layout.requiredAlignment }
                  prev b.name b.layout).2
                (Or.elim hinv (fun h => Or.inl (p2.trans rfl |>.trans
                  h)) (fun h => Or.inr (p1.trans rfl |>.trans h)))
            refine ⟨i1.trans ?_, fun _ => i2 p6,
              i3.trans (p3.trans rfl), i4.trans (p4.trans rfl),
              i5.trans (p5.trans rfl), ?_, i7, ?_⟩
            · rw [p1]
              by_cases hbl : b.layout.hasVBPtr = true
              · have hhv : s.hasVBPtr = true :=
                  hinv.resolve_left (fun h => hsh ⟨h, hbl⟩)
                simp [msHasVBPtrScan, hhv]
              · have hbl' : b.layout.hasVBPtr = false := by
                  cases h : b.layout.hasVBPtr
                  · rfl
                  · exact absurd h hbl
                simp [msHasVBPtrScan, hv', hbl']
            · intro nb h
              rcases i6 nb h with h' | ⟨b', hb', h1, h2, h3⟩
              · exact Or.inl (p2.symm.trans h' |>.symm.trans rfl
                  |>.symm)
              · exact Or.inr ⟨b', List.mem_cons_of_mem b hb', h1, h2,
                  h3⟩
            · intro hall
              exact (i8 (fun b' hb' => hall b'
                (List.mem_cons_of_mem b hb'))).trans (p2.trans rfl)

theorem msNVBasesPass2_spec :
    ∀ (l : List MSBase) (s : MSState) (prev : Option MSLayout)
    (cl : Bool),
    (msNVBasesPass2 s prev cl l).1.hasVBPtr = s.hasVBPtr ∧
    (0 ≤ s.vbptrOffset →
      0 ≤ (msNVBasesPass2 s prev cl l).1.vbptrOffset) ∧
    (msNVBasesPass2 s prev cl l).1.vbases = s.vbases ∧
    (msNVBasesPass2 s prev cl l).1.pointerAlignment
      = s.pointerAlignment ∧
    (msNVBasesPass2 s prev cl l).1.pointerSize = s.pointerSize ∧
    (msNVBasesPass2 s prev cl l).1.sharedVBPtrBase
      = s.sharedVBPtrBase := by
  intro l
  induction l with
  | nil =>
    intro s prev cl
    exact ⟨rfl, fun h => h, rfl, rfl, rfl, rfl⟩
  | cons b rest ih =>
    intro s prev cl
    rw [msNVBasesPass2]
    simp only
    by_cases hv : b.isVirtual = true
    · rw [if_pos hv]
      exact ih s prev cl
    · rw [if_neg hv]
      by_cases hvf : b.layout.hasExtendableVFPtr = true
      · rw [if_pos hvf]
        exact ih s prev cl
      · rw [if_neg hvf]
        by_cases hcl : cl = true
        · rw [if_pos hcl]
          obtain ⟨p1, p2, p3, p4, p5, p6⟩ :=
            msLayoutNonVirtualBase_pres
              { s with leadsWithZeroSizedBase :=
                  b.layout.leadsWithZeroSizedBase } prev b.name
              b.layout
          obtain ⟨i1, i2, i3, i4, i5, i6⟩ :=
            ih (msLayoutNonVirtualBase
                { s with leadsWithZeroSizedBase :=
                    b.layout.leadsWithZeroSizedBase } prev b.name
                b.layout).1
              (msLayoutNonVirtualBase
                { s with leadsWithZeroSizedBase :=
                    b.layout.leadsWithZeroSizedBase } prev b.name
                b.layout).2 false
          exact ⟨i1.trans (p1.trans rfl), fun _ => i2 p6,
            i3.trans (p3.trans rfl), i4.trans (p4.trans rfl),
            i5.trans (p5.trans rfl), i6.trans (p2.trans rfl)⟩
        · rw [if_neg hcl]
          obtain ⟨p1, p2, p3, p4, p5, p6⟩ :=
            msLayoutNonVirtualBase_pres s prev b.name b.layout
          obtain ⟨i1, i2, i3, i4, i5, i6⟩ :=
            ih (msLayoutNonVirtualBase s prev b.name b.layout).1
              (msLayoutNonVirtualBase s prev b.name b.layout).2 false
          exact ⟨i1.trans p1, fun _ => i2 p6, i3.trans p3,
            i4.trans p4, i5.trans p5, i6.trans p2⟩

theorem msLNVBTail_spec (bases : List MSBase) (S2 s : MSState)
    (prev : Option MSLayout) (cl : Bool)
    (e1 : S2.hasVBPtr = (s.hasVBPtr || msHasVBPtrScan bases))
    (e3 : S2.vbases = s.vbases)
    (e4 : S2.pointerAlignment = s.pointerAlignment)
    (e5 : S2.pointerSize = s.pointerSize)
    (e6 : ∀ nb, S2.sharedVBPtrBase = some nb → 0 ≤ nb.2.vbptrOffset)
    (e7 : S2.sharedVBPtrBase = none ∨ S2.hasVBPtr = true) :
    (msLNVBTail S2 prev cl bases).hasVBPtr
      = (s.hasVBPtr || msHasVBPtrScan bases) ∧
    ((msLNVBTail S2 prev cl bases).hasVBPtr = false →
      (msLNVBTail S2 prev cl bases).vbptrOffset = -1) ∧
    (0 ≤ S2.vbptrOffset → (msLNVBTail S2 prev cl bases).hasVBPtr = true →
      0 ≤ (msLNVBTail S2 prev cl bases).vbptrOffset) ∧
    (msLNVBTail S2 prev cl bases).vbases = s.vbases ∧
    (msLNVBTail S2 prev cl bases).pointerAlignment
      = s.pointerAlignment ∧
    (msLNVBTail S2 prev cl bases).pointerSize = s.pointerSize ∧
    (∀ nb, (msLNVBTail S2 prev cl bases).sharedVBPtrBase = some nb →
      0 ≤ nb.2.vbptrOffset) ∧
    ((msLNVBTail S2 prev cl bases).sharedVBPtrBase = none ∨
      (msLNVBTail S2 prev cl bases).hasVBPtr = true) ∧
    (msLNVBTail S2 prev cl bases).sharedVBPtrBase
      = S2.sharedVBPtrBase := by
  obtain ⟨w1, w2, w3, w4, w5, w6⟩ := msNVBasesPass2_spec bases S2 prev
    cl
  simp only [msLNVBTail]
  by_cases hb : (msNVBasesPass2 S2 prev cl bases).1.hasVBPtr = true
  · rw [if_neg (not_not_intro hb)]
    cases hshr : (msNVBasesPass2 S2 prev cl bases).1.sharedVBPtrBase
      with
    | none =>
      refine ⟨w1.trans e1, fun h => absurd (h.symm.trans hb)
        (by decide), fun h2 _ => w2 h2, w3.trans e3, w4.trans e4,
        w5.trans e5, fun nb h' => ?_, Or.inr hb, w6⟩
      exact absurd (hshr.symm.trans h') (by simp)
    | some sb =>
      have hs2 : S2.sharedVBPtrBase = some sb := w6.symm.trans hshr
      have hnn := e6 sb hs2
      refine ⟨w1.trans e1, fun h => absurd (h.symm.trans hb)
        (by decide), fun _ _ => ?_, w3.trans e3, w4.trans e4,
        w5.trans e5, fun nb h' => ?_, Or.inr hb, ?_⟩
      · simp only []
        have hcast := Int.natCast_nonneg
          (assocLookupNat (msNVBasesPass2 S2 prev cl bases).1.bases
            sb.1)
        omega
      · simp only [] at h'
        have : sb = nb := Option.some.inj h'
        subst this
        exact hnn
      · exact hshr.symm.trans w6
  · rw [if_pos hb]
    have hb' : (msNVBasesPass2 S2 prev cl bases).1.hasVBPtr = false :=
      by
      cases h : (msNVBasesPass2 S2 prev cl bases).1.hasVBPtr
      · rfl
      · exact absurd h hb
    refine ⟨w1.trans e1, fun _ => rfl,
      fun _ h => absurd (hb'.symm.trans h) (by decide), w3.trans e3,
      w4.trans e4, w5.trans e5, fun nb h' => ?_, ?_, w6⟩
    · rcases e7 with h7 | h7
      · exact absurd ((w6.trans h7).symm.trans h') (by simp)
      · exact absurd (hb'.symm.trans (w1.trans h7)) (by decide)
    · rcases e7 with h7 | h7
      · exact Or.inl (w6.trans h7)
      · exact absurd (hb'.symm.trans (w1.trans h7)) (by decide)

theorem msLayoutNonVirtualBases_spec (s : MSState)
    (bases : List MSBase) (dyn hnv : Bool)
    (hinv : s.sharedVBPtrBase = none ∨ s.hasVBPtr = true)
    (hsinv : ∀ nb, s.sharedVBPtrBase = some nb →
      0 ≤ nb.2.vbptrOffset)
    (h2 : ∀ b ∈ bases, b.layout.hasVBPtr = true →
      0 ≤ b.layout.vbptrOffset) :
    (msLayoutNonVirtualBases s bases dyn hnv).hasVBPtr
      = (s.hasVBPtr || msHasVBPtrScan bases) ∧
    ((msLayoutNonVirtualBases s bases dyn hnv).hasVBPtr = false →
      (msLayoutNonVirtualBases s bases dyn hnv).vbptrOffset = -1) ∧
    (0 ≤ s.vbptrOffset →
      (msLayoutNonVirtualBases s bases dyn hnv).hasVBPtr = true →
      0 ≤ (msLayoutNonVirtualBases s bases dyn hnv).vbptrOffset) ∧
    (msLayoutNonVirtualBases s bases dyn hnv).vbases = s.vbases ∧
    (msLayoutNonVirtualBases s bases dyn hnv).pointerAlignment
      = s.pointerAlignment ∧
    (msLayoutNonVirtualBases s bases dyn hnv).pointerSize
      = s.pointerSize ∧
    (∀ nb, (msLayoutNonVirtualBases s bases dyn
        hnv).sharedVBPtrBase = some nb → 0 ≤ nb.2.vbptrOffset) ∧
    ((msLayoutNonVirtualBases s bases dyn hnv).sharedVBPtrBase
        = none ∨
      (msLayoutNonVirtualBases s bases dyn hnv).hasVBPtr = true) ∧
    ((∀ b ∈ bases, b.isVirtual = false → b.layout.hasVBPtr = false) →
      (msLayoutNonVirtualBases s bases dyn hnv).sharedVBPtrBase
        = s.sharedVBPtrBase) := by
  obtain ⟨q1, q2, q3, q4, q5, q6, q7, q8⟩ :=
    msNVBasesPass1_spec bases s none hinv
  have e6 : ∀ nb,
      (msNVBasesPass1 s none bases).1.sharedVBPtrBase = some nb →
      0 ≤ nb.2.vbptrOffset := by
    intro nb h
    rcases q6 nb h with h' | ⟨b, hb, hv3, hbl, hnb⟩
    · exact hsinv nb h'
    · rw [hnb]
      exact h2 b hb hbl
  simp only [msLayoutNonVirtualBases]
  by_cases hc : (msNVBasesPass1 s none bases).1.primaryBase = none ∧
    dyn = true ∧ hnv = true
  · rw [if_pos hc]
    obtain ⟨t1, t2, t3, t4, t5, t6, t7, t8, t9⟩ :=
      msLNVBTail_spec bases
        { (msNVBasesPass1 s none bases).1 with hasOwnVFPtr := true }
        s (msNVBasesPass1 s none bases).2
        (decide (({ (msNVBasesPass1 s none bases).1 with
          hasOwnVFPtr := true } : MSState).primaryBase = none))
        q1 q3 q4 q5 e6 q7
    exact ⟨t1, t2, fun hv => t3 (q2 hv), t4, t5, t6, t7, t8,
      fun hall => t9.trans (q8 hall)⟩
  · rw [if_neg hc]
    obtain ⟨t1, t2, t3, t4, t5, t6, t7, t8, t9⟩ :=
      msLNVBTail_spec bases (msNVBasesPass1 s none bases).1
        s (msNVBasesPass1 s none bases).2
        (decide ((msNVBasesPass1 s none bases).1.primaryBase = none))
        q1 q3 q4 q5 e6 q7
    exact ⟨t1, t2, fun hv => t3 (q2 hv), t4, t5, t6, t7, t8,
      fun hall => t9.trans (q8 hall)⟩

theorem msInjectVBPtr_spec (s : MSState) :
    (msInjectVBPtr s).hasVBPtr = s.hasVBPtr ∧
    (msInjectVBPtr s).vbases = s.vbases ∧
    (msInjectVBPtr s).sharedVBPtrBase = s.sharedVBPtrBase ∧
    (msInjectVBPtr s).pointerAlignment = s.pointerAlignment ∧
    (msInjectVBPtr s).pointerSize = s.pointerSize ∧
    (msInjectVBPtr s).alignment = s.alignment ∧
    (msInjectVBPtr s).hasOwnVFPtr = s.hasOwnVFPtr ∧
    (¬(s.hasVBPtr = true ∧ s.sharedVBPtrBase = none) →
      (msInjectVBPtr s).vbptrOffset = s.vbptrOffset) ∧
    (s.hasVBPtr = true ∧ s.sharedVBPtrBase = none →
      (msInjectVBPtr s).vbptrOffset
        = ((roundUp s.vbptrOffset.toNat s.pointerAlignment : Nat)
          : Int)) := by
  simp only [msInjectVBPtr]
  by_cases hg : ¬s.hasVBPtr = true ∨ ¬s.sharedVBPtrBase = none
  · rw [if_pos (by
      rcases hg with h | h
      · exact Or.inl h
      · exact Or.inr (by simpa using h))]
    exact ⟨rfl, rfl, rfl, rfl, rfl, rfl, rfl, fun _ => rfl,
      fun h => absurd h (by
        rcases hg with h' | h'
        · exact fun hc => h' hc.1
        · exact fun hc => h' hc.2)⟩
  · push_neg at hg
    rw [if_neg (by
      intro hc
      rcases hc with h | h
      · exact h hg.1
      · exact h hg.2)]
    refine ⟨rfl, rfl, rfl, rfl, rfl, rfl, rfl,
      fun h => absurd ⟨hg.1, hg.2⟩ h, fun _ => rfl⟩

theorem msInjectVFPtr_spec (s : MSState) :
    (msInjectVFPtr s).hasVBPtr = s.hasVBPtr ∧
    (msInjectVFPtr s).vbases = s.vbases ∧
    (msInjectVFPtr s).sharedVBPtrBase = s.sharedVBPtrBase ∧
    (msInjectVFPtr s).pointerAlignment = s.pointerAlignment ∧
    (msInjectVFPtr s).pointerSize = s.pointerSize ∧
    (msInjectVFPtr s).alignment = s.alignment ∧
    (s.hasOwnVFPtr = false →
      (msInjectVFPtr s).vbptrOffset = s.vbptrOffset) ∧
    (s.hasOwnVFPtr = true →
      (msInjectVFPtr s).vbptrOffset
        = (if s.hasVBPtr = true then
            s.vbptrOffset + ((roundUp s.pointerSize s.alignment : Nat)
              : Int)
          else s.vbptrOffset)) := by
  simp only [msInjectVFPtr]
  by_cases hg : s.hasOwnVFPtr = true
  · rw [if_neg (not_not_intro hg)]
    refine ⟨rfl, rfl, rfl, rfl, rfl, rfl,
      fun h => absurd hg (by simp [h]), fun _ => rfl⟩
  · rw [if_pos hg]
    refine ⟨rfl, rfl, rfl, rfl, rfl, rfl, fun _ => rfl,
      fun h => absurd h hg⟩

theorem msRelayoutVBPtr_spec (s : MSState) (bases : List MSBase) :
    (msRelayoutVBPtr s bases).hasVBPtr = s.hasVBPtr ∧
    (msRelayoutVBPtr s bases).vbases = s.vbases ∧
    (msRelayoutVBPtr s bases).sharedVBPtrBase = s.sharedVBPtrBase ∧
    (msRelayoutVBPtr s bases).pointerAlignment = s.pointerAlignment ∧
    (msRelayoutVBPtr s bases).pointerSize = s.pointerSize ∧
    (¬(s.hasVBPtr = true ∧ s.sharedVBPtrBase = none) →
      (msRelayoutVBPtr s bases).vbptrOffset = s.vbptrOffset) ∧
    (s.hasVBPtr = true ∧ s.sharedVBPtrBase = none →
      ∃ v0, (msRelayoutVBPtr s bases).vbptrOffset
        = ((roundUp v0 s.pointerAlignment : Nat) : Int)) := by
  simp only [msRelayoutVBPtr]
  by_cases hg : s.hasVBPtr = true ∧ s.sharedVBPtrBase = none
  · rw [if_pos hg]
    cases hpl : (msFindLastTwo s.bases bases none none).2 with
    | none =>
      simp only []
      refine ⟨?_, ?_, ?_, ?_, ?_, fun h => absurd hg h,
        fun _ => ⟨s.size, rfl⟩⟩ <;> trivial
    | some lb =>
      cases hpl1 : (msFindLastTwo s.bases bases none none).1 with
      | none =>
        simp only []
        split_ifs <;>
          refine ⟨?_, ?_, ?_, ?_, ?_, fun h => absurd hg h,
            fun _ => ⟨_, rfl⟩⟩ <;> trivial
      | some pb =>
        simp only []
        split_ifs <;>
          refine ⟨?_, ?_, ?_, ?_, ?_, fun h => absurd hg h,
            fun _ => ⟨_, rfl⟩⟩ <;> trivial
  · rw [if_neg hg]
    exact ⟨rfl, rfl, rfl, rfl, rfl, fun _ => rfl,
      fun h => absurd h hg⟩

theorem msIVPTail_spec (t : MSState) (bases : List MSBase)
    (fields : List MSField) (dyn hnv : Bool)
    (hscan : t.hasVBPtr = msHasVBPtrScan bases)
    (hinv : t.sharedVBPtrBase = none ∨ t.hasVBPtr = true)
    (hsinv : ∀ nb, t.sharedVBPtrBase = some nb → 0 ≤ nb.2.vbptrOffset)
    (h2 : ∀ b ∈ bases, b.layout.hasVBPtr = true →
      0 ≤ b.layout.vbptrOffset) :
    (msLayoutFields (msRelayoutVBPtr
        (msLayoutNonVirtualBases t bases dyn hnv) bases)
      fields).hasVBPtr = t.hasVBPtr ∧
    (msLayoutFields (msRelayoutVBPtr
        (msLayoutNonVirtualBases t bases dyn hnv) bases)
      fields).vbases = t.vbases ∧
    (t.hasVBPtr = false →
      (msLayoutFields (msRelayoutVBPtr
          (msLayoutNonVirtualBases t bases dyn hnv) bases)
        fields).vbptrOffset = -1) ∧
    (t.hasVBPtr = true → 0 ≤ t.vbptrOffset →
      0 ≤ (msLayoutFields (msRelayoutVBPtr
          (msLayoutNonVirtualBases t bases dyn hnv) bases)
        fields).vbptrOffset) := by
  obtain ⟨n1, n2, n3, n4, n5, n6, n7, n8, n9⟩ :=
    msLayoutNonVirtualBases_spec t bases dyn hnv hinv hsinv h2
  obtain ⟨r1, r2, r3, r4, r5, r6, r7⟩ :=
    msRelayoutVBPtr_spec (msLayoutNonVirtualBases t bases dyn hnv)
      bases
  obtain ⟨f1, f2, f3, f4, f5, f6⟩ :=
    msLayoutFields_pres
      (msRelayoutVBPtr (msLayoutNonVirtualBases t bases dyn hnv)
        bases) fields
  have hN : (msLayoutNonVirtualBases t bases dyn hnv).hasVBPtr
      = t.hasVBPtr := by
    rw [n1, hscan, Bool.or_self]
  refine ⟨f2.trans (r1.trans hN), f3.trans (r2.trans n4), ?_, ?_⟩
  · intro hf
    have hNf : (msLayoutNonVirtualBases t bases dyn hnv).hasVBPtr
        = false := hN.trans hf
    have hr := r6 (fun hc => absurd (hNf.symm.trans hc.1) (by decide))
    rw [f1, hr, n2 hNf]
  · intro ht hv0
    have hNt : (msLayoutNonVirtualBases t bases dyn hnv).hasVBPtr
        = true := hN.trans ht
    have hNv : 0 ≤ (msLayoutNonVirtualBases t bases dyn
        hnv).vbptrOffset := n3 hv0 hNt
    rw [f1]
    by_cases hg : (msLayoutNonVirtualBases t bases dyn
        hnv).hasVBPtr = true ∧
      (msLayoutNonVirtualBases t bases dyn hnv).sharedVBPtrBase
        = none
    · obtain ⟨v0, hv⟩ := r7 hg
      rw [hv]
      exact Int.natCast_nonneg _
    · rw [r6 hg]
      exact hNv

theorem msInjectVPtrs_spec (s : MSState) (bases : List MSBase)
    (fields : List MSField) (dyn hnv : Bool)
    (hscan : s.hasVBPtr = msHasVBPtrScan bases)
    (hinv : s.sharedVBPtrBase = none ∨ s.hasVBPtr = true)
    (hsinv : ∀ nb, s.sharedVBPtrBase = some nb → 0 ≤ nb.2.vbptrOffset)
    (h2 : ∀ b ∈ bases, b.layout.hasVBPtr = true →
      0 ≤ b.layout.vbptrOffset) :
    (msInjectVPtrs s bases fields dyn hnv).hasVBPtr = s.hasVBPtr ∧
    (msInjectVPtrs s bases fields dyn hnv).vbases = s.vbases ∧
    (s.hasVBPtr = false → s.vbptrOffset = -1 →
      (msInjectVPtrs s bases fields dyn hnv).vbptrOffset = -1) ∧
    (s.hasVBPtr = true → 0 ≤ s.vbptrOffset →
      0 ≤ (msInjectVPtrs s bases fields dyn hnv).vbptrOffset) := by
  obtain ⟨a1, a2, a3, a4, a5, a6, a7, a8, a9⟩ := msInjectVBPtr_spec s
  obtain ⟨b1, b2, b3, b4, b5, b6, b7, b8⟩ :=
    msInjectVFPtr_spec (msInjectVBPtr s)
  simp only [msInjectVPtrs]
  by_cases hc1 : s.hasOwnVFPtr = true ∨
      (s.hasVBPtr = true ∧ s.sharedVBPtrBase = none)
  · rw [if_neg (not_not_intro hc1)]
    by_cases hc2 : ¬s.is64BitMode = true ∨ s.requiredAlignment ≤ 8
    · rw [if_pos hc2]
      refine ⟨b1.trans a1, b2.trans a2, ?_, ?_⟩
      · intro hf hm1
        have hA : (msInjectVBPtr s).vbptrOffset = -1 :=
          (a8 (fun hc =>
            absurd (hf.symm.trans hc.1) (by decide))).trans hm1
        cases hvf : (msInjectVBPtr s).hasOwnVFPtr with
        | false => rw [b7 hvf, hA]
        | true =>
          rw [b8 hvf, if_neg (by simp [a1.trans hf]), hA]
      · intro ht hv
        have hAv : 0 ≤ (msInjectVBPtr s).vbptrOffset := by
          by_cases hsh : s.hasVBPtr = true ∧
            s.sharedVBPtrBase = none
          · rw [a9 hsh]
            exact Int.natCast_nonneg _
          · rw [a8 hsh]
            exact hv
        cases hvf : (msInjectVBPtr s).hasOwnVFPtr with
        | false =>
          rw [b7 hvf]
          exact hAv
        | true =>
          rw [b8 hvf]
          split_ifs with hb
          · have := Int.natCast_nonneg
              ((roundUp (msInjectVBPtr s).pointerSize
                (msInjectVBPtr s).alignment : Nat))
            omega
          · exact hAv
    · rw [if_neg hc2]
      simp only []
      by_cases hc3 : s.hasOwnVFPtr = true
      · rw [if_pos hc3]
        obtain ⟨w1, w2, w3, w4⟩ := msIVPTail_spec
          { s with
              fieldOffsets := []
              bases := []
              alignment := max s.alignment s.pointerAlignment
              size := s.pointerSize }
          bases fields dyn hnv hscan hinv hsinv h2
        exact ⟨w1, w2, fun hf _ => w3 hf, fun ht hv => w4 ht hv⟩
      · rw [if_neg hc3]
        obtain ⟨w1, w2, w3, w4⟩ := msIVPTail_spec
          { s with
              fieldOffsets := []
              bases := []
              size := 0
              alignment := max s.alignment s.pointerAlignment }
          bases fields dyn hnv hscan hinv hsinv h2
        exact ⟨w1, w2, fun hf _ => w3 hf, fun ht hv => w4 ht hv⟩
  · rw [if_pos hc1]
    exact ⟨rfl, rfl, fun _ h => h, fun _ h => h⟩

def layoutC6C : MSLayout := ⟨1, 1, 1, 0, -1, false, false, false, false⟩

def layoutC6A : MSLayout := ⟨6, 5, 1, 0, 0, true, false, false, false⟩

def layoutC6X : MSLayout := ⟨1, 1, 1, 0, -1, false, false, false, false⟩

def msRunD : MSState :=
  msCxxLayout false 0 0 false
    [⟨1, false, layoutC6C⟩, ⟨2, false, layoutC6A⟩] []
    [(3, layoutC6X)] [] false false

def msWitState : MSState :=
  { size := 4, dataSize := 4, alignment := 4, maxFieldAlignment := 0,
    requiredAlignment := 0, currentBitfieldSize := 0, vbptrOffset := 1,
    pointerSize := 4, pointerAlignment := 4, primaryBase := none,
    sharedVBPtrBase := none, fieldOffsets := [], bases := [],
    vbases := [], remainingBitsInField := 0, isUnion := false,
    lastFieldIsNonZeroWidthBitfield := false, hasOwnVFPtr := false,
    hasVBPtr := true, is64BitMode := false,
    hasZeroSizedSubObject := false, leadsWithZeroSizedBase := false }

theorem msCxxLayout_vbptr_iff (is64 : Bool) (rma pp : Nat) (pk : Bool)
    (bases : List MSBase) (fields : List MSField)
    (vbs : List (Nat × MSLayout)) (vts : List Nat) (dyn hnv : Bool)
    (hcons : vbs = [] ↔ msHasVBPtrScan bases = false)
    (h2 : ∀ b ∈ bases, b.layout.hasVBPtr = true →
      0 ≤ b.layout.vbptrOffset) :
    ((msCxxLayout is64 rma pp pk bases fields vbs vts dyn
        hnv).vbptrOffset = -1 ↔
      (msCxxLayout is64 rma pp pk bases fields vbs vts dyn
        hnv).vbases = []) := by
  simp only [msCxxLayout]
  set s1 := msInitializeCXXLayout
    (msInitializeLayout false is64 rma pp pk) with hs1
  set s2 := msLayoutNonVirtualBases s1 bases dyn hnv with hs2
  set s3 := msLayoutFields s2 fields with hs3
  set s4 := msInjectVPtrs s3 bases fields dyn hnv with hs4
  set s5 : MSState := { s4 with
    size := roundUp s4.size s4.alignment
    dataSize := roundUp s4.size s4.alignment } with hs5
  set s6 := msLayoutVirtualBases s5 vbs vts with hs6
  set s7 := msFinalizeLayout s6 with hs7
  have h1a : s1.hasVBPtr = false := rfl
  have h1b : s1.sharedVBPtrBase = none := rfl
  have h1c : s1.vbptrOffset = 0 := rfl
  have h1d : s1.vbases = [] := rfl
  obtain ⟨n1, n2, n3, n4, n5, n6, n7, n8, n9⟩ :=
    msLayoutNonVirtualBases_spec s1 bases dyn hnv (Or.inl h1b)
      (fun nb h => absurd (h1b.symm.trans h) (by simp)) h2
  obtain ⟨f1, f2, f3, f4, f5, f6⟩ := msLayoutFields_pres s2 fields
  have hswap : s2.hasVBPtr = msHasVBPtrScan bases := by
    rw [hs2, n1, h1a, Bool.false_or]
  have hswap2 : s3.hasVBPtr = msHasVBPtrScan bases := f2.trans hswap
  have hinv3 : s3.sharedVBPtrBase = none ∨ s3.hasVBPtr = true := by
    rcases n8 with h | h
    · exact Or.inl (f4.trans h)
    · exact Or.inr (f2.trans h)
  have hsinv3 : ∀ nb, s3.sharedVBPtrBase = some nb →
      0 ≤ nb.2.vbptrOffset :=
    fun nb h => n7 nb (f4.symm.trans h)
  obtain ⟨i1, i2, i3, i4⟩ :=
    msInjectVPtrs_spec s3 bases fields dyn hnv hswap2 hinv3 hsinv3 h2
  obtain ⟨v1, v2, v3, v4, v5, v6⟩ := msLayoutVirtualBases_spec s5 vbs
    vts
  obtain ⟨p1, p2, p3, p4, p5, p6⟩ := msFinalizeLayout_pres s6
  have h5v : s5.vbptrOffset = s4.vbptrOffset := by rw [hs5]
  have h5h : s5.hasVBPtr = s4.hasVBPtr := by rw [hs5]
  have h5b : s5.vbases = s4.vbases := by rw [hs5]
  have h4b : s4.vbases = [] := by
    rw [hs4]
    exact i2.trans (f3.trans (n4.trans h1d))
  cases hsc : msHasVBPtrScan bases with
  | false =>
    have h3f : s3.hasVBPtr = false := hswap2.trans hsc
    have h3m : s3.vbptrOffset = -1 := by
      rw [hs3, f1]
      exact n2 (hswap.trans hsc)
    have h4m : s4.vbptrOffset = -1 := by
      rw [hs4]
      exact i3 h3f h3m
    have h7m : s7.vbptrOffset = -1 := by
      rw [hs7]
      exact p4.trans (v4.trans (h5v.trans h4m))
    have h4h : s4.hasVBPtr = false := by
      rw [hs4]
      exact i1.trans h3f
    have h5hf : s5.hasVBPtr = false := h5h.trans h4h
    have h6b : s6.vbases = [] := by
      rw [h5hf] at v6
      rw [if_neg (by decide)] at v6
      refine List.length_eq_zero.mp ?_
      rw [hs6, v6, h5b.trans h4b]
      rfl
    have h7b : s7.vbases = [] := by
      rw [hs7]
      exact p5.trans h6b
    exact iff_of_true h7m h7b
  | true =>
    have hvbs : vbs ≠ [] := fun he => absurd (hcons.mp he)
      (by rw [hsc]; decide)
    have h3t : s3.hasVBPtr = true := hswap2.trans hsc
    have h2v : 0 ≤ s2.vbptrOffset :=
      n3 (le_of_eq h1c.symm) (hswap.trans hsc)
    have h3v : 0 ≤ s3.vbptrOffset := by
      rw [hs3, f1]
      exact h2v
    have h4v : 0 ≤ s4.vbptrOffset := by
      rw [hs4]
      exact i4 h3t h3v
    have h7v : 0 ≤ s7.vbptrOffset := by
      rw [hs7, p4, hs6, v4, h5v]
      exact h4v
    have h7ne : s7.vbptrOffset ≠ -1 := by
      intro he
      rw [he] at h7v
      exact absurd h7v (by decide)
    have h4h : s4.hasVBPtr = true := by
      rw [hs4]
      exact i1.trans h3t
    have h5ht : s5.hasVBPtr = true := h5h.trans h4h
    have h6len : s6.vbases.length = vbs.length := by
      rw [hs6, v6, h5ht, if_pos rfl, h5b.trans h4b,
        List.length_nil, Nat.zero_add]
    have h7nb : s7.vbases ≠ [] := by
      intro he
      have hl : s7.vbases.length = 0 := by rw [he]; rfl
      rw [hs7, p5, h6len] at hl
      exact hvbs (List.length_eq_zero.mp hl)
    exact iff_of_false h7ne h7nb

theorem msInjectVBPtr_aligned (s : MSState)
    (h1 : s.hasVBPtr = true) (h2 : s.sharedVBPtrBase = none)
    (hpa : s.pointerAlignment ≠ 0) :
    (s.pointerAlignment : Int) ∣ (msInjectVBPtr s).vbptrOffset := by
  obtain ⟨a1, a2, a3, a4, a5, a6, a7, a8, a9⟩ := msInjectVBPtr_spec s
  rw [a9 ⟨h1, h2⟩]
  exact Int.natCast_dvd_natCast.mpr (dvd_roundUp _ _ hpa)

theorem msRelayoutVBPtr_aligned (s : MSState) (bases : List MSBase)
    (h1 : s.hasVBPtr = true) (h2 : s.sharedVBPtrBase = none)
    (hpa : s.pointerAlignment ≠ 0) :
    (s.pointerAlignment : Int)
      ∣ (msRelayoutVBPtr s bases).vbptrOffset := by
  obtain ⟨r1, r2, r3, r4, r5, r6, r7⟩ := msRelayoutVBPtr_spec s bases
  obtain ⟨v0, hv⟩ := r7 ⟨h1, h2⟩
  rw [hv]
  exact Int.natCast_dvd_natCast.mpr (dvd_roundUp _ _ hpa)

/-- C6 counterexample: the Microsoft layout of
`struct D : virtual X { }` built over a first non-virtual empty base C
at offset 0 and a second non-virtual base A (size 6, dataSize 5) whose
vbptr sits at offset 0 within A shares A's vbptr: the resulting
vbPtrOffset is the base offset of A (1) plus A's vbptr offset (0) = 1,
which is non-negative but not a multiple of the pointer alignment 4,
refuting the alignment half of the claim (vbaseOffsets is nonempty, so
the iff half is not at issue here). -/
theorem ms_vbptr_alignment_counterexample :
    msRunD.vbptrOffset = 1 ∧ msRunD.pointerAlignment = 4 ∧
    msRunD.vbases ≠ [] ∧ 0 ≤ msRunD.vbptrOffset ∧
    ¬((msRunD.pointerAlignment : Int) ∣ msRunD.vbptrOffset) := by
  decide

/-- C6 (amended): under the Microsoft builder, (1) for a complete
`cxxLayout` run whose virtual-base list is empty exactly when no direct
base is virtual or carries a vbptr, and whose base layouts record
non-negative vbptr offsets, the final vbPtrOffset equals -1 exactly when
the final vbaseOffsets list is empty; and (2) when the class injects its
own vbptr (hasVBPtr with no shared vbptr base), both the 32-bit
`injectVBPtr` placement and the 64-bit relayout placement round the
offset up to the pointer alignment, so the injected vbptr offset is
pointer-aligned whenever the pointer alignment is nonzero. A shared
vbptr offset (base offset plus the base's own vbptr offset) need not be
pointer-aligned, as the counterexample shows. -/
theorem ms_vbptr_offset_spec :
    (∀ (is64 : Bool) (rma pp : Nat) (pk : Bool) (bases : List MSBase)
      (fields : List MSField) (vbs : List (Nat × MSLayout))
      (vts : List Nat) (dyn hnv : Bool),
      (vbs = [] ↔ msHasVBPtrScan bases = false) →
      (∀ b ∈ bases, b.layout.hasVBPtr = true →
        0 ≤ b.layout.vbptrOffset) →
      ((msCxxLayout is64 rma pp pk bases fields vbs vts dyn
          hnv).vbptrOffset = -1 ↔
        (msCxxLayout is64 rma pp pk bases fields vbs vts dyn
          hnv).vbases = [])) ∧
    (∀ (s : MSState) (bases : List MSBase), s.hasVBPtr = true →
      s.sharedVBPtrBase = none → s.pointerAlignment ≠ 0 →
      ((s.pointerAlignment : Int) ∣ (msInjectVBPtr s).vbptrOffset ∧
        (s.pointerAlignment : Int)
          ∣ (msRelayoutVBPtr s bases).vbptrOffset)) :=
  ⟨fun is64 rma pp pk bases fields vbs vts dyn hnv hcons h2 =>
    msCxxLayout_vbptr_iff is64 rma pp pk bases fields vbs vts dyn hnv
      hcons h2,
   fun s bases h1 h2 hpa =>
    ⟨msInjectVBPtr_aligned s h1 h2 hpa,
     msRelayoutVBPtr_aligned s bases h1 h2 hpa⟩⟩

theorem ms_vbptr_offset_spec_witness :
    ((msCxxLayout false 0 0 false [] [] [] [] false
        false).vbptrOffset = -1 ↔
      (msCxxLayout false 0 0 false [] [] [] [] false
        false).vbases = []) ∧
    ((msWitState.pointerAlignment : Int)
        ∣ (msInjectVBPtr msWitState).vbptrOffset ∧
      (msWitState.pointerAlignment : Int)
        ∣ (msRelayoutVBPtr msWitState []).vbptrOffset) :=
  ⟨ms_vbptr_offset_spec.1 false 0 0 false [] [] [] [] false false
      (by simp [msHasVBPtrScan]) (by intro b hb; cases hb),
   ms_vbptr_offset_spec.2 msWitState [] (by decide) (by decide)
      (by decide)⟩
